import Mathlib

/-!
A shallow embedding of the Atari Go engine (go.py): the Group / State data
structures with their incremental liberty-tracking update, and the Game rule
functions (actions, not_suicide, terminal_test, utility, result), together
with proofs of the specified invariants and functional properties.

Conventions of the embedding:
* Python lists of rows become List (List Nat); the board value 0 is an empty
  cell, nonzero values are group identifiers (odd for player 1, even for
  player 2) on the group board, or the player number on an input board.
* Python sets of coordinates become Finset (Nat x Nat).
* Python dicts from group id to Group become association lists
  List (Nat x Group), appended in insertion order as CPython dicts preserve.
* Python integers become Int where they can be compared to -1 (the draw
  cache) or decremented (liberty counters), Nat for indices and counters.
* Mutation becomes explicit state passing: functions that mutate a State in
  the source return the updated State (paired with their return value).
* The source iterates over a Python set when merging groups
  (wanted_group_list); CPython set iteration order is unspecified, so the
  embedding keeps the collected ids in a duplicate-free list in first-arrival
  order and pops the head.  None of the proved properties depend on which
  member is popped.
-/

namespace AtariGo

abbrev Pos : Type := Nat × Nat

/-- Read a cell of a square Nat matrix, defaulting to 0 out of bounds.
All accesses performed by the source are bounds-checked before the read, so
the default is never consulted on the source's executions. -/
def cell (b : List (List Nat)) (r c : Nat) : Nat :=
  (b.getD r []).getD c 0

/-- Write a cell of a square Nat matrix (no-op out of bounds, mirroring the
fact that the source only writes in bounds). -/
def setCell (b : List (List Nat)) (r c v : Nat) : List (List Nat) :=
  b.set r ((b.getD r []).set c v)

/-- go.py line 1: infinity = 9999, the sentinel used by Game.utility for a
player with no groups. -/
def infinitySentinel : Int := 9999

/-- Group (go.py lines 4-117): a connected component of one player's stones,
with its cached liberty set and liberty count. -/
structure Group where
  elements : List Pos
  liberties : Finset Pos
  n_liberties : Int
deriving DecidableEq

namespace Group

/-- Group.__init__: a singleton group holding its initial element, with an
empty liberty set and a zero count. -/
def init (initial_element : Pos) : Group :=
  { elements := [initial_element], liberties := ∅, n_liberties := 0 }

/-- Group.__copy__: fresh copies of the element list, the liberty set and
the count; structurally the identity. -/
def copy (g : Group) : Group :=
  { elements := g.elements, liberties := g.liberties, n_liberties := g.n_liberties }

/-- Group.add_element: extends the element list. -/
def add_element (g : Group) (element : List Pos) : Group :=
  { g with elements := g.elements ++ element }

/-- Group.add_liberty: inserts into the liberty set and increments the count
only when the set actually grew. -/
def add_liberty (g : Group) (liberty : Pos) : Group :=
  if liberty ∈ g.liberties then g
  else { g with liberties := insert liberty g.liberties, n_liberties := g.n_liberties + 1 }

/-- Group.remove_liberty: removes the coordinate if present and decrements
the count; removing an absent coordinate is a silent no-op (the source wraps
set.remove in try/except). -/
def remove_liberty (g : Group) (row col : Nat) : Group :=
  if (row, col) ∈ g.liberties then
    { g with liberties := g.liberties.erase (row, col), n_liberties := g.n_liberties - 1 }
  else g

/-- Group.add_liberties: scans the four orthogonal neighbors of (row, col)
inside the board bounds and adds each empty one as a liberty.  The source
uses len(board) as the bound on both axes. -/
def add_liberties (g : Group) (row col : Nat) (board : List (List Nat)) : Group :=
  let g1 := if 1 ≤ row ∧ cell board (row - 1) col = 0 then g.add_liberty (row - 1, col) else g
  let g2 := if row + 1 < board.length ∧ cell board (row + 1) col = 0 then
      g1.add_liberty (row + 1, col) else g1
  let g3 := if 1 ≤ col ∧ cell board row (col - 1) = 0 then g2.add_liberty (row, col - 1) else g2
  if col + 1 < board.length ∧ cell board row (col + 1) = 0 then
    g3.add_liberty (row, col + 1) else g3

/-- Group.merge_groups: absorbs the other group's elements, and folds its
liberties in through add_liberty; the net effect of that loop is the union
of the liberty sets, with the count incremented once per liberty of the
other group that was genuinely new. -/
def merge_groups (g other : Group) : Group :=
  { elements := g.elements ++ other.elements,
    liberties := g.liberties ∪ other.liberties,
    n_liberties := g.n_liberties + ((other.liberties \ g.liberties).card : Int) }

end Group

/-- A player's group registry (a Python dict from group id to Group),
as an association list in insertion order. -/
abbrev Registry : Type := List (Nat × Group)

/-- Dict lookup: first entry with the given key. -/
def regFind (reg : Registry) (k : Nat) : Option Group :=
  match reg with
  | [] => none
  | e :: rest => if e.1 = k then some e.2 else regFind rest k

/-- Dict lookup where the source would have raised KeyError on a missing
key; on the states the source actually reaches the key is present. -/
def regFindD (reg : Registry) (k : Nat) : Group :=
  (regFind reg k).getD (Group.init (0, 0))

/-- In-place mutation of the group stored under a key (a no-op on a missing
key, where the source would have raised KeyError). -/
def regSet (reg : Registry) (k : Nat) (f : Group → Group) : Registry :=
  reg.map (fun e => if e.1 = k then (e.1, f e.2) else e)

/-- dict.pop: drop the entry with the given key. -/
def regPop (reg : Registry) (k : Nat) : Registry :=
  match reg with
  | [] => []
  | e :: rest => if e.1 = k then regPop rest k else e :: regPop rest k

/-- Fresh copies of every group of a registry (State.__copy__ copies each
Group object); structurally the identity. -/
def regCopy (reg : Registry) : Registry :=
  reg.map (fun e => (e.1, e.2.copy))

/-- State (go.py lines 120-388): next player, the draw flag (-1 unknown, 0
evaluated and no draw, 1 evaluated draw; update_state assigns the Python
Boolean False, which compares equal to 0), board size, the group board, the
two players' registries and the two id counters. -/
structure State where
  player : Nat
  draw : Int
  size : Nat
  group_board : List (List Nat)
  groups1 : Registry
  groups2 : Registry
  counter1 : Nat
  counter2 : Nat
deriving DecidableEq

namespace State

/-- self.groups[p]. -/
def groupsOf (s : State) (p : Nat) : Registry :=
  if p = 1 then s.groups1 else s.groups2

/-- Store back self.groups[p]. -/
def setGroups (s : State) (p : Nat) (reg : Registry) : State :=
  if p = 1 then { s with groups1 := reg } else { s with groups2 := reg }

/-- self.counters[p]. -/
def counterOf (s : State) (p : Nat) : Nat :=
  if p = 1 then s.counter1 else s.counter2

/-- Store back self.counters[p]. -/
def setCounter (s : State) (p : Nat) (k : Nat) : State :=
  if p = 1 then { s with counter1 := k } else { s with counter2 := k }

/-- State.get_group_player: parity of the group id gives its owner. -/
def get_group_player (group_number : Nat) : Nat :=
  if group_number % 2 = 0 then 2 else 1

/-- State.__copy__: builds a fresh State through State.__init__ with
copy=True (so the constructor resets draw to -1), then installs copies of
the group board rows, the counters and every Group object. -/
def copy (s : State) : State :=
  { player := s.player, draw := -1, size := s.size,
    group_board := s.group_board.map (fun row => row),
    groups1 := regCopy s.groups1, groups2 := regCopy s.groups2,
    counter1 := s.counter1, counter2 := s.counter2 }

/-- State.find_neighboring_groups: if the neighbor cell carries a group id,
remove the liberty at the move position from that group (whoever owns it)
and, when the owner is the mover, record the id in the merge list. -/
def find_neighboring_groups (s : State) (group_list : List Nat) (neighbor_pos my_pos : Pos)
    (player : Nat) : List Nat × State :=
  let group := cell s.group_board neighbor_pos.1 neighbor_pos.2
  if group ≠ 0 then
    let neighbor_player := get_group_player group
    let s' := s.setGroups neighbor_player
      (regSet (s.groupsOf neighbor_player) group (fun g => g.remove_liberty my_pos.1 my_pos.2))
    if neighbor_player = player then
      ((if group ∈ group_list then group_list else group_list ++ [group]), s')
    else (group_list, s')
  else (group_list, s)

/-- The merge loop body of State.update_groups: absorb one group into the
survivor, drop it from the registry, and relabel its cells on the board. -/
def mergeOne (player first : Nat) (s : State) (group : Nat) : State :=
  match regFind (s.groupsOf player) group with
  | some absorbed =>
    let s := s.setGroups player
      (regSet (s.groupsOf player) first (fun fg => fg.merge_groups absorbed))
    let s := s.setGroups player (regPop (s.groupsOf player) group)
    { s with group_board :=
        absorbed.elements.foldl (fun gb e => setCell gb e.1 e.2 first) s.group_board }
  | none => s

/-- The liberty-removal and group-collection pass of State.update_groups
(go.py lines 325-340): probe the four neighbors in the source's order (up,
down, right, left), removing the played point from each adjacent group's
liberties and collecting the mover's adjacent group ids. -/
def phaseA (s : State) (player row col : Nat) : List Nat × State :=
  let st1 := if 1 ≤ row then s.find_neighboring_groups [] (row - 1, col) (row, col) player
             else ([], s)
  let st2 := if row + 1 < st1.2.size then
               st1.2.find_neighboring_groups st1.1 (row + 1, col) (row, col) player else st1
  let st3 := if col + 1 < st2.2.size then
               st2.2.find_neighboring_groups st2.1 (row, col + 1) (row, col) player else st2
  if 1 ≤ col then st3.2.find_neighboring_groups st3.1 (row, col - 1) (row, col) player else st3

/-- The join-and-merge case of State.update_groups (go.py lines 342-365):
the stone joins the first collected group, scans its liberties on the
updated group board, and the remaining collected groups are merged in. -/
def joinCase (s : State) (player row col first : Nat) (rest : List Nat) : State :=
  let s := { s with group_board := setCell s.group_board row col first }
  let s := s.setGroups player (regSet (s.groupsOf player) first
    (fun g => (g.add_element [(row, col)]).add_liberties row col s.group_board))
  rest.foldl (mergeOne player first) s

/-- The lone-stone case of State.update_groups (go.py lines 367-376):
allocate a fresh group id, register a singleton group, label the board,
advance the counter and scan the stone's liberties. -/
def loneCase (s : State) (player row col : Nat) : State :=
  let k := s.counterOf player
  let s := s.setGroups player (s.groupsOf player ++ [(k, Group.init (row, col))])
  let s := { s with group_board := setCell s.group_board row col k }
  let s := s.setCounter player (k + 2)
  let g := cell s.group_board row col
  s.setGroups player (regSet (s.groupsOf player) g
    (fun gr => gr.add_liberties row col s.group_board))

/-- State.update_groups (go.py lines 311-376): remove the played point from
every neighboring group's liberties while collecting the mover's adjacent
group ids; then either join and merge those groups, or create a fresh
singleton group. -/
def update_groups (s : State) (move : Nat × Nat × Nat) : State :=
  let player := move.1
  let row := move.2.1
  let col := move.2.2
  let st4 := s.phaseA player row col
  match st4.1 with
  | first :: rest => st4.2.joinCase player row col first rest
  | [] => st4.2.loneCase player row col

/-- State.update_state: advance the player (3 - player), assign draw :=
False (which equals 0 in every comparison the source performs), and run the
incremental group update. -/
def update_state (s : State) (a : Nat × Nat × Nat) : State :=
  let s := { s with player := 3 - s.player }
  let s := { s with draw := 0 }
  s.update_groups a

end State

/-- The accumulator of State.initialize_groups: the group board being
labeled, the two registries and the two id counters. -/
structure ScanSt where
  gb : List (List Nat)
  g1 : Registry
  g2 : Registry
  c1 : Nat
  c2 : Nat
deriving DecidableEq

namespace ScanSt

def groupsOf (st : ScanSt) (p : Nat) : Registry :=
  if p = 1 then st.g1 else st.g2

def setGroups (st : ScanSt) (p : Nat) (reg : Registry) : ScanSt :=
  if p = 1 then { st with g1 := reg } else { st with g2 := reg }

def counterOf (st : ScanSt) (p : Nat) : Nat :=
  if p = 1 then st.c1 else st.c2

def setCounter (st : ScanSt) (p : Nat) (k : Nat) : ScanSt :=
  if p = 1 then { st with c1 := k } else { st with c2 := k }

end ScanSt

/-- The top-neighbor check of State.initialize_groups (go.py lines 215-224):
when the cell above is an already-grouped stone of the same player, label
the current cell with that group and add it to the group's elements. -/
def init_top (board : List (List Nat)) (st : ScanSt) (row col player : Nat) : ScanSt :=
  if 1 ≤ row then
    let top_neighbor := cell board (row - 1) col
    let top_neighbor_group := cell st.gb (row - 1) col
    if top_neighbor_group ≠ 0 ∧ top_neighbor = player then
      let st := { st with gb := setCell st.gb row col top_neighbor_group }
      st.setGroups player (regSet (st.groupsOf player) top_neighbor_group
        (fun g => g.add_element [(row, col)]))
    else st
  else st

/-- The left-neighbor check of State.initialize_groups (go.py lines
226-251): when the cell to the left is an already-grouped stone of the same
player, either merge its group into the one the cell just joined (when they
differ), or join it when the cell is still unassigned. -/
def init_left (board : List (List Nat)) (st : ScanSt) (row col player : Nat) : ScanSt :=
  if 1 ≤ col then
    let left_neighbor := cell board row (col - 1)
    let left_neighbor_group := cell st.gb row (col - 1)
    if left_neighbor_group ≠ 0 ∧ left_neighbor = player then
      if cell st.gb row col ≠ 0 ∧ left_neighbor_group ≠ cell st.gb row col then
        let group := cell st.gb row col
        match regFind (st.groupsOf player) left_neighbor_group with
        | some absorbed =>
          let st := st.setGroups player (regSet (st.groupsOf player) group
            (fun g => g.merge_groups absorbed))
          let st := st.setGroups player (regPop (st.groupsOf player) left_neighbor_group)
          { st with gb :=
              absorbed.elements.foldl (fun gb e => setCell gb e.1 e.2 group) st.gb }
        | none => st
      else if cell st.gb row col = 0 then
        let st := { st with gb := setCell st.gb row col left_neighbor_group }
        st.setGroups player (regSet (st.groupsOf player) left_neighbor_group
          (fun g => g.add_element [(row, col)]))
      else st
    else st
  else st

/-- The fresh-group case of State.initialize_groups (go.py lines 254-257):
when the cell is still unassigned, allocate a new group id for the player
and register a singleton group. -/
def init_newg (st : ScanSt) (row col player : Nat) : ScanSt :=
  if cell st.gb row col = 0 then
    let k := st.counterOf player
    let st := st.setGroups player (st.groupsOf player ++ [(k, Group.init (row, col))])
    let st := { st with gb := setCell st.gb row col k }
    st.setCounter player (k + 2)
  else st

/-- The final liberty scan of State.initialize_groups (go.py lines
260-261): add the cell's liberties to the group it ended up in, scanning
the static initial board. -/
def init_libs (board : List (List Nat)) (st : ScanSt) (row col player : Nat) : ScanSt :=
  let group := cell st.gb row col
  st.setGroups player (regSet (st.groupsOf player) group
    (fun g => g.add_liberties row col board))

/-- The body of the row-major scan of State.initialize_groups for one cell
(go.py lines 210-261): skip empty cells; otherwise run the top-neighbor
check, the left-neighbor check, the fresh-group case and the liberty scan
in order. -/
def init_step (board : List (List Nat)) (st : ScanSt) (pos : Pos) : ScanSt :=
  let row := pos.1
  let col := pos.2
  let player := cell board row col
  if player = 0 then st else
  init_libs board
    (init_newg (init_left board (init_top board st row col player) row col player)
      row col player) row col player

/-- State.initialize_groups (go.py lines 178-263): the nested row-major
loops over the initial board, starting from an all-zero group board, empty
registries and counters 1 and 2. -/
def init_groups (board : List (List Nat)) : ScanSt :=
  (List.range board.length).foldl
    (fun st row => (List.range board.length).foldl
      (fun st col => init_step board st (row, col)) st)
    { gb := (List.range board.length).map (fun _ => (List.range board.length).map (fun _ => 0)),
      g1 := [], g2 := [], c1 := 1, c2 := 2 }

/-- State.__init__ with copy=False: draw is -1 and the group structures come
from initialize_groups on the initial board. -/
def stateFromBoard (player size : Nat) (board : List (List Nat)) : State :=
  let sc := init_groups board
  { player := player, draw := -1, size := size, group_board := sc.gb,
    groups1 := sc.g1, groups2 := sc.g2, counter1 := sc.c1, counter2 := sc.c2 }

namespace Game

/-- Game.to_move. -/
def to_move (s : State) : Nat := s.player

/-- Game.not_suicide (go.py lines 554-579): the per-neighbor legality test.
An empty neighbor (group id 0) returns True; a mover-owned neighbor group
with more than one liberty returns True; an opponent group with exactly one
liberty returns True; anything else returns False. -/
def not_suicide (s : State) (row col : Nat) : Bool :=
  let group := cell s.group_board row col
  if group = 0 then true
  else
    let player := State.get_group_player group
    let group_liberties := (regFindD (s.groupsOf player) group).n_liberties
    if player = s.player ∧ group_liberties > 1 then true
    else if player ≠ s.player ∧ group_liberties = 1 then true
    else false

/-- Game.actions (go.py lines 515-552): scan the board in row-major order;
for each empty cell try the four neighbor directions in the source's order
(up, down, left, right) and emit the 1-indexed action for the first
direction whose not_suicide test passes. -/
def actions (s : State) : List (Nat × Nat × Nat) :=
  ((List.range s.size).flatMap (fun row => (List.range s.size).map (fun col => (row, col)))).filterMap
    (fun pos =>
      let row := pos.1
      let col := pos.2
      if cell s.group_board row col = 0 then
        if 1 ≤ row ∧ not_suicide s (row - 1) col then some (s.player, row + 1, col + 1)
        else if row + 1 < s.size ∧ not_suicide s (row + 1) col then some (s.player, row + 1, col + 1)
        else if 1 ≤ col ∧ not_suicide s row (col - 1) then some (s.player, row + 1, col + 1)
        else if col + 1 < s.size ∧ not_suicide s row (col + 1) then some (s.player, row + 1, col + 1)
        else none
      else none)

/-- True when some group of either player has a zero liberty count (the
capture condition scanned by Game.terminal_test). -/
def hasZeroGroup (s : State) : Bool :=
  (s.groups1.any fun e => decide (e.2.n_liberties = 0)) ||
  (s.groups2.any fun e => decide (e.2.n_liberties = 0))

/-- Game.terminal_test (go.py lines 422-459): set draw to 0; the state is
terminal when some group has zero liberties, or else when the action list is
empty, in which case draw becomes 1.  Returns the flag and the state it
mutated. -/
def terminal_test (s : State) : Bool × State :=
  let s := { s with draw := 0 }
  if hasZeroGroup s then (true, s)
  else if (actions s).isEmpty then (true, { s with draw := 1 })
  else (false, s)

/-- The minimum liberty count over a registry, starting from the 9999
sentinel (the loops of Game.utility). -/
def minLib (reg : Registry) : Int :=
  reg.foldl (fun m e => if e.2.n_liberties < m then e.2.n_liberties else m) infinitySentinel

/-- The sum of liberty counts over a registry (computed and never used by
Game.utility; kept for faithfulness). -/
def sumLib (reg : Registry) : Int :=
  reg.foldl (fun acc e => acc + e.2.n_liberties) 0

/-- Game.utility (go.py lines 461-513): run terminal_test first when the
draw cache is -1; a draw returns 0; with both minima zero the player not to
move wins; a single zero minimum decides the game; otherwise the normalized
liberty differential.  Returns the value and the possibly mutated state. -/
def utility (s : State) (player : Nat) : Rat × State :=
  let s := if s.draw = -1 then (terminal_test s).2 else s
  if s.draw = 1 then (0, s) else
  let own_min := minLib (s.groupsOf player)
  let _own_liberties := sumLib (s.groupsOf player)
  let other_min := minLib (s.groupsOf (3 - player))
  let _other_liberties := sumLib (s.groupsOf (3 - player))
  if other_min = 0 ∧ own_min = 0 then
    (if s.player ≠ player then 1 else -1, s)
  else if other_min = 0 then (1, s)
  else if own_min = 0 then (-1, s)
  else (((own_min - other_min : Int) : Rat) / ((own_min + other_min : Int) : Rat), s)

/-- Game.result (go.py lines 581-602): shift the 1-indexed action to
0-indexed coordinates, clone the state and apply the move to the clone. -/
def result (s : State) (a : Nat × Nat × Nat) : State :=
  s.copy.update_state (a.1, a.2.1 - 1, a.2.2 - 1)

end Game

/-- A board every entry of which is 0, 1 or 2, arranged as a square matrix
(the shape the external loader delivers). -/
def validBoard (board : List (List Nat)) : Prop :=
  (∀ row ∈ board, row.length = board.length) ∧
  ∀ row ∈ board, ∀ v ∈ row, v = 0 ∨ v = 1 ∨ v = 2

/-- The states reachable from a valid initial board by playing moves of the
current player on empty in-bounds cells (the only way the engine is driven:
result applies actions produced by Game.actions, which name empty in-bounds
cells of the mover). -/
inductive Reachable : State → Prop
  | init (player size : Nat) (board : List (List Nat)) :
      (player = 1 ∨ player = 2) → validBoard board → size = board.length →
      Reachable (stateFromBoard player size board)
  | step (s : State) (r c : Nat) :
      Reachable s → r < s.size → c < s.size → cell s.group_board r c = 0 →
      Reachable (s.update_state (s.player, r, c))

/-! ### Specification-side notions: adjacency, liberty sets, the invariant -/

/-- The cells of an n by n board. -/
def boardCells (n : Nat) : Finset Pos := Finset.range n ×ˢ Finset.range n

/-- Orthogonal adjacency of two coordinates. -/
def adj (a b : Pos) : Prop :=
  (a.1 = b.1 ∧ (a.2 + 1 = b.2 ∨ b.2 + 1 = a.2)) ∨
  (a.2 = b.2 ∧ (a.1 + 1 = b.1 ∨ b.1 + 1 = a.1))

instance (a b : Pos) : Decidable (adj a b) := by
  unfold adj; exact inferInstance

/-- The empty cells of a board that are orthogonally adjacent to at least one
element of E: the specified liberty set of a group with elements E. -/
def libSpecF (board : List (List Nat)) (n : Nat) (E : Finset Pos) : Finset Pos :=
  (boardCells n).filter (fun x => cell board x.1 x.2 = 0 ∧ ∃ e ∈ E, adj x e)

/-- The cells of the group board carrying a given group id. -/
def cellsOf (gb : List (List Nat)) (n : Nat) (k : Nat) : Finset Pos :=
  (boardCells n).filter (fun x => cell gb x.1 x.2 = k)

/-- The group whose liberties the four bounds-checked neighbor probes of
Group.add_liberties insert, as a set: the in-bounds empty neighbors of the
scanned point (bounds taken from the board's length, as in the source). -/
def nbEmpty (board : List (List Nat)) (row col : Nat) : Finset Pos :=
  (if 1 ≤ row ∧ cell board (row - 1) col = 0 then {((row - 1 : Nat), col)} else ∅) ∪
  (if row + 1 < board.length ∧ cell board (row + 1) col = 0 then {((row + 1 : Nat), col)} else ∅) ∪
  (if 1 ≤ col ∧ cell board row (col - 1) = 0 then {(row, (col - 1 : Nat))} else ∅) ∪
  (if col + 1 < board.length ∧ cell board row (col + 1) = 0 then {(row, (col + 1 : Nat))} else ∅)

/-- Correctness of one registered group with respect to an emptiness board
(whose zero cells are the empty ones) and the labeled group board: its
element list covers exactly the cells labeled with its id, its liberty set
is the specified one, and the cached count is that set's cardinality. -/
def GroupOkOn (board gb : List (List Nat)) (n k : Nat) (g : Group) : Prop :=
  g.elements.toFinset = cellsOf gb n k ∧
  g.liberties = libSpecF board n g.elements.toFinset ∧
  g.n_liberties = (g.liberties.card : Int)

/-- Correctness of a player's whole registry: distinct keys, each of the
owner's parity, nonzero, below the allocation counter, and each group
correct. -/
def RegOk (board gb : List (List Nat)) (n p cnt : Nat) (reg : Registry) : Prop :=
  (reg.map Prod.fst).Nodup ∧
  ∀ e ∈ reg, e.1 % 2 = p % 2 ∧ e.1 ≠ 0 ∧ e.1 < cnt ∧ GroupOkOn board gb n e.1 e.2

/-- The full state invariant: well-sized grids, well-formed counters and
registries (emptiness read off the group board itself), and every nonzero
label on the board registered with its parity owner. -/
structure StInv (s : State) : Prop where
  psz : s.player = 1 ∨ s.player = 2
  glen : s.group_board.length = s.size
  rlen : ∀ row ∈ s.group_board, row.length = s.size
  c1odd : s.counter1 % 2 = 1
  c2even : s.counter2 % 2 = 0
  c2pos : s.counter2 ≠ 0
  reg1 : RegOk s.group_board s.group_board s.size 1 s.counter1 s.groups1
  reg2 : RegOk s.group_board s.group_board s.size 2 s.counter2 s.groups2
  cover : ∀ r c : Nat, r < s.size → c < s.size → cell s.group_board r c ≠ 0 →
    ∃ g, regFind (s.groupsOf (State.get_group_player (cell s.group_board r c)))
           (cell s.group_board r c) = some g

/-! ### Basic lemmas about grids -/

theorem getD_set_self {α : Type} (l : List α) (i : Nat) (v d : α) (h : i < l.length) :
    (l.set i v).getD i d = v := by
  induction l generalizing i with
  | nil => simp at h
  | cons a t ih =>
    cases i with
    | zero => simp [List.set]
    | succ j => simpa [List.set] using ih j (by simpa using h)

theorem getD_set_ne {α : Type} (l : List α) (i j : Nat) (v d : α) (h : i ≠ j) :
    (l.set i v).getD j d = l.getD j d := by
  induction l generalizing i j with
  | nil => simp [List.set]
  | cons a t ih =>
    cases i with
    | zero =>
      cases j with
      | zero => exact absurd rfl h
      | succ j' => simp [List.set]
    | succ i' =>
      cases j with
      | zero => simp [List.set]
      | succ j' => simpa [List.set] using ih i' j' (by omega)

theorem getD_set_oob {α : Type} (l : List α) (i : Nat) (v : α) (h : l.length ≤ i) :
    l.set i v = l := by
  induction l generalizing i with
  | nil => simp
  | cons a t ih =>
    cases i with
    | zero => simp at h
    | succ j => simpa using ih j (by simpa using h)

theorem length_setCell (b : List (List Nat)) (r c v : Nat) :
    (setCell b r c v).length = b.length := by
  simp [setCell]

theorem rlen_setCell (b : List (List Nat)) (r c v n : Nat)
    (h : ∀ row ∈ b, row.length = n) : ∀ row ∈ setCell b r c v, row.length = n := by
  by_cases hr : r < b.length
  · intro row hrow
    rcases List.mem_or_eq_of_mem_set hrow with h1 | h2
    · exact h row h1
    · subst h2
      rw [List.length_set]
      have hget : b.getD r [] = b[r] := by
        simp [List.getD, List.getElem?_eq_getElem hr]
      rw [hget]
      exact h _ (List.getElem_mem hr)
  · unfold setCell
    rw [getD_set_oob b r _ (by omega)]
    exact h

theorem cell_setCell_self (b : List (List Nat)) (r c v : Nat)
    (hr : r < b.length) (hc : c < (b.getD r []).length) :
    cell (setCell b r c v) r c = v := by
  unfold cell setCell
  rw [getD_set_self _ _ _ _ hr]
  exact getD_set_self _ _ _ _ hc

theorem cell_setCell_ne (b : List (List Nat)) (r c v r' c' : Nat)
    (h : (r, c) ≠ (r', c')) : cell (setCell b r' c' v) r c = cell b r c := by
  unfold cell setCell
  by_cases hrr : r' = r
  · have hc : c' ≠ c := by
      intro hcc; exact h (by rw [hrr, hcc])
    rw [hrr]
    by_cases hlt : r < b.length
    · rw [getD_set_self _ _ _ _ hlt]
      exact getD_set_ne _ _ _ _ _ hc
    · rw [getD_set_oob _ _ _ (by omega)]
  · rw [getD_set_ne _ _ _ _ _ hrr]

theorem rowlen_setCell (b : List (List Nat)) (r c v r' : Nat) :
    ((setCell b r c v).getD r' []).length = (b.getD r' []).length := by
  unfold setCell
  by_cases hrr : r = r'
  · subst hrr
    by_cases hlt : r < b.length
    · rw [getD_set_self _ _ _ _ hlt]
      exact List.length_set _ _ _
    · rw [getD_set_oob _ _ _ (by omega)]
  · rw [getD_set_ne _ _ _ _ _ hrr]

/-! ### Registry lemmas -/

theorem regFind_mem {reg : Registry} {k : Nat} {g : Group} (h : regFind reg k = some g) :
    (k, g) ∈ reg := by
  induction reg with
  | nil => simp [regFind] at h
  | cons e rest ih =>
    simp only [regFind] at h
    by_cases he : e.1 = k
    · rw [if_pos he] at h
      have hg : e.2 = g := by injection h
      have hek : e = (k, g) := by
        obtain ⟨a, b⟩ := e
        simp only at he hg
        rw [he, hg]
      exact List.mem_cons.mpr (Or.inl hek.symm)
    · rw [if_neg he] at h
      exact List.mem_cons_of_mem _ (ih h)

theorem regFind_eq_of_mem {reg : Registry} {k : Nat} {g : Group}
    (hnd : (reg.map Prod.fst).Nodup) (h : (k, g) ∈ reg) : regFind reg k = some g := by
  induction reg with
  | nil => simp at h
  | cons e rest ih =>
    rcases List.mem_cons.mp h with h1 | h2
    · subst h1
      simp [regFind]
    · have hk : e.1 ≠ k := by
        intro hek
        have : e.1 ∈ rest.map Prod.fst := by
          exact List.mem_map.mpr ⟨(k, g), h2, by rw [hek]⟩
        simp only [List.map_cons, List.nodup_cons] at hnd
        exact hnd.1 this
      simp only [regFind, if_neg hk]
      exact ih (by simpa using (List.nodup_cons.mp (by simpa using hnd)).2) h2

theorem regFind_eq_none {reg : Registry} {k : Nat} :
    regFind reg k = none ↔ k ∉ reg.map Prod.fst := by
  induction reg with
  | nil => simp [regFind]
  | cons e rest ih =>
    by_cases he : e.1 = k
    · simp [regFind, he]
    · simp [regFind, if_neg he, ih, he]
      intro h
      omega

theorem regFind_append_of_none {l₁ l₂ : Registry} {k : Nat} (h : regFind l₁ k = none) :
    regFind (l₁ ++ l₂) k = regFind l₂ k := by
  induction l₁ with
  | nil => simp
  | cons e rest ih =>
    by_cases he : e.1 = k
    · simp [regFind, he] at h
    · simp only [regFind, if_neg he] at h
      simpa [regFind, if_neg he] using ih h

theorem keys_regSet (reg : Registry) (k : Nat) (f : Group → Group) :
    (regSet reg k f).map Prod.fst = reg.map Prod.fst := by
  induction reg with
  | nil => rfl
  | cons e rest ih =>
    by_cases he : e.1 = k
    · simp [regSet, he] at ih ⊢
      exact ih
    · simp [regSet, he] at ih ⊢
      exact ih

theorem regFind_regSet (reg : Registry) (k : Nat) (f : Group → Group) (k' : Nat) :
    regFind (regSet reg k f) k' =
      (regFind reg k').map (fun g => if k' = k then f g else g) := by
  induction reg with
  | nil => rfl
  | cons e rest ih =>
    simp only [regSet, List.map_cons] at ih ⊢
    by_cases he : e.1 = k <;> by_cases he' : e.1 = k'
    · have hkk : k' = k := by omega
      simp [regFind, he, he', hkk, ih]
    · have hkk : ¬ (k = k') := by omega
      simp [regFind, he, he', hkk, ih]
    · have hkk : ¬ (k' = k) := by omega
      simp [regFind, he, he', hkk, ih]
    · simp [regFind, he, he', ih]

theorem mem_regSet {reg : Registry} {k : Nat} {f : Group → Group} {e' : Nat × Group}
    (h : e' ∈ regSet reg k f) :
    ∃ e ∈ reg, e' = if e.1 = k then (e.1, f e.2) else e := by
  rcases List.mem_map.mp h with ⟨e, he, heq⟩
  exact ⟨e, he, heq.symm⟩

theorem mem_regPop {reg : Registry} {k : Nat} {e : Nat × Group} :
    e ∈ regPop reg k ↔ e ∈ reg ∧ e.1 ≠ k := by
  induction reg with
  | nil => simp [regPop]
  | cons e' rest ih =>
    by_cases he : e'.1 = k
    · simp only [regPop, if_pos he, ih, List.mem_cons]
      constructor
      · rintro ⟨h1, h2⟩; exact ⟨Or.inr h1, h2⟩
      · rintro ⟨h1 | h1, h2⟩
        · subst h1; omega
        · exact ⟨h1, h2⟩
    · simp only [regPop, if_neg he, List.mem_cons, ih]
      constructor
      · rintro (h1 | ⟨h1, h2⟩)
        · subst h1; exact ⟨Or.inl rfl, he⟩
        · exact ⟨Or.inr h1, h2⟩
      · rintro ⟨h1 | h1, h2⟩
        · exact Or.inl h1
        · exact Or.inr ⟨h1, h2⟩

theorem keys_regPop_sublist (reg : Registry) (k : Nat) :
    ((regPop reg k).map Prod.fst).Sublist (reg.map Prod.fst) := by
  induction reg with
  | nil => simp [regPop]
  | cons e rest ih =>
    by_cases he : e.1 = k
    · simp only [regPop, if_pos he, List.map_cons]
      exact ih.trans (List.sublist_cons_self _ _)
    · simp only [regPop, if_neg he, List.map_cons]
      exact ih.cons₂ _

theorem regFind_regPop_self (reg : Registry) (k : Nat) :
    regFind (regPop reg k) k = none := by
  rw [regFind_eq_none]
  intro h
  rcases List.mem_map.mp h with ⟨e, he, hk⟩
  exact (mem_regPop.mp he).2 hk

theorem regFind_regPop_ne (reg : Registry) (k k' : Nat) (h : k' ≠ k) :
    regFind (regPop reg k) k' = regFind reg k' := by
  induction reg with
  | nil => rfl
  | cons e rest ih =>
    by_cases he : e.1 = k
    · have : e.1 ≠ k' := by omega
      simp only [regPop, if_pos he, regFind, if_neg this]
      exact ih
    · by_cases he' : e.1 = k'
      · simp [regPop, if_neg he, regFind, he', h]
      · simp only [regPop, if_neg he, regFind, if_neg he']
        exact ih

/-! ### Group operation lemmas -/

/-- The cached count agrees with the liberty set's cardinality. -/
def GroupCnt (g : Group) : Prop := g.n_liberties = (g.liberties.card : Int)

theorem add_liberty_elements (g : Group) (l : Pos) : (g.add_liberty l).elements = g.elements := by
  unfold Group.add_liberty
  split <;> rfl

theorem add_liberty_liberties (g : Group) (l : Pos) :
    (g.add_liberty l).liberties = insert l g.liberties := by
  unfold Group.add_liberty
  split
  · rw [Finset.insert_eq_self.mpr]
    assumption
  · rfl

theorem add_liberty_cnt {g : Group} (l : Pos) (h : GroupCnt g) : GroupCnt (g.add_liberty l) := by
  unfold Group.add_liberty GroupCnt at *
  split
  · simpa [Finset.insert_eq_self.mpr (by assumption)] using h
  · simp only []
    rw [Finset.card_insert_of_not_mem (by assumption), h]
    push_cast
    ring

theorem remove_liberty_elements (g : Group) (r c : Nat) :
    (g.remove_liberty r c).elements = g.elements := by
  unfold Group.remove_liberty
  split <;> rfl

theorem remove_liberty_liberties (g : Group) (r c : Nat) :
    (g.remove_liberty r c).liberties = g.liberties.erase (r, c) := by
  unfold Group.remove_liberty
  split
  · rfl
  · rw [Finset.erase_eq_self.mpr]
    assumption

theorem remove_liberty_cnt {g : Group} (r c : Nat) (h : GroupCnt g) :
    GroupCnt (g.remove_liberty r c) := by
  unfold Group.remove_liberty GroupCnt at *
  split
  · simp only []
    rw [Finset.card_erase_of_mem (by assumption), h]
    have : 1 ≤ g.liberties.card := Finset.card_pos.mpr ⟨_, by assumption⟩
    push_cast [Nat.cast_sub this]
    ring
  · exact h

theorem merge_groups_cnt {g other : Group} (hg : GroupCnt g) :
    GroupCnt (g.merge_groups other) := by
  unfold Group.merge_groups GroupCnt at *
  simp only []
  rw [hg]
  have : (g.liberties ∪ other.liberties).card
      = g.liberties.card + (other.liberties \ g.liberties).card := by
    rw [← Finset.card_union_of_disjoint Finset.disjoint_sdiff]
    rw [Finset.union_sdiff_self_eq_union]
  rw [this]
  push_cast
  ring

/-! ### Liberty-set and label-set lemmas -/

theorem mem_boardCells {n : Nat} {x : Pos} : x ∈ boardCells n ↔ x.1 < n ∧ x.2 < n := by
  unfold boardCells
  rw [Finset.mem_product]
  simp

theorem adj_iff (x : Pos) (r c : Nat) :
    adj x (r, c) ↔ (1 ≤ r ∧ x = (r - 1, c)) ∨ x = (r + 1, c) ∨
      (1 ≤ c ∧ x = (r, c - 1)) ∨ x = (r, c + 1) := by
  obtain ⟨a, b⟩ := x
  unfold adj
  simp only [Prod.mk.injEq]
  omega

theorem mem_libSpecF {b : List (List Nat)} {n : Nat} {E : Finset Pos} {x : Pos} :
    x ∈ libSpecF b n E ↔
      (x.1 < n ∧ x.2 < n) ∧ cell b x.1 x.2 = 0 ∧ ∃ e ∈ E, adj x e := by
  unfold libSpecF
  rw [Finset.mem_filter, mem_boardCells]

theorem libSpecF_union (b : List (List Nat)) (n : Nat) (E₁ E₂ : Finset Pos) :
    libSpecF b n (E₁ ∪ E₂) = libSpecF b n E₁ ∪ libSpecF b n E₂ := by
  ext x
  simp only [mem_libSpecF, Finset.mem_union]
  constructor
  · rintro ⟨hx, hz, e, he, ha⟩
    rcases he with h | h
    · exact Or.inl ⟨hx, hz, e, h, ha⟩
    · exact Or.inr ⟨hx, hz, e, h, ha⟩
  · rintro (⟨hx, hz, e, he, ha⟩ | ⟨hx, hz, e, he, ha⟩)
    · exact ⟨hx, hz, e, Or.inl he, ha⟩
    · exact ⟨hx, hz, e, Or.inr he, ha⟩

theorem libSpecF_empty (b : List (List Nat)) (n : Nat) : libSpecF b n ∅ = ∅ := by
  ext x
  simp [mem_libSpecF]

theorem mem_nbEmpty {b : List (List Nat)} {row col : Nat} {x : Pos} :
    x ∈ nbEmpty b row col ↔
      (1 ≤ row ∧ cell b (row - 1) col = 0 ∧ x = (row - 1, col)) ∨
      (row + 1 < b.length ∧ cell b (row + 1) col = 0 ∧ x = (row + 1, col)) ∨
      (1 ≤ col ∧ cell b row (col - 1) = 0 ∧ x = (row, col - 1)) ∨
      (col + 1 < b.length ∧ cell b row (col + 1) = 0 ∧ x = (row, col + 1)) := by
  unfold nbEmpty
  simp only [Finset.mem_union]
  constructor
  · rintro (((h | h) | h) | h) <;>
      [skip; skip; skip; skip] <;>
      · split_ifs at h with hc
        · simp only [Finset.mem_singleton] at h
          tauto
        · simp at h
  · rintro (⟨h1, h2, h3⟩ | ⟨h1, h2, h3⟩ | ⟨h1, h2, h3⟩ | ⟨h1, h2, h3⟩)
    · exact Or.inl (Or.inl (Or.inl (by rw [if_pos ⟨h1, h2⟩]; simp [h3])))
    · exact Or.inl (Or.inl (Or.inr (by rw [if_pos ⟨h1, h2⟩]; simp [h3])))
    · exact Or.inl (Or.inr (by rw [if_pos ⟨h1, h2⟩]; simp [h3]))
    · exact Or.inr (by rw [if_pos ⟨h1, h2⟩]; simp [h3])

theorem libSpecF_singleton {b : List (List Nat)} {n row col : Nat}
    (hb : b.length = n) (hr : row < n) (hc : col < n) :
    libSpecF b n {(row, col)} = nbEmpty b row col := by
  ext x
  rw [mem_libSpecF, mem_nbEmpty]
  constructor
  · rintro ⟨hx, hz, e, he, ha⟩
    rw [Finset.mem_singleton] at he
    subst he
    rcases (adj_iff x row col).mp ha with ⟨h1, h2⟩ | h2 | ⟨h1, h2⟩ | h2 <;> subst h2
    · exact Or.inl ⟨h1, hz, rfl⟩
    · exact Or.inr (Or.inl ⟨by omega, hz, rfl⟩)
    · exact Or.inr (Or.inr (Or.inl ⟨h1, hz, rfl⟩))
    · exact Or.inr (Or.inr (Or.inr ⟨by omega, hz, rfl⟩))
  · rintro (⟨h1, h2, h3⟩ | ⟨h1, h2, h3⟩ | ⟨h1, h2, h3⟩ | ⟨h1, h2, h3⟩) <;> subst h3
    · exact ⟨⟨by omega, hc⟩, h2, (row, col), Finset.mem_singleton_self _,
        (adj_iff _ row col).mpr (Or.inl ⟨h1, rfl⟩)⟩
    · exact ⟨⟨by omega, hc⟩, h2, (row, col), Finset.mem_singleton_self _,
        (adj_iff _ row col).mpr (Or.inr (Or.inl rfl))⟩
    · exact ⟨⟨hr, by omega⟩, h2, (row, col), Finset.mem_singleton_self _,
        (adj_iff _ row col).mpr (Or.inr (Or.inr (Or.inl ⟨h1, rfl⟩)))⟩
    · exact ⟨⟨hr, by omega⟩, h2, (row, col), Finset.mem_singleton_self _,
        (adj_iff _ row col).mpr (Or.inr (Or.inr (Or.inr rfl)))⟩

theorem libSpecF_congr {b b' : List (List Nat)} {n : Nat} (E : Finset Pos)
    (h : ∀ x : Pos, x.1 < n → x.2 < n → (cell b x.1 x.2 = 0 ↔ cell b' x.1 x.2 = 0)) :
    libSpecF b n E = libSpecF b' n E := by
  ext x
  rw [mem_libSpecF, mem_libSpecF]
  constructor
  · rintro ⟨hx, hz, he⟩
    exact ⟨hx, (h x hx.1 hx.2).mp hz, he⟩
  · rintro ⟨hx, hz, he⟩
    exact ⟨hx, (h x hx.1 hx.2).mpr hz, he⟩

theorem mem_cellsOf {gb : List (List Nat)} {n k : Nat} {x : Pos} :
    x ∈ cellsOf gb n k ↔ x.1 < n ∧ x.2 < n ∧ cell gb x.1 x.2 = k := by
  unfold cellsOf
  rw [Finset.mem_filter, mem_boardCells]
  tauto

/-- Setting one in-bounds cell rewrites the label sets pointwise. -/
theorem cellsOf_setCell {gb : List (List Nat)} {n : Nat} (r c v k : Nat)
    (hg : gb.length = n) (hrl : ∀ row ∈ gb, row.length = n) (hr : r < n) (hc : c < n) :
    cellsOf (setCell gb r c v) n k =
      if v = k then insert (r, c) (cellsOf gb n k) else (cellsOf gb n k).erase (r, c) := by
  have hcw : cell (setCell gb r c v) r c = v := by
    apply cell_setCell_self
    · omega
    · have hrg : r < gb.length := by omega
      have : gb.getD r [] = gb[r] := by
        simp [List.getD, List.getElem?_eq_getElem hrg]
      rw [this, hrl _ (List.getElem_mem _)]
      exact hc
  ext x
  by_cases hx : x = (r, c)
  · subst hx
    split
    · next hv =>
      have hmem : (r, c) ∈ cellsOf (setCell gb r c v) n k :=
        mem_cellsOf.mpr ⟨hr, hc, by rw [hcw, hv]⟩
      simp [hmem]
    · next hv =>
      have h1 : (r, c) ∉ cellsOf (setCell gb r c v) n k := by
        rw [mem_cellsOf]
        rintro ⟨-, -, hck⟩
        rw [hcw] at hck
        exact hv hck
      simp [h1, Finset.not_mem_erase]
  · obtain ⟨a, b⟩ := x
    have hne : cell (setCell gb r c v) a b = cell gb a b :=
      cell_setCell_ne gb a b v r c (by simpa using hx)
    split
    · simp only [Finset.mem_insert, mem_cellsOf, hne]
      constructor
      · intro h
        exact Or.inr h
      · rintro (h | h)
        · exact absurd h hx
        · exact h
    · rw [Finset.mem_erase, mem_cellsOf, mem_cellsOf]
      simp only [hne]
      constructor
      · intro h
        exact ⟨by simpa using hx, h⟩
      · rintro ⟨-, h⟩
        exact h

theorem add_liberties_elements (g : Group) (row col : Nat) (b : List (List Nat)) :
    (g.add_liberties row col b).elements = g.elements := by
  unfold Group.add_liberties
  split_ifs <;> simp [add_liberty_elements]

set_option maxHeartbeats 1600000 in
theorem add_liberties_liberties (g : Group) (row col : Nat) (b : List (List Nat)) :
    (g.add_liberties row col b).liberties = g.liberties ∪ nbEmpty b row col := by
  unfold Group.add_liberties nbEmpty
  split_ifs <;> (ext x; simp [add_liberty_liberties]; try tauto)

theorem add_liberties_cnt {g : Group} (row col : Nat) (b : List (List Nat)) (h : GroupCnt g) :
    GroupCnt (g.add_liberties row col b) := by
  unfold Group.add_liberties
  split_ifs <;> (repeat apply add_liberty_cnt) <;> exact h

/-! ### Relabeling a list of cells (the grid loops after a merge) -/

theorem length_relabel (L : List Pos) (gb : List (List Nat)) (k : Nat) :
    (L.foldl (fun b e => setCell b e.1 e.2 k) gb).length = gb.length := by
  induction L generalizing gb with
  | nil => rfl
  | cons e t ih =>
    simp only [List.foldl_cons]
    rw [ih, length_setCell]

theorem rowlen_relabel (L : List Pos) (gb : List (List Nat)) (k r' : Nat) :
    ((L.foldl (fun b e => setCell b e.1 e.2 k) gb).getD r' []).length
      = (gb.getD r' []).length := by
  induction L generalizing gb with
  | nil => rfl
  | cons e t ih =>
    simp only [List.foldl_cons]
    rw [ih, rowlen_setCell]

theorem rlen_relabel (L : List Pos) (gb : List (List Nat)) (k n : Nat)
    (h : ∀ row ∈ gb, row.length = n) :
    ∀ row ∈ L.foldl (fun b e => setCell b e.1 e.2 k) gb, row.length = n := by
  induction L generalizing gb with
  | nil => exact h
  | cons e t ih =>
    simp only [List.foldl_cons]
    exact ih _ (rlen_setCell _ _ _ _ _ h)

theorem cell_relabel (L : List Pos) (gb : List (List Nat)) (k : Nat) (r c : Nat)
    (hb : ∀ e ∈ L, e.1 < gb.length ∧ e.2 < (gb.getD e.1 []).length) :
    cell (L.foldl (fun b e => setCell b e.1 e.2 k) gb) r c =
      if (r, c) ∈ L then k else cell gb r c := by
  induction L generalizing gb with
  | nil => simp
  | cons e t ih =>
    simp only [List.foldl_cons]
    rw [ih]
    · by_cases hm : (r, c) ∈ t
      · simp [hm, List.mem_cons]
      · rw [if_neg hm]
        by_cases hee : (r, c) = e
        · subst hee
          rw [if_pos (List.mem_cons_self _ _)]
          have h1 := hb (r, c) (List.mem_cons_self _ _)
          exact cell_setCell_self gb r c k h1.1 h1.2
        · rw [cell_setCell_ne _ _ _ _ _ _ (by
            intro hcon
            obtain ⟨a, b⟩ := e
            exact hee hcon)]
          rw [if_neg (by
            intro hcon
            rcases List.mem_cons.mp hcon with h1 | h1
            · exact hee h1
            · exact hm h1)]
    · intro e' he'
      refine ⟨?_, ?_⟩
      · rw [length_setCell]
        exact (hb e' (List.mem_cons_of_mem _ he')).1
      · rw [rowlen_setCell]
        exact (hb e' (List.mem_cons_of_mem _ he')).2

/-! ### Accessor lemmas for the two-registry and two-counter fields -/

theorem scGroupsOf_setGroups (st : ScanSt) (p q : Nat) (reg : Registry)
    (hp : p = 1 ∨ p = 2) (hq : q = 1 ∨ q = 2) :
    (st.setGroups p reg).groupsOf q = if q = p then reg else st.groupsOf q := by
  rcases hp with rfl | rfl <;> rcases hq with rfl | rfl <;>
    simp [ScanSt.setGroups, ScanSt.groupsOf]

theorem scGb_setGroups (st : ScanSt) (p : Nat) (reg : Registry) :
    (st.setGroups p reg).gb = st.gb := by
  unfold ScanSt.setGroups
  split <;> rfl

theorem scC1_setGroups (st : ScanSt) (p : Nat) (reg : Registry) :
    (st.setGroups p reg).c1 = st.c1 := by
  unfold ScanSt.setGroups
  split <;> rfl

theorem scC2_setGroups (st : ScanSt) (p : Nat) (reg : Registry) :
    (st.setGroups p reg).c2 = st.c2 := by
  unfold ScanSt.setGroups
  split <;> rfl

theorem scCounterOf_setGroups (st : ScanSt) (p q : Nat) (reg : Registry) :
    (st.setGroups p reg).counterOf q = st.counterOf q := by
  unfold ScanSt.setGroups ScanSt.counterOf
  split <;> split <;> rfl

theorem scGroupsOf_setCounter (st : ScanSt) (p q : Nat) (k : Nat) :
    (st.setCounter p k).groupsOf q = st.groupsOf q := by
  unfold ScanSt.setCounter ScanSt.groupsOf
  split <;> split <;> rfl

theorem scGb_setCounter (st : ScanSt) (p k : Nat) :
    (st.setCounter p k).gb = st.gb := by
  unfold ScanSt.setCounter
  split <;> rfl

theorem scCounterOf_setCounter (st : ScanSt) (p q k : Nat)
    (hp : p = 1 ∨ p = 2) (hq : q = 1 ∨ q = 2) :
    (st.setCounter p k).counterOf q = if q = p then k else st.counterOf q := by
  rcases hp with rfl | rfl <;> rcases hq with rfl | rfl <;>
    simp [ScanSt.setCounter, ScanSt.counterOf]

theorem groupsOf_setGroups (s : State) (p q : Nat) (reg : Registry)
    (hp : p = 1 ∨ p = 2) (hq : q = 1 ∨ q = 2) :
    (s.setGroups p reg).groupsOf q = if q = p then reg else s.groupsOf q := by
  rcases hp with rfl | rfl <;> rcases hq with rfl | rfl <;>
    simp [State.setGroups, State.groupsOf]

theorem gb_setGroups (s : State) (p : Nat) (reg : Registry) :
    (s.setGroups p reg).group_board = s.group_board := by
  unfold State.setGroups
  split <;> rfl

theorem size_setGroups (s : State) (p : Nat) (reg : Registry) :
    (s.setGroups p reg).size = s.size := by
  unfold State.setGroups
  split <;> rfl

theorem player_setGroups (s : State) (p : Nat) (reg : Registry) :
    (s.setGroups p reg).player = s.player := by
  unfold State.setGroups
  split <;> rfl

theorem draw_setGroups (s : State) (p : Nat) (reg : Registry) :
    (s.setGroups p reg).draw = s.draw := by
  unfold State.setGroups
  split <;> rfl

theorem counter1_setGroups (s : State) (p : Nat) (reg : Registry) :
    (s.setGroups p reg).counter1 = s.counter1 := by
  unfold State.setGroups
  split <;> rfl

theorem counter2_setGroups (s : State) (p : Nat) (reg : Registry) :
    (s.setGroups p reg).counter2 = s.counter2 := by
  unfold State.setGroups
  split <;> rfl

theorem counterOf_setGroups (s : State) (p q : Nat) (reg : Registry) :
    (s.setGroups p reg).counterOf q = s.counterOf q := by
  unfold State.setGroups State.counterOf
  split <;> split <;> rfl

theorem groupsOf_setCounter (s : State) (p q k : Nat) :
    (s.setCounter p k).groupsOf q = s.groupsOf q := by
  unfold State.setCounter State.groupsOf
  split <;> split <;> rfl

theorem gb_setCounter (s : State) (p k : Nat) :
    (s.setCounter p k).group_board = s.group_board := by
  unfold State.setCounter
  split <;> rfl

theorem size_setCounter (s : State) (p k : Nat) :
    (s.setCounter p k).size = s.size := by
  unfold State.setCounter
  split <;> rfl

theorem player_setCounter (s : State) (p k : Nat) :
    (s.setCounter p k).player = s.player := by
  unfold State.setCounter
  split <;> rfl

theorem counterOf_setCounter (s : State) (p q k : Nat)
    (hp : p = 1 ∨ p = 2) (hq : q = 1 ∨ q = 2) :
    (s.setCounter p k).counterOf q = if q = p then k else s.counterOf q := by
  rcases hp with rfl | rfl <;> rcases hq with rfl | rfl <;>
    simp [State.setCounter, State.counterOf]

/-! ### The row-major labeling invariant of initialize_groups -/

/-- The cells strictly before (r, c) in row-major order. -/
def Proc (r c : Nat) (x : Pos) : Prop := x.1 < r ∨ (x.1 = r ∧ x.2 < c)

/-- Well-formedness of a registry key: the owner's parity, nonzero, below
the allocation counter. -/
def KeyOk (p cnt k : Nat) : Prop := k % 2 = p % 2 ∧ k ≠ 0 ∧ k < cnt

/-- The invariant maintained by the scan of initialize_groups at the point
where the cells before (r, c) have been processed.  Liberties are measured
against the static initial board, which is what add_liberties scans. -/
structure ScanInv (board : List (List Nat)) (r c : Nat) (st : ScanSt) : Prop where
  glen : st.gb.length = board.length
  rlen : ∀ row ∈ st.gb, row.length = board.length
  c1odd : st.c1 % 2 = 1
  c2even : st.c2 % 2 = 0
  c2pos : st.c2 ≠ 0
  nd : ∀ q, q = 1 ∨ q = 2 → ((st.groupsOf q).map Prod.fst).Nodup
  occ : ∀ x : Pos, x.1 < board.length → x.2 < board.length →
      (cell st.gb x.1 x.2 ≠ 0 ↔ (Proc r c x ∧ cell board x.1 x.2 ≠ 0))
  mem : ∀ q, q = 1 ∨ q = 2 → ∀ e ∈ st.groupsOf q,
      KeyOk q (st.counterOf q) e.1 ∧
      GroupOkOn board st.gb board.length e.1 e.2 ∧
      ∀ x ∈ e.2.elements, cell board x.1 x.2 = q
  cover : ∀ x : Pos, x.1 < board.length → x.2 < board.length → cell st.gb x.1 x.2 ≠ 0 →
      (cell st.gb x.1 x.2) ∈ ((st.groupsOf (cell board x.1 x.2)).map Prod.fst)

/-- The shape of the group the current cell just joined, before its
liberties are scanned: the new element is recorded, the liberty set is still
the one of the other elements. -/
def MidGroupOk (board gb : List (List Nat)) (n r c k : Nat) (g : Group) : Prop :=
  g.elements.toFinset = cellsOf gb n k ∧
  g.liberties = libSpecF board n (g.elements.toFinset.erase (r, c)) ∧
  GroupCnt g ∧ (r, c) ∈ g.elements

/-- The invariant in the middle of one scan step: the current cell has been
labeled with the group cur of player p and added to its elements, but the
cell's own liberty contribution is still missing. -/
structure MidInv (board : List (List Nat)) (r c p cur : Nat) (st : ScanSt) : Prop where
  glen : st.gb.length = board.length
  rlen : ∀ row ∈ st.gb, row.length = board.length
  c1odd : st.c1 % 2 = 1
  c2even : st.c2 % 2 = 0
  c2pos : st.c2 ≠ 0
  nd : ∀ q, q = 1 ∨ q = 2 → ((st.groupsOf q).map Prod.fst).Nodup
  occ : ∀ x : Pos, x.1 < board.length → x.2 < board.length →
      (cell st.gb x.1 x.2 ≠ 0 ↔ (Proc r (c + 1) x ∧ cell board x.1 x.2 ≠ 0))
  curlbl : cell st.gb r c = cur
  curmem : cur ∈ (st.groupsOf p).map Prod.fst
  mem : ∀ q, q = 1 ∨ q = 2 → ∀ e ∈ st.groupsOf q,
      KeyOk q (st.counterOf q) e.1 ∧
      (q = p ∧ e.1 = cur → MidGroupOk board st.gb board.length r c e.1 e.2) ∧
      (¬(q = p ∧ e.1 = cur) → GroupOkOn board st.gb board.length e.1 e.2) ∧
      ∀ x ∈ e.2.elements, cell board x.1 x.2 = q
  cover : ∀ x : Pos, x.1 < board.length → x.2 < board.length → cell st.gb x.1 x.2 ≠ 0 →
      (cell st.gb x.1 x.2) ∈ ((st.groupsOf (cell board x.1 x.2)).map Prod.fst)

theorem scKeys_setGroups (st : ScanSt) (p : Nat) (reg : Registry)
    (hp : p = 1 ∨ p = 2) (q : Nat)
    (hkeys : reg.map Prod.fst = (st.groupsOf p).map Prod.fst) :
    ((st.setGroups p reg).groupsOf q).map Prod.fst = (st.groupsOf q).map Prod.fst := by
  rcases hp with rfl | rfl <;> by_cases hq : q = 1 <;>
    simp_all [ScanSt.setGroups, ScanSt.groupsOf]

/-- Completing one scan step: scanning the liberties of the just placed cell
turns the mid-step invariant back into the full invariant at (r, c + 1). -/
theorem midInv_fin {board : List (List Nat)} {r c p cur : Nat} {st : ScanSt}
    (h : MidInv board r c p cur st) (hp : p = 1 ∨ p = 2)
    (hr : r < board.length) (hc : c < board.length) :
    ScanInv board r (c + 1)
      (st.setGroups p (regSet (st.groupsOf p) cur (fun g => g.add_liberties r c board))) := by
  refine ⟨?_, ?_, ?_, ?_, ?_, ?_, ?_, ?_, ?_⟩
  · rw [scGb_setGroups]
    exact h.glen
  · rw [scGb_setGroups]
    exact h.rlen
  · rw [scC1_setGroups]
    exact h.c1odd
  · rw [scC2_setGroups]
    exact h.c2even
  · rw [scC2_setGroups]
    exact h.c2pos
  · intro q hq
    rw [scGroupsOf_setGroups _ _ _ _ hp hq]
    split
    · rw [keys_regSet]
      next hqp => exact hqp ▸ h.nd q hq
    · exact h.nd q hq
  · intro x hx1 hx2
    rw [scGb_setGroups]
    exact h.occ x hx1 hx2
  · intro q hq e he
    rw [scGroupsOf_setGroups _ _ _ _ hp hq] at he
    rw [scGb_setGroups, scCounterOf_setGroups]
    by_cases hqp : q = p
    · rw [if_pos hqp] at he
      rcases mem_regSet he with ⟨e₀, he₀, heq⟩
      have hm := h.mem q hq e₀ (by rw [hqp]; exact he₀)
      by_cases hk : e₀.1 = cur
      · rw [if_pos hk] at heq
        have hmid : MidGroupOk board st.gb board.length r c e₀.1 e₀.2 :=
          hm.2.1 ⟨hqp, hk⟩
        obtain ⟨hel, hlib, hcnt, hrc⟩ := hmid
        subst heq
        refine ⟨hm.1, ?_, ?_⟩
        · refine ⟨?_, ?_, ?_⟩
          · rw [add_liberties_elements]
            exact hel
          · rw [add_liberties_elements, add_liberties_liberties, hlib,
              libSpecF_singleton rfl hr hc |>.symm, ← libSpecF_union]
            congr 1
            rw [Finset.union_comm, ← Finset.insert_eq,
              Finset.insert_erase (List.mem_toFinset.mpr hrc)]
          · exact add_liberties_cnt _ _ _ hcnt
        · intro x hxe
          rw [add_liberties_elements] at hxe
          exact hm.2.2.2 x hxe
      · rw [if_neg hk] at heq
        subst heq
        exact ⟨hm.1, hm.2.2.1 (by tauto), hm.2.2.2⟩
    · rw [if_neg hqp] at he
      have hm := h.mem q hq e he
      exact ⟨hm.1, hm.2.2.1 (by tauto), hm.2.2.2⟩
  · intro x hx1 hx2 hnz
    rw [scGb_setGroups] at hnz ⊢
    rw [scKeys_setGroups _ _ _ hp _ (keys_regSet _ _ _)]
    exact h.cover x hx1 hx2 hnz

theorem rowlen_getD {gb : List (List Nat)} {n r : Nat}
    (hrl : ∀ row ∈ gb, row.length = n) (hr : r < gb.length) :
    (gb.getD r []).length = n := by
  have : gb.getD r [] = gb[r] := by
    simp [List.getD, List.getElem?_eq_getElem hr]
  rw [this]
  exact hrl _ (List.getElem_mem hr)

theorem add_element_elements (g : Group) (l : List Pos) :
    (g.add_element l).elements = g.elements ++ l := rfl

theorem add_element_liberties (g : Group) (l : List Pos) :
    (g.add_element l).liberties = g.liberties := rfl

theorem add_element_cnt {g : Group} (l : List Pos) (h : GroupCnt g) :
    GroupCnt (g.add_element l) := h

theorem erase_union_singleton {E : Finset Pos} {a : Pos} (h : a ∉ E) :
    (E ∪ {a}).erase a = E := by
  ext x
  simp only [Finset.mem_erase, Finset.mem_union, Finset.mem_singleton]
  constructor
  · rintro ⟨hne, hx | hx⟩
    · exact hx
    · exact absurd hx hne
  · intro hx
    refine ⟨?_, Or.inl hx⟩
    intro hax
    rw [hax] at hx
    exact h hx

theorem proc_self_false (r c : Nat) : ¬ Proc r c (r, c) := by
  simp [Proc]

theorem proc_succ_iff {r c : Nat} {x : Pos} (h : x ≠ (r, c)) :
    Proc r (c + 1) x ↔ Proc r c x := by
  obtain ⟨a, b⟩ := x
  have : ¬ (a = r ∧ b = c) := by
    intro hcon
    exact h (by rw [hcon.1, hcon.2])
  unfold Proc
  simp only []
  omega

theorem proc_succ_self (r c : Nat) : Proc r (c + 1) (r, c) := by
  unfold Proc
  simp

theorem scGroupsOf_gbup (st : ScanSt) (X : List (List Nat)) (q : Nat) :
    ({ st with gb := X } : ScanSt).groupsOf q = st.groupsOf q := rfl

theorem scCounterOf_gbup (st : ScanSt) (X : List (List Nat)) (q : Nat) :
    ({ st with gb := X } : ScanSt).counterOf q = st.counterOf q := rfl

/-- Joining the current cell (r, c) to an already-registered group of its
own player: the group board is updated and the cell appended to the group's
elements, yielding the mid-step invariant. -/
theorem scanInv_join {board : List (List Nat)} {r c p k₀ : Nat} {st : ScanSt}
    (h : ScanInv board r c st) (hp : p = 1 ∨ p = 2)
    (hr : r < board.length) (hc : c < board.length)
    (hbp : cell board r c = p)
    (hk0 : k₀ ≠ 0)
    (hkreg : k₀ ∈ (st.groupsOf p).map Prod.fst) :
    MidInv board r c p k₀
      (({ st with gb := setCell st.gb r c k₀ } : ScanSt).setGroups p
        (regSet (st.groupsOf p) k₀ (fun g => g.add_element [(r, c)]))) := by
  have hp0 : p ≠ 0 := by rcases hp with rfl | rfl <;> omega
  have hgblen : st.gb.length = board.length := h.glen
  have hrow : (st.gb.getD r []).length = board.length :=
    rowlen_getD h.rlen (by omega)
  have hcur0 : cell st.gb r c = 0 := by
    by_contra hne
    exact proc_self_false r c ((h.occ (r, c) hr hc).mp hne).1
  have hcells : ∀ j : Nat, j ≠ 0 →
      cellsOf (setCell st.gb r c k₀) board.length j =
        if k₀ = j then insert (r, c) (cellsOf st.gb board.length j)
        else cellsOf st.gb board.length j := by
    intro j hj
    rw [cellsOf_setCell _ _ _ _ hgblen h.rlen hr hc]
    split
    · rfl
    · rw [Finset.erase_eq_self.mpr]
      rw [mem_cellsOf]
      rintro ⟨-, -, hcl⟩
      rw [hcur0] at hcl
      exact hj hcl.symm
  have hcellnew : cell (setCell st.gb r c k₀) r c = k₀ :=
    cell_setCell_self _ _ _ _ (by omega) (by omega)
  have hcellold : ∀ x : Pos, x ≠ (r, c) →
      cell (setCell st.gb r c k₀) x.1 x.2 = cell st.gb x.1 x.2 := by
    intro x hx
    apply cell_setCell_ne
    intro hcon
    obtain ⟨a, b⟩ := x
    exact hx hcon
  refine ⟨?_, ?_, ?_, ?_, ?_, ?_, ?_, ?_, ?_, ?_, ?_⟩
  · rw [scGb_setGroups]
    simp only []
    rw [length_setCell]
    exact h.glen
  · rw [scGb_setGroups]
    exact rlen_setCell _ _ _ _ _ h.rlen
  · rw [scC1_setGroups]
    exact h.c1odd
  · rw [scC2_setGroups]
    exact h.c2even
  · rw [scC2_setGroups]
    exact h.c2pos
  · intro q hq
    rw [scGroupsOf_setGroups _ _ _ _ hp hq]
    split
    · rw [keys_regSet]
      next hqp => exact hqp ▸ h.nd q hq
    · exact h.nd q hq
  · intro x hx1 hx2
    rw [scGb_setGroups]
    by_cases hx : x = (r, c)
    · subst hx
      simp only [hcellnew]
      constructor
      · intro
        exact ⟨proc_succ_self r c, by rw [hbp]; exact hp0⟩
      · intro
        exact hk0
    · rw [hcellold x hx, proc_succ_iff hx]
      exact h.occ x hx1 hx2
  · rw [scGb_setGroups]
    exact hcellnew
  · rw [scGroupsOf_setGroups _ _ _ _ hp hp, if_pos rfl, keys_regSet]
    exact hkreg
  · intro q hq e he
    rw [scGroupsOf_setGroups _ _ _ _ hp hq] at he
    rw [scGb_setGroups, scCounterOf_setGroups]
    by_cases hqp : q = p
    · rw [if_pos hqp] at he
      rcases mem_regSet he with ⟨e₀, he₀, heq⟩
      have hm := h.mem q hq e₀ (by rw [hqp]; exact he₀)
      obtain ⟨hel₀, hlib₀, hcnt₀⟩ := hm.2.1
      by_cases hk : e₀.1 = k₀
      · rw [if_pos hk] at heq
        subst heq
        have hsing : ([((r : Nat), (c : Nat))] : List Pos).toFinset = {(r, c)} := by simp
        have hnotmem : (r, c) ∉ e₀.2.elements.toFinset := by
          rw [hel₀, mem_cellsOf]
          rintro ⟨-, -, hcl⟩
          rw [hcur0] at hcl
          exact hm.1.2.1 hcl.symm
        refine ⟨hm.1, ?_, ?_, ?_⟩
        · intro _
          have hEnew : (e₀.2.add_element [(r, c)]).elements.toFinset
              = cellsOf (setCell st.gb r c k₀) board.length e₀.1 := by
            rw [add_element_elements, List.toFinset_append, hel₀, hsing,
              hcells e₀.1 hm.1.2.1, if_pos hk.symm, Finset.union_comm,
              ← Finset.insert_eq]
          refine ⟨hEnew, ?_, add_element_cnt _ hcnt₀, ?_⟩
          · rw [add_element_liberties, hlib₀]
            congr 1
            rw [add_element_elements, List.toFinset_append, hsing,
              erase_union_singleton hnotmem]
          · rw [add_element_elements]
            exact List.mem_append.mpr (Or.inr (List.mem_cons_self _ _))
        · intro hcon
          exact absurd ⟨hqp, hk⟩ hcon
        · intro x hx
          rw [add_element_elements] at hx
          rcases List.mem_append.mp hx with h1 | h1
          · exact hm.2.2 x h1
          · rcases List.mem_cons.mp h1 with h2 | h2
            · rw [h2, hbp, hqp]
            · simp at h2
      · rw [if_neg hk] at heq
        subst heq
        refine ⟨hm.1, ?_, ?_, hm.2.2⟩
        · rintro ⟨-, hcon⟩
          exact absurd hcon hk
        · intro _
          refine ⟨?_, hlib₀, hcnt₀⟩
          rw [hcells e.1 hm.1.2.1, if_neg (fun hcon => hk hcon.symm), hel₀]
    · rw [if_neg hqp] at he
      have hm := h.mem q hq e he
      obtain ⟨hel₀, hlib₀, hcnt₀⟩ := hm.2.1
      refine ⟨hm.1, ?_, ?_, hm.2.2⟩
      · rintro ⟨hcon, -⟩
        exact absurd hcon hqp
      · intro _
        have hkq : k₀ % 2 = p % 2 := by
          rcases List.mem_map.mp hkreg with ⟨e', he', hfst⟩
          have h6 := (h.mem p hp e' he').1.1
          omega
        have hke : ¬ (k₀ = e.1) := by
          have h7 := hm.1.1
          rcases hp with rfl | rfl <;> rcases hq with rfl | rfl <;> omega
        refine ⟨?_, hlib₀, hcnt₀⟩
        rw [hcells e.1 hm.1.2.1, if_neg hke, hel₀]
  · intro x hx1 hx2 hnz
    rw [scGb_setGroups] at hnz ⊢
    have hkeys : (regSet (st.groupsOf p) k₀ (fun g => g.add_element [(r, c)])).map Prod.fst
        = (({ st with gb := setCell st.gb r c k₀ } : ScanSt).groupsOf p).map Prod.fst :=
      keys_regSet _ _ _
    rw [scKeys_setGroups _ _ _ hp _ hkeys]
    by_cases hx : x = (r, c)
    · subst hx
      rw [hcellnew]
      rw [hbp]
      exact hkreg
    · rw [hcellold x hx] at hnz ⊢
      exact h.cover x hx1 hx2 hnz

/-- If the allocation counter of a player ever appeared as a label on the
board, some registry would hold it as a key below itself or with the wrong
parity; impossible. -/
theorem counter_fresh {board : List (List Nat)} {r c : Nat} {st : ScanSt}
    (h : ScanInv board r c st) {p : Nat} (hp : p = 1 ∨ p = 2) :
    cellsOf st.gb board.length (st.counterOf p) = ∅ := by
  ext x
  simp only [mem_cellsOf, Finset.not_mem_empty, iff_false]
  rintro ⟨hx1, hx2, hlbl⟩
  have hcc1 : st.counterOf 1 = st.c1 := rfl
  have hcc2 : st.counterOf 2 = st.c2 := rfl
  have hk0 : st.counterOf p ≠ 0 := by
    rcases hp with rfl | rfl
    · have := h.c1odd
      omega
    · have := h.c2pos
      omega
  have hnz : cell st.gb x.1 x.2 ≠ 0 := by rw [hlbl]; exact hk0
  have hcov := h.cover x hx1 hx2 hnz
  rw [hlbl] at hcov
  have hq : cell board x.1 x.2 = 1 ∨ cell board x.1 x.2 ≠ 1 := em _
  rcases hq with hq1 | hq2
  · rw [hq1] at hcov
    have hcov1 : st.counterOf p ∈ (st.groupsOf 1).map Prod.fst := hcov
    rcases List.mem_map.mp hcov1 with ⟨e, he, hfst⟩
    have hm := h.mem 1 (Or.inl rfl) e he
    have h1 := hm.1.1
    have h2 := hm.1.2.2
    rcases hp with rfl | rfl
    · omega
    · have := h.c2even
      omega
  · have hcov2 : st.counterOf p ∈ (st.groupsOf 2).map Prod.fst := by
      unfold ScanSt.groupsOf at hcov
      rw [if_neg hq2] at hcov
      exact hcov
    rcases List.mem_map.mp hcov2 with ⟨e, he, hfst⟩
    have hm := h.mem 2 (Or.inr rfl) e he
    have h1 := hm.1.1
    have h2 := hm.1.2.2
    rcases hp with rfl | rfl
    · have := h.c1odd
      omega
    · omega

/-- Reading an in-bounds cell of a valid board yields 0, 1 or 2. -/
theorem validBoard_cell {board : List (List Nat)} (hv : validBoard board) {x : Pos}
    (hx1 : x.1 < board.length) (hx2 : x.2 < board.length) :
    cell board x.1 x.2 = 0 ∨ cell board x.1 x.2 = 1 ∨ cell board x.1 x.2 = 2 := by
  have hrow : board.getD x.1 [] = board[x.1] := by
    simp [List.getD, List.getElem?_eq_getElem hx1]
  have hrmem : board[x.1] ∈ board := List.getElem_mem hx1
  have hlen : (board[x.1]).length = board.length := hv.1 _ hrmem
  unfold cell
  rw [hrow]
  have hx2' : x.2 < (board[x.1]).length := by omega
  have : (board[x.1]).getD x.2 0 = (board[x.1])[x.2] := by
    simp [List.getD, List.getElem?_eq_getElem hx2']
  rw [this]
  exact hv.2 _ hrmem _ (List.getElem_mem hx2')

/-- Creating a fresh singleton group for the current cell, stated over any
state whose components are the registered group, the labeled board and the
advanced counter. -/
theorem scanInv_new_aux {board : List (List Nat)} {r c p : Nat} {st : ScanSt}
    (h : ScanInv board r c st) (hv : validBoard board) (hp : p = 1 ∨ p = 2)
    (hr : r < board.length) (hc : c < board.length)
    (hbp : cell board r c = p)
    (st' : ScanSt)
    (hgb' : st'.gb = setCell st.gb r c (st.counterOf p))
    (hgroups' : ∀ q, q = 1 ∨ q = 2 → st'.groupsOf q =
      if q = p then st.groupsOf p ++ [(st.counterOf p, Group.init (r, c))]
      else st.groupsOf q)
    (hcnt' : ∀ q, q = 1 ∨ q = 2 →
      st'.counterOf q = if q = p then st.counterOf p + 2 else st.counterOf q)
    (hc1' : st'.c1 = if p = 1 then st.c1 + 2 else st.c1)
    (hc2' : st'.c2 = if p = 2 then st.c2 + 2 else st.c2) :
    MidInv board r c p (st.counterOf p) st' := by
  have hp0 : p ≠ 0 := by rcases hp with rfl | rfl <;> omega
  set k := st.counterOf p with hkdef
  have hgblen : st.gb.length = board.length := h.glen
  have hcur0 : cell st.gb r c = 0 := by
    by_contra hne
    exact proc_self_false r c ((h.occ (r, c) hr hc).mp hne).1
  have hc1k : st.counterOf 1 = st.c1 := rfl
  have hc2k : st.counterOf 2 = st.c2 := rfl
  have hk0 : k ≠ 0 := by
    rcases hp with rfl | rfl
    · have := h.c1odd
      omega
    · have := h.c2pos
      omega
  have hpark : k % 2 = p % 2 := by
    rcases hp with rfl | rfl
    · have := h.c1odd
      omega
    · have := h.c2even
      omega
  have hkfresh : k ∉ (st.groupsOf p).map Prod.fst := by
    intro hmem
    rcases List.mem_map.mp hmem with ⟨e, he, hfst⟩
    have hm := h.mem p hp e he
    have := hm.1.2.2
    omega
  have hcellnew : cell (setCell st.gb r c k) r c = k :=
    cell_setCell_self _ _ _ _ (by omega) (by
      rw [rowlen_getD h.rlen (by omega)]
      omega)
  have hcellold : ∀ x : Pos, x ≠ (r, c) →
      cell (setCell st.gb r c k) x.1 x.2 = cell st.gb x.1 x.2 := by
    intro x hx
    apply cell_setCell_ne
    intro hcon
    obtain ⟨a, b⟩ := x
    exact hx hcon
  have hcellsk : cellsOf (setCell st.gb r c k) board.length k = {(r, c)} := by
    rw [cellsOf_setCell _ _ _ _ hgblen h.rlen hr hc, if_pos rfl,
      counter_fresh h hp]
    rfl
  have hcells : ∀ j : Nat, j ≠ 0 → j ≠ k →
      cellsOf (setCell st.gb r c k) board.length j = cellsOf st.gb board.length j := by
    intro j hj hjk
    rw [cellsOf_setCell _ _ _ _ hgblen h.rlen hr hc, if_neg (fun hcon => hjk hcon.symm),
      Finset.erase_eq_self.mpr]
    rw [mem_cellsOf]
    rintro ⟨-, -, hcl⟩
    rw [hcur0] at hcl
    exact hj hcl.symm
  refine ⟨?_, ?_, ?_, ?_, ?_, ?_, ?_, ?_, ?_, ?_, ?_⟩
  · rw [hgb', length_setCell]
    exact h.glen
  · rw [hgb']
    exact rlen_setCell _ _ _ _ _ h.rlen
  · rw [hc1']
    have := h.c1odd
    split <;> omega
  · rw [hc2']
    have := h.c2even
    split <;> omega
  · rw [hc2']
    have := h.c2pos
    split <;> omega
  · intro q hq
    rw [hgroups' q hq]
    split
    · rw [List.map_append, List.nodup_append]
      refine ⟨h.nd p hp, by simp, ?_⟩
      intro a ha hb
      simp only [List.map_cons, List.map_nil, List.mem_singleton] at hb
      rw [hb] at ha
      exact hkfresh ha
    · exact h.nd q hq
  · intro x hx1 hx2
    rw [hgb']
    by_cases hx : x = (r, c)
    · subst hx
      simp only [hcellnew]
      constructor
      · intro
        exact ⟨proc_succ_self r c, by rw [hbp]; exact hp0⟩
      · intro
        exact hk0
    · rw [hcellold x hx, proc_succ_iff hx]
      exact h.occ x hx1 hx2
  · rw [hgb']
    exact hcellnew
  · rw [hgroups' p hp, if_pos rfl, List.map_append]
    simp
  · intro q hq e he
    rw [hgroups' q hq] at he
    rw [hgb']
    by_cases hqp : q = p
    · rw [if_pos hqp] at he
      rcases List.mem_append.mp he with h1 | h1
      · have hm := h.mem q hq e (by rw [hqp]; exact h1)
        obtain ⟨hel₀, hlib₀, hcnt₀⟩ := hm.2.1
        have hek : e.1 ≠ k := by
          intro hcon
          apply hkfresh
          rw [← hcon]
          exact List.mem_map.mpr ⟨e, h1, rfl⟩
        refine ⟨?_, ?_, ?_, hm.2.2⟩
        · rw [hcnt' q hq, if_pos hqp]
          refine ⟨hm.1.1, hm.1.2.1, ?_⟩
          have := hm.1.2.2
          rw [hqp] at this
          omega
        · rintro ⟨-, hcon⟩
          exact absurd hcon hek
        · intro _
          refine ⟨?_, hlib₀, hcnt₀⟩
          rw [hcells e.1 hm.1.2.1 hek, hel₀]
      · have he1 : e = (k, Group.init (r, c)) := by simpa using h1
        subst he1
        refine ⟨?_, ?_, ?_, ?_⟩
        · rw [hcnt' q hq, if_pos hqp]
          exact ⟨by rw [hqp]; exact hpark, hk0, by omega⟩
        · intro _
          refine ⟨?_, ?_, ?_, ?_⟩
          · rw [hcellsk]
            rfl
          · have hemp : (Group.init (r, c)).elements.toFinset.erase (r, c) = ∅ := by
              simp [Group.init]
            rw [hemp, libSpecF_empty]
            rfl
          · unfold GroupCnt Group.init
            simp
          · simp [Group.init]
        · intro hcon
          exact absurd ⟨hqp, rfl⟩ hcon
        · intro x hx
          simp only [Group.init, List.mem_cons] at hx
          rcases hx with h2 | h2
          · rw [h2, hbp, hqp]
          · simp at h2
    · rw [if_neg hqp] at he
      have hm := h.mem q hq e he
      obtain ⟨hel₀, hlib₀, hcnt₀⟩ := hm.2.1
      have hek : e.1 ≠ k := by
        intro hcon
        have h1 := hm.1.1
        rcases hp with rfl | rfl <;> rcases hq with rfl | rfl <;> omega
      refine ⟨?_, ?_, ?_, hm.2.2⟩
      · rw [hcnt' q hq, if_neg hqp]
        exact hm.1
      · rintro ⟨hcon, -⟩
        exact absurd hcon hqp
      · intro _
        refine ⟨?_, hlib₀, hcnt₀⟩
        rw [hcells e.1 hm.1.2.1 hek, hel₀]
  · intro x hx1 hx2 hnz
    rw [hgb'] at hnz ⊢
    by_cases hx : x = (r, c)
    · subst hx
      rw [hcellnew, hbp]
      rw [hgroups' p hp, if_pos rfl, List.map_append]
      simp
    · rw [hcellold x hx] at hnz ⊢
      have hcov := h.cover x hx1 hx2 hnz
      have hbx : cell board x.1 x.2 ≠ 0 := ((h.occ x hx1 hx2).mp hnz).2
      have hbq : cell board x.1 x.2 = 1 ∨ cell board x.1 x.2 = 2 := by
        rcases validBoard_cell hv hx1 hx2 with h0 | h12
        · exact absurd h0 hbx
        · exact h12
      rw [hgroups' _ hbq]
      split
      · next hqq =>
        rw [List.map_append]
        refine List.mem_append.mpr (Or.inl ?_)
        rw [← hqq]
        exact hcov
      · exact hcov

/-- The new-group branch of init_step establishes the mid-step invariant. -/
theorem scanInv_new {board : List (List Nat)} {r c p : Nat} {st : ScanSt}
    (h : ScanInv board r c st) (hv : validBoard board) (hp : p = 1 ∨ p = 2)
    (hr : r < board.length) (hc : c < board.length)
    (hbp : cell board r c = p) :
    MidInv board r c p (st.counterOf p)
      (({ st.setGroups p (st.groupsOf p ++ [(st.counterOf p, Group.init (r, c))]) with
          gb := setCell (st.setGroups p
            (st.groupsOf p ++ [(st.counterOf p, Group.init (r, c))])).gb r c
            (st.counterOf p) } : ScanSt).setCounter p (st.counterOf p + 2)) := by
  apply scanInv_new_aux h hv hp hr hc hbp
  · rw [scGb_setCounter]
    simp only []
    rw [scGb_setGroups]
  · intro q hq
    rw [scGroupsOf_setCounter, scGroupsOf_gbup]
    rcases hp with rfl | rfl <;> rcases hq with rfl | rfl <;>
      simp [ScanSt.setGroups, ScanSt.groupsOf]
  · intro q hq
    rcases hp with rfl | rfl <;> rcases hq with rfl | rfl <;>
      simp [ScanSt.setCounter, ScanSt.counterOf, ScanSt.setGroups]
  · rcases hp with rfl | rfl <;>
      simp [ScanSt.setCounter, ScanSt.setGroups, ScanSt.counterOf]
  · rcases hp with rfl | rfl <;>
      simp [ScanSt.setCounter, ScanSt.setGroups, ScanSt.counterOf]

theorem keys_regPop_mem {reg : Registry} {k lg : Nat} (hk : k ≠ lg) :
    k ∈ (regPop reg lg).map Prod.fst ↔ k ∈ reg.map Prod.fst := by
  constructor
  · intro hmem
    rcases List.mem_map.mp hmem with ⟨e, he, hfst⟩
    exact List.mem_map.mpr ⟨e, (mem_regPop.mp he).1, hfst⟩
  · intro hmem
    rcases List.mem_map.mp hmem with ⟨e, he, hfst⟩
    exact List.mem_map.mpr ⟨e, mem_regPop.mpr ⟨he, by omega⟩, hfst⟩

/-- Merging the left neighbor's group into the group the current cell
already joined, stated over any state whose components are the merged
registry and the relabeled board. -/
theorem scanInv_merge_aux {board : List (List Nat)} {r c p cur lg : Nat} {st : ScanSt}
    {absorbed : Group}
    (h : MidInv board r c p cur st) (hv : validBoard board) (hp : p = 1 ∨ p = 2)
    (hr : r < board.length) (hc : c < board.length)
    (hfind : regFind (st.groupsOf p) lg = some absorbed)
    (hnecur : lg ≠ cur)
    (st' : ScanSt)
    (hgb' : st'.gb = absorbed.elements.foldl (fun gb e => setCell gb e.1 e.2 cur) st.gb)
    (hgroups' : ∀ q, q = 1 ∨ q = 2 → st'.groupsOf q =
      if q = p then regPop (regSet (st.groupsOf p) cur (fun g => g.merge_groups absorbed)) lg
      else st.groupsOf q)
    (hcnt' : ∀ q, q = 1 ∨ q = 2 → st'.counterOf q = st.counterOf q)
    (hc1' : st'.c1 = st.c1) (hc2' : st'.c2 = st.c2) :
    MidInv board r c p cur st' := by
  have heabs : (lg, absorbed) ∈ st.groupsOf p := regFind_mem hfind
  have hmabs := h.mem p hp (lg, absorbed) heabs
  have habs_ok : GroupOkOn board st.gb board.length lg absorbed :=
    hmabs.2.2.1 (by rintro ⟨-, hcon⟩; exact hnecur hcon)
  obtain ⟨habs_el, habs_lib, habs_cnt⟩ := habs_ok
  have habs_own : ∀ x ∈ absorbed.elements, cell board x.1 x.2 = p := hmabs.2.2.2
  have hlg0 : lg ≠ 0 := hmabs.1.2.1
  rcases List.mem_map.mp h.curmem with ⟨ecur, hecur, hecur_fst⟩
  have hfind_cur : regFind (st.groupsOf p) cur = some ecur.2 := by
    apply regFind_eq_of_mem (h.nd p hp)
    have : ecur = (cur, ecur.2) := by
      obtain ⟨a, b⟩ := ecur
      simp only at hecur_fst
      rw [hecur_fst]
    rw [← this]
    exact hecur
  set gcur := ecur.2 with hgcur
  have hmcur := h.mem p hp (cur, gcur) (regFind_mem hfind_cur)
  have hcur_mid : MidGroupOk board st.gb board.length r c cur gcur :=
    hmcur.2.1 ⟨rfl, rfl⟩
  obtain ⟨hcur_el, hcur_lib, hcur_cnt, hcur_rc⟩ := hcur_mid
  have hcur0 : cur ≠ 0 := hmcur.1.2.1
  have hgblen : st.gb.length = board.length := h.glen
  have hbnd : ∀ e ∈ absorbed.elements, e.1 < st.gb.length ∧ e.2 < (st.gb.getD e.1 []).length := by
    intro e he
    have : e ∈ absorbed.elements.toFinset := List.mem_toFinset.mpr he
    rw [habs_el, mem_cellsOf] at this
    refine ⟨by omega, ?_⟩
    rw [rowlen_getD h.rlen (by omega)]
    omega
  have hcellF : ∀ x : Pos, cell (absorbed.elements.foldl
      (fun gb e => setCell gb e.1 e.2 cur) st.gb) x.1 x.2
      = if (x.1, x.2) ∈ absorbed.elements then cur else cell st.gb x.1 x.2 := by
    intro x
    exact cell_relabel _ _ _ _ _ hbnd
  have hmem_abs : ∀ x : Pos, x.1 < board.length → x.2 < board.length →
      (x ∈ absorbed.elements ↔ cell st.gb x.1 x.2 = lg) := by
    intro x hx1 hx2
    rw [← List.mem_toFinset, habs_el, mem_cellsOf]
    constructor
    · rintro ⟨-, -, hl⟩
      exact hl
    · intro hl
      exact ⟨hx1, hx2, hl⟩
  have hmem_abs' : ∀ x : Pos, x ∈ absorbed.elements → cell st.gb x.1 x.2 = lg := by
    intro x hx
    have : x ∈ absorbed.elements.toFinset := List.mem_toFinset.mpr hx
    rw [habs_el, mem_cellsOf] at this
    exact this.2.2
  have hoob : ∀ a b : Nat, ¬(a < board.length ∧ b < board.length) → cell st.gb a b = 0 := by
    intro a b hab
    unfold cell
    rcases Nat.lt_or_ge a st.gb.length with hlt | hge
    · have hrow := rowlen_getD h.rlen hlt
      have hb : ¬ b < board.length := fun hbb => hab ⟨by omega, hbb⟩
      rw [List.getD_eq_default _ _ (by omega)]
    · have h9 : st.gb.getD a [] = [] := List.getD_eq_default _ _ (by omega)
      rw [h9]
      rfl
  have hcellF' : ∀ x : Pos, cell (absorbed.elements.foldl
      (fun gb e => setCell gb e.1 e.2 cur) st.gb) x.1 x.2
      = if cell st.gb x.1 x.2 = lg then cur else cell st.gb x.1 x.2 := by
    intro x
    rw [hcellF x]
    by_cases hxm : (x.1, x.2) ∈ absorbed.elements
    · rw [if_pos hxm, if_pos (hmem_abs' _ hxm)]
    · rw [if_neg hxm]
      by_cases hxl : cell st.gb x.1 x.2 = lg
      · exfalso
        by_cases hxb : x.1 < board.length ∧ x.2 < board.length
        · exact hxm ((hmem_abs (x.1, x.2) hxb.1 hxb.2).mpr hxl)
        · have := hoob x.1 x.2 hxb
          omega
      · rw [if_neg hxl]
  have hzero : ∀ x : Pos, (cell (absorbed.elements.foldl
      (fun gb e => setCell gb e.1 e.2 cur) st.gb) x.1 x.2 = 0 ↔ cell st.gb x.1 x.2 = 0) := by
    intro x
    rw [hcellF' x]
    by_cases hxl : cell st.gb x.1 x.2 = lg
    · rw [if_pos hxl]
      constructor
      · intro hcon
        exact absurd hcon hcur0
      · intro hcon
        rw [hxl] at hcon
        exact absurd hcon hlg0
    · rw [if_neg hxl]
  have hcellsF : ∀ j : Nat, j ≠ 0 → j ≠ lg →
      cellsOf (absorbed.elements.foldl (fun gb e => setCell gb e.1 e.2 cur) st.gb)
        board.length j
      = if j = cur then cellsOf st.gb board.length cur ∪ cellsOf st.gb board.length lg
        else cellsOf st.gb board.length j := by
    intro j hj0 hjlg
    ext x
    rw [mem_cellsOf, hcellF' x]
    by_cases hjc : j = cur
    · subst hjc
      rw [if_pos rfl, Finset.mem_union, mem_cellsOf, mem_cellsOf]
      by_cases hxl : cell st.gb x.1 x.2 = lg
      · rw [if_pos hxl]
        constructor
        · rintro ⟨hx1, hx2, -⟩
          exact Or.inr ⟨hx1, hx2, hxl⟩
        · rintro (⟨hx1, hx2, -⟩ | ⟨hx1, hx2, -⟩) <;> exact ⟨hx1, hx2, rfl⟩
      · rw [if_neg hxl]
        constructor
        · rintro ⟨hx1, hx2, hl⟩
          exact Or.inl ⟨hx1, hx2, hl⟩
        · rintro (⟨hx1, hx2, hl⟩ | ⟨hx1, hx2, hl⟩)
          · exact ⟨hx1, hx2, hl⟩
          · exact absurd hl hxl
    · rw [if_neg hjc, mem_cellsOf]
      by_cases hxl : cell st.gb x.1 x.2 = lg
      · rw [if_pos hxl]
        constructor
        · rintro ⟨hx1, hx2, hl⟩
          exact absurd hl.symm hjc
        · rintro ⟨hx1, hx2, hl⟩
          rw [hxl] at hl
          exact absurd hl.symm hjlg
      · rw [if_neg hxl]
  refine ⟨?_, ?_, ?_, ?_, ?_, ?_, ?_, ?_, ?_, ?_, ?_⟩
  · rw [hgb', length_relabel]
    exact h.glen
  · rw [hgb']
    exact rlen_relabel _ _ _ _ h.rlen
  · rw [hc1']
    exact h.c1odd
  · rw [hc2']
    exact h.c2even
  · rw [hc2']
    exact h.c2pos
  · intro q hq
    rw [hgroups' q hq]
    split
    · exact List.Nodup.sublist (keys_regPop_sublist _ _)
        (by rw [keys_regSet]; exact h.nd p hp)
    · exact h.nd q hq
  · intro x hx1 hx2
    rw [hgb']
    have := hzero x
    rw [← h.occ x hx1 hx2]
    constructor
    · intro hnz hcon
      exact hnz (this.mpr hcon)
    · intro hnz hcon
      exact hnz (this.mp hcon)
  · rw [hgb']
    have hc9 : cell (absorbed.elements.foldl (fun gb e => setCell gb e.1 e.2 cur) st.gb) r c
        = if (r, c) ∈ absorbed.elements then cur else cell st.gb r c :=
      cell_relabel _ _ _ _ _ hbnd
    have hnm : (r, c) ∉ absorbed.elements := by
      intro hcon
      have h8 : cell st.gb r c = lg := hmem_abs' (r, c) hcon
      rw [h.curlbl] at h8
      exact hnecur h8.symm
    rw [hc9, if_neg hnm]
    exact h.curlbl
  · rw [hgroups' p hp, if_pos rfl]
    rw [keys_regPop_mem (by omega)]
    rw [keys_regSet]
    exact h.curmem
  · intro q hq e he
    rw [hgroups' q hq] at he
    rw [hgb', hcnt' q hq]
    by_cases hqp : q = p
    · rw [if_pos hqp] at he
      have he2 := mem_regPop.mp he
      rcases mem_regSet he2.1 with ⟨e₀, he₀, heq⟩
      have hm := h.mem q hq e₀ (by rw [hqp]; exact he₀)
      by_cases hk : e₀.1 = cur
      · rw [if_pos hk] at heq
        subst heq
        have he₀2 : e₀.2 = gcur := by
          have := regFind_eq_of_mem (h.nd p hp) (show (cur, e₀.2) ∈ st.groupsOf p by
            have : e₀ = (cur, e₀.2) := by
              obtain ⟨a, b⟩ := e₀
              simp only at hk
              rw [hk]
            rw [← this]
            exact he₀)
          rw [hfind_cur] at this
          injection this with hval
          exact hval.symm
        refine ⟨⟨hm.1.1, hm.1.2.1, hm.1.2.2⟩, ?_, ?_, ?_⟩
        · intro _
          rw [he₀2]
          have hEmerge : (gcur.merge_groups absorbed).elements.toFinset
              = cellsOf (absorbed.elements.foldl (fun gb e => setCell gb e.1 e.2 cur) st.gb)
                  board.length e₀.1 := by
            show (gcur.elements ++ absorbed.elements).toFinset = _
            rw [List.toFinset_append, hcur_el, habs_el, hcellsF e₀.1 hm.1.2.1 (by omega),
              if_pos hk]
          refine ⟨hEmerge, ?_, merge_groups_cnt hcur_cnt, ?_⟩
          · show gcur.liberties ∪ absorbed.liberties = _
            rw [hcur_lib, habs_lib, ← libSpecF_union]
            congr 1
            show gcur.elements.toFinset.erase (r, c) ∪ absorbed.elements.toFinset
              = (gcur.elements ++ absorbed.elements).toFinset.erase (r, c)
            rw [List.toFinset_append, Finset.erase_union_distrib]
            congr 1
            rw [Finset.erase_eq_self.mpr]
            rw [habs_el, mem_cellsOf]
            rintro ⟨-, -, hl⟩
            rw [h.curlbl] at hl
            exact hnecur hl.symm
          · show (r, c) ∈ gcur.elements ++ absorbed.elements
            exact List.mem_append.mpr (Or.inl hcur_rc)
        · intro hcon
          exact absurd ⟨hqp, hk⟩ hcon
        · intro x hx
          rw [he₀2] at hx
          have hx' : x ∈ gcur.elements ++ absorbed.elements := hx
          rcases List.mem_append.mp hx' with h1 | h1
          · have := hmcur.2.2.2 x h1
            rw [this, hqp]
          · rw [habs_own x h1, hqp]
      · rw [if_neg hk] at heq
        subst heq
        obtain ⟨hel₀, hlib₀, hcnt₀⟩ := hm.2.2.1 (by rintro ⟨-, hcon⟩; exact hk hcon)
        refine ⟨hm.1, ?_, ?_, hm.2.2.2⟩
        · rintro ⟨-, hcon⟩
          exact absurd hcon hk
        · intro _
          refine ⟨?_, hlib₀, hcnt₀⟩
          rw [hcellsF e.1 hm.1.2.1 he2.2, if_neg hk, hel₀]
    · rw [if_neg hqp] at he
      have hm := h.mem q hq e he
      have hepar := hm.1.1
      have hcurpar : cur % 2 = p % 2 := hmcur.1.1
      have hlgpar : lg % 2 = p % 2 := hmabs.1.1
      have hecur : e.1 ≠ cur := by
        rcases hp with rfl | rfl <;> rcases hq with rfl | rfl <;> omega
      have helg : e.1 ≠ lg := by
        rcases hp with rfl | rfl <;> rcases hq with rfl | rfl <;> omega
      obtain ⟨hel₀, hlib₀, hcnt₀⟩ := hm.2.2.1 (by rintro ⟨hcon, -⟩; exact hqp hcon)
      refine ⟨hm.1, ?_, ?_, hm.2.2.2⟩
      · rintro ⟨hcon, -⟩
        exact absurd hcon hqp
      · intro _
        refine ⟨?_, hlib₀, hcnt₀⟩
        rw [hcellsF e.1 hm.1.2.1 helg, if_neg hecur, hel₀]
  · intro x hx1 hx2 hnz
    rw [hgb'] at hnz ⊢
    rw [hcellF' x] at hnz ⊢
    by_cases hxl : cell st.gb x.1 x.2 = lg
    · rw [if_pos hxl] at hnz ⊢
      have hbx : cell board x.1 x.2 = p := by
        have hx' : (x.1, x.2) ∈ absorbed.elements := (hmem_abs (x.1, x.2) hx1 hx2).mpr hxl
        have := habs_own _ hx'
        exact this
      rw [hbx]
      rw [hgroups' p hp, if_pos rfl, keys_regPop_mem (by omega), keys_regSet]
      exact h.curmem
    · rw [if_neg hxl] at hnz ⊢
      have hcov := h.cover x hx1 hx2 hnz
      have hbx0 : cell board x.1 x.2 ≠ 0 := ((h.occ x hx1 hx2).mp hnz).2
      have hbq : cell board x.1 x.2 = 1 ∨ cell board x.1 x.2 = 2 := by
        rcases validBoard_cell hv hx1 hx2 with h0 | h12
        · exact absurd h0 hbx0
        · exact h12
      rw [hgroups' _ hbq]
      split
      · next hqq =>
        rw [keys_regPop_mem (by omega), keys_regSet, ← hqq]
        exact hcov
      · exact hcov

/-- The merge branch of init_step (left neighbor group absorbed into the
group the cell joined from above) preserves the mid-step invariant. -/
theorem scanInv_merge {board : List (List Nat)} {r c p cur lg : Nat} {st : ScanSt}
    {absorbed : Group}
    (h : MidInv board r c p cur st) (hv : validBoard board) (hp : p = 1 ∨ p = 2)
    (hr : r < board.length) (hc : c < board.length)
    (hfind : regFind (st.groupsOf p) lg = some absorbed)
    (hnecur : lg ≠ cur) :
    MidInv board r c p cur
      ({ (st.setGroups p (regSet (st.groupsOf p) cur
            (fun g => g.merge_groups absorbed))).setGroups p
          (regPop ((st.setGroups p (regSet (st.groupsOf p) cur
            (fun g => g.merge_groups absorbed))).groupsOf p) lg) with
        gb := absorbed.elements.foldl (fun gb e => setCell gb e.1 e.2 cur)
          ((st.setGroups p (regSet (st.groupsOf p) cur
            (fun g => g.merge_groups absorbed))).setGroups p
           (regPop ((st.setGroups p (regSet (st.groupsOf p) cur
            (fun g => g.merge_groups absorbed))).groupsOf p) lg)).gb } : ScanSt) := by
  have hreg1 : (st.setGroups p (regSet (st.groupsOf p) cur
      (fun g => g.merge_groups absorbed))).groupsOf p
      = regSet (st.groupsOf p) cur (fun g => g.merge_groups absorbed) := by
    rw [scGroupsOf_setGroups _ _ _ _ hp hp, if_pos rfl]
  apply scanInv_merge_aux h hv hp hr hc hfind hnecur
  · simp only []
    rw [scGb_setGroups, scGb_setGroups]
  · intro q hq
    rw [scGroupsOf_gbup, scGroupsOf_setGroups _ _ _ _ hp hq, hreg1]
    by_cases hqp : q = p
    · rw [if_pos hqp, if_pos hqp]
    · rw [if_neg hqp, if_neg hqp, scGroupsOf_setGroups _ _ _ _ hp hq, if_neg hqp]
  · intro q hq
    rw [scCounterOf_gbup, scCounterOf_setGroups, scCounterOf_setGroups]
  · simp only []
    rw [scC1_setGroups, scC1_setGroups]
  · simp only []
    rw [scC2_setGroups, scC2_setGroups]

/-- An empty current cell leaves the scan state unchanged; the processed
region still advances. -/
theorem scanInv_skip {board : List (List Nat)} {r c : Nat} {st : ScanSt}
    (h : ScanInv board r c st) (hb0 : cell board r c = 0) :
    ScanInv board r (c + 1) st := by
  refine ⟨h.glen, h.rlen, h.c1odd, h.c2even, h.c2pos, h.nd, ?_, h.mem, h.cover⟩
  intro x hx1 hx2
  by_cases hx : x = (r, c)
  · subst hx
    rw [h.occ (r, c) hx1 hx2]
    constructor
    · rintro ⟨hpc, hbc⟩
      exact absurd hb0 hbc
    · rintro ⟨hpc, hbc⟩
      exact absurd hb0 hbc
  · rw [proc_succ_iff hx]
    exact h.occ x hx1 hx2

theorem midInv_cur_ne0 {board : List (List Nat)} {r c p cur : Nat} {st : ScanSt}
    (h : MidInv board r c p cur st) (hp : p = 1 ∨ p = 2) : cur ≠ 0 := by
  rcases List.mem_map.mp h.curmem with ⟨e, he, hfst⟩
  have := (h.mem p hp e he).1.2.1
  omega

theorem keys_mem_regFind {reg : Registry} {k : Nat} (h : k ∈ reg.map Prod.fst) :
    ∃ g, regFind reg k = some g := by
  cases hf : regFind reg k with
  | some g => exact ⟨g, rfl⟩
  | none => exact absurd h (regFind_eq_none.mp hf)

/-! ### Branch equations for the scan-step stages -/

theorem init_top_yes {board : List (List Nat)} {st : ScanSt} {r c player : Nat}
    (h1 : 1 ≤ r) (h2 : cell st.gb (r - 1) c ≠ 0) (h3 : cell board (r - 1) c = player) :
    init_top board st r c player
      = ({ st with gb := setCell st.gb r c (cell st.gb (r - 1) c) } : ScanSt).setGroups player
          (regSet (st.groupsOf player) (cell st.gb (r - 1) c)
            (fun g => g.add_element [(r, c)])) := by
  unfold init_top
  rw [if_pos h1, if_pos ⟨h2, h3⟩]
  rfl

theorem init_top_no {board : List (List Nat)} {st : ScanSt} {r c player : Nat}
    (h : ¬(1 ≤ r) ∨ cell st.gb (r - 1) c = 0 ∨ cell board (r - 1) c ≠ player) :
    init_top board st r c player = st := by
  unfold init_top
  rcases h with h | h | h
  · rw [if_neg h]
  · split
    · rw [if_neg (fun hcon => hcon.1 h)]
    · rfl
  · split
    · rw [if_neg (fun hcon => h hcon.2)]
    · rfl

theorem init_left_no {board : List (List Nat)} {st : ScanSt} {r c player : Nat}
    (h : ¬(1 ≤ c) ∨ cell st.gb r (c - 1) = 0 ∨ cell board r (c - 1) ≠ player) :
    init_left board st r c player = st := by
  unfold init_left
  rcases h with h | h | h
  · rw [if_neg h]
  · split
    · rw [if_neg (fun hcon => hcon.1 h)]
    · rfl
  · split
    · rw [if_neg (fun hcon => h hcon.2)]
    · rfl

theorem init_left_stay {board : List (List Nat)} {st : ScanSt} {r c player : Nat}
    (h1 : 1 ≤ c) (h4 : cell st.gb r c ≠ 0)
    (h5 : cell st.gb r (c - 1) = cell st.gb r c) :
    init_left board st r c player = st := by
  unfold init_left
  rw [if_pos h1]
  simp [h5, h4]

theorem init_left_join {board : List (List Nat)} {st : ScanSt} {r c player : Nat}
    (h1 : 1 ≤ c) (h2 : cell st.gb r (c - 1) ≠ 0) (h3 : cell board r (c - 1) = player)
    (h4 : cell st.gb r c = 0) :
    init_left board st r c player
      = ({ st with gb := setCell st.gb r c (cell st.gb r (c - 1)) } : ScanSt).setGroups player
          (regSet (st.groupsOf player) (cell st.gb r (c - 1))
            (fun g => g.add_element [(r, c)])) := by
  unfold init_left
  rw [if_pos h1, if_pos ⟨h2, h3⟩, if_neg (fun hcon => hcon.1 h4), if_pos h4]
  rfl

theorem init_left_merge {board : List (List Nat)} {st : ScanSt} {r c player : Nat}
    {absorbed : Group}
    (h1 : 1 ≤ c) (h2 : cell st.gb r (c - 1) ≠ 0) (h3 : cell board r (c - 1) = player)
    (h4 : cell st.gb r c ≠ 0) (h5 : cell st.gb r (c - 1) ≠ cell st.gb r c)
    (hfind : regFind (st.groupsOf player) (cell st.gb r (c - 1)) = some absorbed) :
    init_left board st r c player
      = ({ (st.setGroups player (regSet (st.groupsOf player) (cell st.gb r c)
             (fun g => g.merge_groups absorbed))).setGroups player
            (regPop ((st.setGroups player (regSet (st.groupsOf player) (cell st.gb r c)
             (fun g => g.merge_groups absorbed))).groupsOf player) (cell st.gb r (c - 1))) with
          gb := absorbed.elements.foldl
            (fun gb e => setCell gb e.1 e.2 (cell st.gb r c))
            ((st.setGroups player (regSet (st.groupsOf player) (cell st.gb r c)
               (fun g => g.merge_groups absorbed))).setGroups player
              (regPop ((st.setGroups player (regSet (st.groupsOf player) (cell st.gb r c)
               (fun g => g.merge_groups absorbed))).groupsOf player)
                (cell st.gb r (c - 1)))).gb } : ScanSt) := by
  unfold init_left
  rw [if_pos h1, if_pos ⟨h2, h3⟩, if_pos ⟨h4, h5⟩, hfind]

theorem init_newg_yes {st : ScanSt} {r c player : Nat} (h : cell st.gb r c = 0) :
    init_newg st r c player
      = (({ st.setGroups player (st.groupsOf player ++ [(st.counterOf player, Group.init (r, c))]) with
          gb := setCell (st.setGroups player
            (st.groupsOf player ++ [(st.counterOf player, Group.init (r, c))])).gb r c
            (st.counterOf player) } : ScanSt).setCounter player (st.counterOf player + 2)) := by
  unfold init_newg
  rw [if_pos h]

theorem init_newg_no {st : ScanSt} {r c player : Nat} (h : cell st.gb r c ≠ 0) :
    init_newg st r c player = st := by
  unfold init_newg
  rw [if_neg h]

theorem init_libs_eq {board : List (List Nat)} {st : ScanSt} {r c player cur : Nat}
    (h : cell st.gb r c = cur) :
    init_libs board st r c player
      = st.setGroups player (regSet (st.groupsOf player) cur
          (fun g => g.add_liberties r c board)) := by
  unfold init_libs
  rw [h]

/-- The scan state after the current cell joins the existing group k of
player p (the common shape of the top-join and left-join branches). -/
def joinT (st : ScanSt) (p k r c : Nat) : ScanSt :=
  ({ st with gb := setCell st.gb r c k } : ScanSt).setGroups p
    (regSet (st.groupsOf p) k (fun g => g.add_element [(r, c)]))

/-- The scan state after the left group lg of player p is absorbed into the
current cell's group cur. -/
def mergeT (st : ScanSt) (p cur lg : Nat) (absorbed : Group) : ScanSt :=
  { (st.setGroups p (regSet (st.groupsOf p) cur
        (fun g => g.merge_groups absorbed))).setGroups p
      (regPop ((st.setGroups p (regSet (st.groupsOf p) cur
        (fun g => g.merge_groups absorbed))).groupsOf p) lg) with
    gb := absorbed.elements.foldl (fun gb e => setCell gb e.1 e.2 cur)
      ((st.setGroups p (regSet (st.groupsOf p) cur
        (fun g => g.merge_groups absorbed))).setGroups p
       (regPop ((st.setGroups p (regSet (st.groupsOf p) cur
        (fun g => g.merge_groups absorbed))).groupsOf p) lg)).gb }

/-- The scan state after a fresh singleton group is allocated for the
current cell. -/
def newT (st : ScanSt) (p r c : Nat) : ScanSt :=
  ({ st.setGroups p (st.groupsOf p ++ [(st.counterOf p, Group.init (r, c))]) with
      gb := setCell (st.setGroups p
        (st.groupsOf p ++ [(st.counterOf p, Group.init (r, c))])).gb r c
        (st.counterOf p) } : ScanSt).setCounter p (st.counterOf p + 2)

theorem init_top_join {board : List (List Nat)} {st : ScanSt} {r c player : Nat}
    (h1 : 1 ≤ r) (h2 : cell st.gb (r - 1) c ≠ 0) (h3 : cell board (r - 1) c = player) :
    init_top board st r c player = joinT st player (cell st.gb (r - 1) c) r c := by
  rw [init_top_yes h1 h2 h3]
  rfl

theorem init_left_joinT {board : List (List Nat)} {st : ScanSt} {r c player : Nat}
    (h1 : 1 ≤ c) (h2 : cell st.gb r (c - 1) ≠ 0) (h3 : cell board r (c - 1) = player)
    (h4 : cell st.gb r c = 0) :
    init_left board st r c player = joinT st player (cell st.gb r (c - 1)) r c := by
  rw [init_left_join h1 h2 h3 h4]
  rfl

theorem init_left_mergeT {board : List (List Nat)} {st : ScanSt} {r c player : Nat}
    {absorbed : Group}
    (h1 : 1 ≤ c) (h2 : cell st.gb r (c - 1) ≠ 0) (h3 : cell board r (c - 1) = player)
    (h4 : cell st.gb r c ≠ 0) (h5 : cell st.gb r (c - 1) ≠ cell st.gb r c)
    (hfind : regFind (st.groupsOf player) (cell st.gb r (c - 1)) = some absorbed) :
    init_left board st r c player
      = mergeT st player (cell st.gb r c) (cell st.gb r (c - 1)) absorbed := by
  rw [init_left_merge h1 h2 h3 h4 h5 hfind]
  rfl

theorem init_newg_newT {st : ScanSt} {r c player : Nat} (h : cell st.gb r c = 0) :
    init_newg st r c player = newT st player r c := by
  rw [init_newg_yes h]
  rfl

theorem joinT_gb (st : ScanSt) (p k r c : Nat) :
    (joinT st p k r c).gb = setCell st.gb r c k := by
  unfold joinT
  rw [scGb_setGroups]

/-- Once the mid-step invariant holds for the state reached after the join
and merge checks, the fresh-group case is skipped and the liberty scan
restores the full invariant. -/
theorem midInv_tail {board : List (List Nat)} {r c p cur : Nat} {T : ScanSt}
    (hmid : MidInv board r c p cur T) (hp : p = 1 ∨ p = 2)
    (hr : r < board.length) (hc : c < board.length) :
    ScanInv board r (c + 1) (init_libs board (init_newg T r c p) r c p) := by
  rw [init_newg_no (by rw [hmid.curlbl]; exact midInv_cur_ne0 hmid hp),
    init_libs_eq hmid.curlbl]
  exact midInv_fin hmid hp hr hc

/-- One scan step of initialize_groups preserves the scan invariant,
advancing the processed region by one cell. -/
theorem scanInv_step {board : List (List Nat)} {r c : Nat} {st : ScanSt}
    (h : ScanInv board r c st) (hv : validBoard board)
    (hr : r < board.length) (hc : c < board.length) :
    ScanInv board r (c + 1) (init_step board st (r, c)) := by
  by_cases hp0 : cell board r c = 0
  · have hstep : init_step board st (r, c) = st := by
      unfold init_step
      simp [hp0]
    rw [hstep]
    exact scanInv_skip h hp0
  · have hp12 : cell board r c = 1 ∨ cell board r c = 2 := by
      rcases validBoard_cell hv (x := (r, c)) hr hc with h0 | h1 | h2
      · exact absurd h0 hp0
      · exact Or.inl h1
      · exact Or.inr h2
    have hstep : init_step board st (r, c)
        = init_libs board
            (init_newg (init_left board (init_top board st r c (cell board r c)) r c
              (cell board r c)) r c (cell board r c)) r c (cell board r c) := by
      unfold init_step
      rw [if_neg hp0]
    rw [hstep]
    have hcur0 : cell st.gb r c = 0 := by
      by_contra hne
      exact proc_self_false r c ((h.occ (r, c) hr hc).mp hne).1
    have hrb : r < st.gb.length := by rw [h.glen]; exact hr
    have hcb : c < (st.gb.getD r []).length := by
      rw [rowlen_getD h.rlen hrb]
      exact hc
    by_cases hA : 1 ≤ r ∧ cell st.gb (r - 1) c ≠ 0 ∧
        cell board (r - 1) c = cell board r c
    · -- the top neighbor joins the current cell into its group
      obtain ⟨hA1, hA2, hA3⟩ := hA
      rw [init_top_join hA1 hA2 hA3]
      have hkreg : cell st.gb (r - 1) c
          ∈ ((st.groupsOf (cell board (r - 1) c)).map Prod.fst) :=
        h.cover (r - 1, c) (by (show r - 1 < board.length); omega) hc hA2
      rw [hA3] at hkreg
      have hmid1 : MidInv board r c (cell board r c) (cell st.gb (r - 1) c)
          (joinT st (cell board r c) (cell st.gb (r - 1) c) r c) :=
        scanInv_join h hp12 hr hc rfl hA2 hkreg
      have hcl : cell (joinT st (cell board r c) (cell st.gb (r - 1) c) r c).gb r c
          = cell st.gb (r - 1) c := by
        rw [joinT_gb]
        exact cell_setCell_self st.gb r c _ hrb hcb
      by_cases hB : 1 ≤ c ∧ cell st.gb r (c - 1) ≠ 0 ∧
          cell board r (c - 1) = cell board r c
      · obtain ⟨hB1, hB2, hB3⟩ := hB
        have hnepos : ((r, c - 1) : Pos) ≠ (r, c) := by
          intro heq
          have : c - 1 = c := congrArg Prod.snd heq
          omega
        have hlg : cell (joinT st (cell board r c) (cell st.gb (r - 1) c) r c).gb r (c - 1)
            = cell st.gb r (c - 1) := by
          rw [joinT_gb]
          exact cell_setCell_ne st.gb r (c - 1) _ r c hnepos
        by_cases hsame : cell st.gb r (c - 1) = cell st.gb (r - 1) c
        · -- the left group is the one just joined: nothing happens
          rw [init_left_stay hB1 (by rw [hcl]; exact hA2) (by rw [hlg, hcl]; exact hsame)]
          exact midInv_tail hmid1 hp12 hr hc
        · -- the left group is absorbed into the joined group
          have hlgmem : cell st.gb r (c - 1)
              ∈ (((joinT st (cell board r c) (cell st.gb (r - 1) c) r c).groupsOf
                  (cell board r (c - 1))).map Prod.fst) := by
            have := hmid1.cover (r, c - 1) hr (by (show c - 1 < board.length); omega)
              (by rw [hlg]; exact hB2)
            rw [hlg] at this
            exact this
          rw [hB3] at hlgmem
          obtain ⟨ab, hfind⟩ := keys_mem_regFind hlgmem
          rw [init_left_mergeT hB1 (by rw [hlg]; exact hB2) hB3 (by rw [hcl]; exact hA2)
            (by rw [hlg, hcl]; exact hsame) (by rw [hlg]; exact hfind), hcl, hlg]
          have hmid2 : MidInv board r c (cell board r c) (cell st.gb (r - 1) c)
              (mergeT (joinT st (cell board r c) (cell st.gb (r - 1) c) r c)
                (cell board r c) (cell st.gb (r - 1) c) (cell st.gb r (c - 1)) ab) :=
            scanInv_merge hmid1 hv hp12 hr hc hfind hsame
          exact midInv_tail hmid2 hp12 hr hc
      · -- no left join: the left check does nothing
        have hcond : ¬(1 ≤ c)
            ∨ cell (joinT st (cell board r c) (cell st.gb (r - 1) c) r c).gb r (c - 1) = 0
            ∨ cell board r (c - 1) ≠ cell board r c := by
          by_cases hc1 : 1 ≤ c
          · have hnepos : ((r, c - 1) : Pos) ≠ (r, c) := by
              intro heq
              have : c - 1 = c := congrArg Prod.snd heq
              omega
            have hlg : cell (joinT st (cell board r c) (cell st.gb (r - 1) c) r c).gb
                r (c - 1) = cell st.gb r (c - 1) := by
              rw [joinT_gb]
              exact cell_setCell_ne st.gb r (c - 1) _ r c hnepos
            by_cases hlg0 : cell st.gb r (c - 1) = 0
            · exact Or.inr (Or.inl (by rw [hlg]; exact hlg0))
            · exact Or.inr (Or.inr (fun heq => hB ⟨hc1, hlg0, heq⟩))
          · exact Or.inl hc1
        rw [init_left_no hcond]
        exact midInv_tail hmid1 hp12 hr hc
    · -- no top join: the top check does nothing
      have hcondT : ¬(1 ≤ r) ∨ cell st.gb (r - 1) c = 0
          ∨ cell board (r - 1) c ≠ cell board r c := by
        by_cases hr1 : 1 ≤ r
        · by_cases htg0 : cell st.gb (r - 1) c = 0
          · exact Or.inr (Or.inl htg0)
          · exact Or.inr (Or.inr (fun heq => hA ⟨hr1, htg0, heq⟩))
        · exact Or.inl hr1
      rw [init_top_no hcondT]
      by_cases hB : 1 ≤ c ∧ cell st.gb r (c - 1) ≠ 0 ∧
          cell board r (c - 1) = cell board r c
      · -- the left neighbor joins the current cell into its group
        obtain ⟨hB1, hB2, hB3⟩ := hB
        rw [init_left_joinT hB1 hB2 hB3 hcur0]
        have hkreg : cell st.gb r (c - 1)
            ∈ ((st.groupsOf (cell board r (c - 1))).map Prod.fst) :=
          h.cover (r, c - 1) hr (by (show c - 1 < board.length); omega) hB2
        rw [hB3] at hkreg
        have hmid1 : MidInv board r c (cell board r c) (cell st.gb r (c - 1))
            (joinT st (cell board r c) (cell st.gb r (c - 1)) r c) :=
          scanInv_join h hp12 hr hc rfl hB2 hkreg
        exact midInv_tail hmid1 hp12 hr hc
      · -- fully fresh cell: allocate a new group
        have hcondL : ¬(1 ≤ c) ∨ cell st.gb r (c - 1) = 0
            ∨ cell board r (c - 1) ≠ cell board r c := by
          by_cases hc1 : 1 ≤ c
          · by_cases hlg0 : cell st.gb r (c - 1) = 0
            · exact Or.inr (Or.inl hlg0)
            · exact Or.inr (Or.inr (fun heq => hB ⟨hc1, hlg0, heq⟩))
          · exact Or.inl hc1
        rw [init_left_no hcondL, init_newg_newT hcur0]
        have hmidN : MidInv board r c (cell board r c) (st.counterOf (cell board r c))
            (newT st (cell board r c) r c) :=
          scanInv_new h hv hp12 hr hc rfl
        rw [init_libs_eq hmidN.curlbl]
        exact midInv_fin hmidN hp12 hr hc

/-- Every cell of the all-zero starting grid reads 0. -/
theorem cell_zeroGrid (n r c : Nat) :
    cell ((List.range n).map (fun _ => (List.range n).map (fun _ => (0 : Nat)))) r c = 0 := by
  unfold cell
  by_cases hr : r < n
  · have h1 : ((List.range n).map
        (fun _ => (List.range n).map (fun _ => (0 : Nat)))).getD r []
        = (List.range n).map (fun _ => (0 : Nat)) := by
      have hr' : r < ((List.range n).map
          (fun _ => (List.range n).map (fun _ => (0 : Nat)))).length := by
        simpa using hr
      rw [List.getD_eq_getElem _ _ hr']
      simp
    rw [h1]
    by_cases hcn : c < n
    · have hc' : c < ((List.range n).map (fun _ => (0 : Nat))).length := by simpa using hcn
      rw [List.getD_eq_getElem _ _ hc']
      simp
    · rw [List.getD_eq_default _ _ (by simpa using hcn)]
  · have h9 : ((List.range n).map
        (fun _ => (List.range n).map (fun _ => (0 : Nat)))).getD r [] = [] :=
      List.getD_eq_default _ _ (by simpa using hr)
    rw [h9]
    rfl

/-- The scan invariant holds before any cell has been processed. -/
theorem scanInv_init (board : List (List Nat)) :
    ScanInv board 0 0
      ({ gb := (List.range board.length).map
           (fun _ => (List.range board.length).map (fun _ => 0)),
         g1 := [], g2 := [], c1 := 1, c2 := 2 } : ScanSt) := by
  refine ⟨by simp, ?_, by simp, by simp, by simp, ?_, ?_, ?_, ?_⟩
  · intro row hrow
    rcases List.mem_map.mp hrow with ⟨i, hi, hrw⟩
    rw [← hrw]
    simp
  · intro q hq
    rcases hq with rfl | rfl <;> simp [ScanSt.groupsOf]
  · intro x hx1 hx2
    constructor
    · intro hne
      exact absurd (cell_zeroGrid board.length x.1 x.2) hne
    · rintro ⟨hpc, hb⟩
      exact absurd hpc (by unfold Proc; omega)
  · intro q hq e he
    rcases hq with rfl | rfl <;> simp [ScanSt.groupsOf] at he
  · intro x hx1 hx2 hne
    exact absurd (cell_zeroGrid board.length x.1 x.2) hne

/-- Scanning the first m cells of row r preserves the invariant. -/
theorem scanInv_row {board : List (List Nat)} {r : Nat} (hv : validBoard board)
    (hr : r < board.length) :
    ∀ (m : Nat), m ≤ board.length → ∀ {st : ScanSt}, ScanInv board r 0 st →
      ScanInv board r m
        ((List.range m).foldl (fun s col => init_step board s (r, col)) st) := by
  intro m
  induction m with
  | zero =>
    intro _ st h
    simpa using h
  | succ k ih =>
    intro hm st h
    rw [List.range_succ, List.foldl_append]
    exact scanInv_step (ih (by omega) h) hv hr (by omega)

/-- A fully scanned row lets the invariant roll over to the start of the
next row. -/
theorem scanInv_roll {board : List (List Nat)} {r : Nat} {st : ScanSt}
    (h : ScanInv board r board.length st) : ScanInv board (r + 1) 0 st := by
  refine ⟨h.glen, h.rlen, h.c1odd, h.c2even, h.c2pos, h.nd, ?_, h.mem, h.cover⟩
  intro x hx1 hx2
  rw [h.occ x hx1 hx2]
  have hiff : Proc r board.length x ↔ Proc (r + 1) 0 x := by
    unfold Proc
    omega
  rw [hiff]

/-- Scanning the first m rows preserves the invariant. -/
theorem scanInv_rows {board : List (List Nat)} (hv : validBoard board) :
    ∀ (m : Nat), m ≤ board.length → ∀ {st : ScanSt}, ScanInv board 0 0 st →
      ScanInv board m 0
        ((List.range m).foldl
          (fun s row => (List.range board.length).foldl
            (fun s2 col => init_step board s2 (row, col)) s) st) := by
  intro m
  induction m with
  | zero =>
    intro _ st h
    simpa using h
  | succ k ih =>
    intro hm st h
    rw [List.range_succ, List.foldl_append]
    exact scanInv_roll (scanInv_row hv (by omega) board.length (le_refl _) (ih (by omega) h))

/-- initialize_groups establishes the scan invariant for the whole board. -/
theorem scanInv_groups {board : List (List Nat)} (hv : validBoard board) :
    ScanInv board board.length 0 (init_groups board) := by
  unfold init_groups
  exact scanInv_rows hv board.length (le_refl _) (scanInv_init board)

/-- After the full scan, the group board and the initial board agree on
which cells are empty. -/
theorem scanInv_groups_empt {board : List (List Nat)} {st : ScanSt}
    (h : ScanInv board board.length 0 st) :
    ∀ x : Pos, x.1 < board.length → x.2 < board.length →
      (cell st.gb x.1 x.2 = 0 ↔ cell board x.1 x.2 = 0) := by
  intro x hx1 hx2
  have hocc := h.occ x hx1 hx2
  have hpc : Proc board.length 0 x := by
    unfold Proc
    omega
  constructor
  · intro hz
    by_contra hb
    exact (hocc.mpr ⟨hpc, hb⟩) hz
  · intro hz
    by_contra hg
    exact (hocc.mp hg).2 hz

/-- The state built from a valid initial board satisfies the full state
invariant. -/
theorem stInv_init {player size : Nat} {board : List (List Nat)}
    (hp : player = 1 ∨ player = 2) (hv : validBoard board)
    (hsz : size = board.length) :
    StInv (stateFromBoard player size board) := by
  have hS : ScanInv board board.length 0 (init_groups board) := scanInv_groups hv
  have hempt := scanInv_groups_empt hS
  have hlib : ∀ (E : Finset Pos),
      libSpecF board board.length E = libSpecF (init_groups board).gb board.length E :=
    fun E => libSpecF_congr E (fun x h1 h2 => (hempt x h1 h2).symm)
  have hreg : ∀ q, q = 1 ∨ q = 2 →
      RegOk (init_groups board).gb (init_groups board).gb board.length q
        ((init_groups board).counterOf q) ((init_groups board).groupsOf q) := by
    intro q hq
    refine ⟨hS.nd q hq, ?_⟩
    intro e he
    obtain ⟨hkey, hok, _⟩ := hS.mem q hq e he
    refine ⟨hkey.1, hkey.2.1, hkey.2.2, ?_, ?_, ?_⟩
    · exact hok.1
    · rw [hok.2.1, hlib]
    · exact hok.2.2
  subst hsz
  refine ⟨hp, hS.glen, hS.rlen, hS.c1odd, hS.c2even, hS.c2pos, ?_, ?_, ?_⟩
  · exact hreg 1 (Or.inl rfl)
  · exact hreg 2 (Or.inr rfl)
  · intro r c hrn hcn hne
    have hrn' : r < board.length := hrn
    have hcn' : c < board.length := hcn
    have hne' : cell (init_groups board).gb r c ≠ 0 := hne
    have hkmem : cell (init_groups board).gb r c
        ∈ (((init_groups board).groupsOf (cell board r c)).map Prod.fst) :=
      hS.cover (r, c) hrn' hcn' hne'
    have hbne : cell board r c ≠ 0 := by
      intro hz
      exact hne' ((hempt (r, c) hrn' hcn').mpr hz)
    have hq : cell board r c = 1 ∨ cell board r c = 2 := by
      rcases validBoard_cell hv (x := (r, c)) hrn' hcn' with h0 | h1 | h2
      · exact absurd h0 hbne
      · exact Or.inl h1
      · exact Or.inr h2
    rcases List.mem_map.mp hkmem with ⟨e, hemem, hefst⟩
    have hpar := (hS.mem (cell board r c) hq e hemem).1.1
    have hkpar : (cell (init_groups board).gb r c) % 2 = (cell board r c) % 2 := by
      rw [← hefst]
      exact hpar
    have howner : State.get_group_player (cell (init_groups board).gb r c)
        = cell board r c := by
      unfold State.get_group_player
      rcases hq with hq1 | hq1 <;> rw [hq1] at hkpar ⊢
      · rw [if_neg (by omega)]
      · rw [if_pos (by omega)]
    have hgroups : ∀ q, q = 1 ∨ q = 2 →
        (stateFromBoard player board.length board).groupsOf q
          = (init_groups board).groupsOf q := by
      intro q hqq
      rcases hqq with rfl | rfl <;> rfl
    show ∃ g, regFind ((stateFromBoard player board.length board).groupsOf
        (State.get_group_player (cell (init_groups board).gb r c)))
        (cell (init_groups board).gb r c) = some g
    rw [howner, hgroups _ hq]
    exact keys_mem_regFind hkmem

/-! ### The incremental update: characterizing the neighbor pass -/

/-- The in-bounds orthogonal neighbors of (r, c) in the probe order of
State.update_groups: up, down, right, left. -/
def nbrList (n r c : Nat) : List Pos :=
  (if 1 ≤ r then [((r - 1 : Nat), c)] else []) ++
  (if r + 1 < n then [((r + 1 : Nat), c)] else []) ++
  (if c + 1 < n then [(r, (c + 1 : Nat))] else []) ++
  (if 1 ≤ c then [(r, (c - 1 : Nat))] else [])

/-- One step of the merge-list collection of update_groups: record the
probed cell's group id when it belongs to the mover and is new. -/
def collectStep (gb : List (List Nat)) (p : Nat) (acc : List Nat) (x : Pos) : List Nat :=
  if cell gb x.1 x.2 ≠ 0 ∧ State.get_group_player (cell gb x.1 x.2) = p then
    (if cell gb x.1 x.2 ∈ acc then acc else acc ++ [cell gb x.1 x.2])
  else acc

/-- The merge list collected over a sequence of probed cells. -/
def collectLabels (gb : List (List Nat)) (p : Nat) (ps : List Pos) (acc : List Nat) :
    List Nat :=
  ps.foldl (collectStep gb p) acc

/-- Remove the liberty (r, c) from every group of a registry whose key lies
in K. -/
def remAt (r c : Nat) (K : Finset Nat) (reg : Registry) : Registry :=
  reg.map (fun e => if e.1 ∈ K then (e.1, e.2.remove_liberty r c) else e)

/-- The group ids of a given owner appearing on the probed cells. -/
def nbrLabels (gb : List (List Nat)) (q : Nat) (ps : List Pos) : Finset Nat :=
  ((ps.map (fun x => cell gb x.1 x.2)).toFinset).filter
    (fun k => k ≠ 0 ∧ State.get_group_player k = q)

/-- The neighbor pass of update_groups as a fold over the probed cells. -/
def probeFold (mp : Pos) (p : Nat) (a : List Nat × State) (ps : List Pos) :
    List Nat × State :=
  ps.foldl (fun a x => a.2.find_neighboring_groups a.1 x mp p) a

theorem ggp_cases (k : Nat) :
    State.get_group_player k = 1 ∨ State.get_group_player k = 2 := by
  unfold State.get_group_player
  split
  · exact Or.inr rfl
  · exact Or.inl rfl

theorem ggp_parity {k q : Nat} (hq : q = 1 ∨ q = 2) :
    State.get_group_player k = q ↔ k % 2 = q % 2 := by
  unfold State.get_group_player
  rcases hq with rfl | rfl <;> split <;> simp <;> omega

theorem remove_liberty_idem (g : Group) (r c : Nat) :
    (g.remove_liberty r c).remove_liberty r c = g.remove_liberty r c := by
  unfold Group.remove_liberty
  by_cases hm : (r, c) ∈ g.liberties
  · rw [if_pos hm, if_neg (by simp)]
  · rw [if_neg hm, if_neg hm]

theorem remAt_empty (r c : Nat) (reg : Registry) : remAt r c ∅ reg = reg := by
  unfold remAt
  have h : reg.map (fun e => if e.1 ∈ (∅ : Finset Nat) then (e.1, e.2.remove_liberty r c) else e)
      = reg.map id := List.map_congr_left (fun e _ => by simp)
  rw [h, List.map_id]

theorem regSet_remove (reg : Registry) (k r c : Nat) :
    regSet reg k (fun g => g.remove_liberty r c) = remAt r c {k} reg := by
  unfold regSet remAt
  refine List.map_congr_left (fun e _ => ?_)
  by_cases h : e.1 = k <;> simp [h]

theorem remAt_remAt (r c : Nat) (K K' : Finset Nat) (reg : Registry) :
    remAt r c K (remAt r c K' reg) = remAt r c (K' ∪ K) reg := by
  unfold remAt
  rw [List.map_map]
  refine List.map_congr_left (fun e _ => ?_)
  by_cases h1 : e.1 ∈ K' <;> by_cases h2 : e.1 ∈ K <;>
    simp [Function.comp, h1, h2, remove_liberty_idem]

theorem keys_remAt (r c : Nat) (K : Finset Nat) (reg : Registry) :
    (remAt r c K reg).map Prod.fst = reg.map Prod.fst := by
  unfold remAt
  rw [List.map_map]
  refine List.map_congr_left (fun e _ => ?_)
  by_cases h : e.1 ∈ K <;> simp [Function.comp, h]

theorem mem_remAt {r c : Nat} {K : Finset Nat} {reg : Registry} {e' : Nat × Group}
    (h : e' ∈ remAt r c K reg) :
    ∃ e ∈ reg, e' = if e.1 ∈ K then (e.1, e.2.remove_liberty r c) else e := by
  rcases List.mem_map.mp h with ⟨e, he, heq⟩
  exact ⟨e, he, heq.symm⟩

theorem mem_nbrLabels {gb : List (List Nat)} {q : Nat} {ps : List Pos} {k : Nat} :
    k ∈ nbrLabels gb q ps ↔
      (∃ x ∈ ps, cell gb x.1 x.2 = k) ∧ k ≠ 0 ∧ State.get_group_player k = q := by
  unfold nbrLabels
  rw [Finset.mem_filter, List.mem_toFinset]
  simp

theorem nbrLabels_cons {gb : List (List Nat)} {q : Nat} {x : Pos} {ps : List Pos} :
    nbrLabels gb q (x :: ps)
      = if cell gb x.1 x.2 ≠ 0 ∧ State.get_group_player (cell gb x.1 x.2) = q then
          insert (cell gb x.1 x.2) (nbrLabels gb q ps)
        else nbrLabels gb q ps := by
  ext j
  rw [mem_nbrLabels]
  split
  · next hcond =>
    rw [Finset.mem_insert, mem_nbrLabels]
    constructor
    · rintro ⟨⟨x', hx', hcx⟩, hj0, hjq⟩
      rcases List.mem_cons.mp hx' with rfl | hx'
      · exact Or.inl hcx.symm
      · exact Or.inr ⟨⟨x', hx', hcx⟩, hj0, hjq⟩
    · rintro (rfl | ⟨⟨x', hx', hcx⟩, hj0, hjq⟩)
      · exact ⟨⟨x, List.mem_cons_self _ _, rfl⟩, hcond.1, hcond.2⟩
      · exact ⟨⟨x', List.mem_cons_of_mem _ hx', hcx⟩, hj0, hjq⟩
  · next hcond =>
    rw [mem_nbrLabels]
    constructor
    · rintro ⟨⟨x', hx', hcx⟩, hj0, hjq⟩
      rcases List.mem_cons.mp hx' with rfl | hx'
      · exact absurd ⟨by rw [hcx]; exact hj0, by rw [hcx]; exact hjq⟩ hcond
      · exact ⟨⟨x', hx', hcx⟩, hj0, hjq⟩
    · rintro ⟨⟨x', hx', hcx⟩, hj0, hjq⟩
      exact ⟨⟨x', List.mem_cons_of_mem _ hx', hcx⟩, hj0, hjq⟩

theorem fng_zero {s : State} {wl : List Nat} {np mp : Pos} {p : Nat}
    (h : cell s.group_board np.1 np.2 = 0) :
    s.find_neighboring_groups wl np mp p = (wl, s) := by
  unfold State.find_neighboring_groups
  simp [h]

theorem fng_pos {s : State} {wl : List Nat} {np mp : Pos} {p : Nat}
    (h : cell s.group_board np.1 np.2 ≠ 0) :
    s.find_neighboring_groups wl np mp p
      = ((if State.get_group_player (cell s.group_board np.1 np.2) = p then
            (if cell s.group_board np.1 np.2 ∈ wl then wl
             else wl ++ [cell s.group_board np.1 np.2])
          else wl),
         s.setGroups (State.get_group_player (cell s.group_board np.1 np.2))
           (regSet (s.groupsOf (State.get_group_player (cell s.group_board np.1 np.2)))
             (cell s.group_board np.1 np.2)
             (fun g => g.remove_liberty mp.1 mp.2))) := by
  unfold State.find_neighboring_groups
  rw [if_pos h]
  by_cases hop : State.get_group_player (cell s.group_board np.1 np.2) = p
  · by_cases hmem : cell s.group_board np.1 np.2 ∈ wl <;> simp [hop, hmem]
  · simp [hop]

theorem probeFold_spec (mp : Pos) (p : Nat) :
    ∀ (ps : List Pos) (s : State) (acc : List Nat),
    (probeFold mp p (acc, s) ps).2.group_board = s.group_board ∧
    (probeFold mp p (acc, s) ps).2.size = s.size ∧
    (probeFold mp p (acc, s) ps).2.player = s.player ∧
    (probeFold mp p (acc, s) ps).2.draw = s.draw ∧
    (probeFold mp p (acc, s) ps).2.counter1 = s.counter1 ∧
    (probeFold mp p (acc, s) ps).2.counter2 = s.counter2 ∧
    (∀ q, q = 1 ∨ q = 2 → (probeFold mp p (acc, s) ps).2.groupsOf q
        = remAt mp.1 mp.2 (nbrLabels s.group_board q ps) (s.groupsOf q)) ∧
    (probeFold mp p (acc, s) ps).1 = collectLabels s.group_board p ps acc := by
  intro ps
  induction ps with
  | nil =>
    intro s acc
    refine ⟨rfl, rfl, rfl, rfl, rfl, rfl, ?_, rfl⟩
    intro q hq
    have hemp : nbrLabels s.group_board q [] = ∅ := by
      ext j
      rw [mem_nbrLabels]
      simp
    rw [hemp, remAt_empty]
    rfl
  | cons x ps ih =>
    intro s acc
    have hstep : probeFold mp p (acc, s) (x :: ps)
        = probeFold mp p (s.find_neighboring_groups acc x mp p) ps := rfl
    by_cases hk : cell s.group_board x.1 x.2 = 0
    · rw [hstep, fng_zero hk]
      obtain ⟨h1, h2, h3, h4, h5, h6, h7, h8⟩ := ih s acc
      refine ⟨h1, h2, h3, h4, h5, h6, ?_, ?_⟩
      · intro q hq
        have hcond : ¬(cell s.group_board x.1 x.2 ≠ 0 ∧
            State.get_group_player (cell s.group_board x.1 x.2) = q) :=
          fun hcon => hcon.1 hk
        rw [h7 q hq, nbrLabels_cons, if_neg hcond]
      · rw [h8]
        show _ = collectLabels s.group_board p ps (collectStep s.group_board p acc x)
        have hcond : ¬(cell s.group_board x.1 x.2 ≠ 0 ∧
            State.get_group_player (cell s.group_board x.1 x.2) = p) :=
          fun hcon => hcon.1 hk
        rw [show collectStep s.group_board p acc x = acc by
          unfold collectStep
          rw [if_neg hcond]]
    · rw [hstep, fng_pos hk]
      have howner := ggp_cases (cell s.group_board x.1 x.2)
      obtain ⟨h1, h2, h3, h4, h5, h6, h7, h8⟩ :=
        ih (s.setGroups (State.get_group_player (cell s.group_board x.1 x.2))
             (regSet (s.groupsOf (State.get_group_player (cell s.group_board x.1 x.2)))
               (cell s.group_board x.1 x.2) (fun g => g.remove_liberty mp.1 mp.2)))
           (if State.get_group_player (cell s.group_board x.1 x.2) = p then
              (if cell s.group_board x.1 x.2 ∈ acc then acc
               else acc ++ [cell s.group_board x.1 x.2])
            else acc)
      rw [gb_setGroups] at h1 h7 h8
      refine ⟨h1, by rw [h2, size_setGroups], by rw [h3, player_setGroups],
        by rw [h4, draw_setGroups], by rw [h5, counter1_setGroups],
        by rw [h6, counter2_setGroups], ?_, ?_⟩
      · intro q hq
        rw [h7 q hq, groupsOf_setGroups _ _ _ _ howner hq, nbrLabels_cons,
          regSet_remove]
        by_cases hqo : q = State.get_group_player (cell s.group_board x.1 x.2)
        · have hcond : cell s.group_board x.1 x.2 ≠ 0 ∧
              State.get_group_player (cell s.group_board x.1 x.2) = q := ⟨hk, hqo.symm⟩
          rw [if_pos hqo, if_pos hcond, remAt_remAt, ← Finset.insert_eq, ← hqo]
        · have hcond : ¬(cell s.group_board x.1 x.2 ≠ 0 ∧
              State.get_group_player (cell s.group_board x.1 x.2) = q) :=
            fun hcon => hqo hcon.2.symm
          rw [if_neg hqo, if_neg hcond]
      · rw [h8]
        show _ = collectLabels s.group_board p ps (collectStep s.group_board p acc x)
        congr 1
        unfold collectStep
        by_cases hop : State.get_group_player (cell s.group_board x.1 x.2) = p
        · have hcond : cell s.group_board x.1 x.2 ≠ 0 ∧
              State.get_group_player (cell s.group_board x.1 x.2) = p := ⟨hk, hop⟩
          rw [if_pos hop, if_pos hcond]
        · have hcond : ¬(cell s.group_board x.1 x.2 ≠ 0 ∧
              State.get_group_player (cell s.group_board x.1 x.2) = p) :=
            fun hcon => hop hcon.2
          rw [if_neg hop, if_neg hcond]

theorem phaseA_eq (s : State) (p r c : Nat) :
    s.phaseA p r c = probeFold (r, c) p ([], s) (nbrList s.size r c) := by
  have hsz1 : ∀ (t : State) (wl : List Nat) (np : Pos),
      (t.find_neighboring_groups wl np (r, c) p).2.size = t.size := by
    intro t wl np
    by_cases hk : cell t.group_board np.1 np.2 = 0
    · rw [fng_zero hk]
    · rw [fng_pos hk, size_setGroups]
  unfold State.phaseA probeFold nbrList
  by_cases h1 : 1 ≤ r <;> by_cases h2 : r + 1 < s.size <;>
    by_cases h3 : c + 1 < s.size <;> by_cases h4 : 1 ≤ c <;>
    simp [h1, h2, h3, h4, hsz1]

/-! ### Geometry of the probed neighbors -/

theorem mem_nbrList {n r c : Nat} {x : Pos} :
    x ∈ nbrList n r c ↔
      (1 ≤ r ∧ x = (r - 1, c)) ∨ (r + 1 < n ∧ x = (r + 1, c)) ∨
      (c + 1 < n ∧ x = (r, c + 1)) ∨ (1 ≤ c ∧ x = (r, c - 1)) := by
  unfold nbrList
  by_cases h1 : 1 ≤ r <;> by_cases h2 : r + 1 < n <;>
    by_cases h3 : c + 1 < n <;> by_cases h4 : 1 ≤ c <;>
    simp [h1, h2, h3, h4] <;> tauto

theorem adj_comm (a b : Pos) : adj a b ↔ adj b a := by
  unfold adj
  omega

theorem nbrList_bounds {n r c : Nat} {x : Pos} (hr : r < n) (hc : c < n)
    (hx : x ∈ nbrList n r c) : x.1 < n ∧ x.2 < n := by
  rcases mem_nbrList.mp hx with ⟨h, rfl⟩ | ⟨h, rfl⟩ | ⟨h, rfl⟩ | ⟨h, rfl⟩ <;>
    constructor <;> simp <;> omega

theorem mem_nbrList_iff_adj {n r c : Nat} (hr : r < n) (hc : c < n) {x : Pos}
    (hx1 : x.1 < n) (hx2 : x.2 < n) :
    x ∈ nbrList n r c ↔ adj (r, c) x := by
  rw [mem_nbrList, adj_comm, adj_iff]
  constructor
  · rintro (⟨h, rfl⟩ | ⟨h, rfl⟩ | ⟨h, rfl⟩ | ⟨h, rfl⟩)
    · exact Or.inl ⟨h, rfl⟩
    · exact Or.inr (Or.inl rfl)
    · exact Or.inr (Or.inr (Or.inr rfl))
    · exact Or.inr (Or.inr (Or.inl ⟨h, rfl⟩))
  · rintro (⟨h, rfl⟩ | rfl | ⟨h, rfl⟩ | rfl)
    · exact Or.inl ⟨h, rfl⟩
    · exact Or.inr (Or.inl ⟨hx1, rfl⟩)
    · exact Or.inr (Or.inr (Or.inr ⟨h, rfl⟩))
    · exact Or.inr (Or.inr (Or.inl ⟨hx2, rfl⟩))

/-! ### Placing a stone: effect on liberty sets and label sets -/

theorem libSpecF_setCell {gb : List (List Nat)} {n r c v : Nat} (E : Finset Pos)
    (hg : gb.length = n) (hrl : ∀ row ∈ gb, row.length = n)
    (hr : r < n) (hc : c < n) (hv : v ≠ 0) :
    libSpecF (setCell gb r c v) n E = (libSpecF gb n E).erase (r, c) := by
  have hcw : cell (setCell gb r c v) r c = v :=
    cell_setCell_self _ _ _ _ (by omega) (by rw [rowlen_getD hrl (by omega)]; exact hc)
  ext x
  rw [Finset.mem_erase, mem_libSpecF, mem_libSpecF]
  by_cases hx : x = (r, c)
  · subst hx
    rw [hcw]
    constructor
    · rintro ⟨-, hz, -⟩
      exact absurd hz hv
    · rintro ⟨hne, -⟩
      exact absurd rfl hne
  · have hne : cell (setCell gb r c v) x.1 x.2 = cell gb x.1 x.2 :=
      cell_setCell_ne _ _ _ _ _ _ hx
    rw [hne]
    constructor
    · intro hm
      exact ⟨hx, hm⟩
    · rintro ⟨-, hm⟩
      exact hm

theorem cellsOf_setCell_ne0 {gb : List (List Nat)} {n r c v k : Nat}
    (hg : gb.length = n) (hrl : ∀ row ∈ gb, row.length = n)
    (hr : r < n) (hc : c < n) (hemp : cell gb r c = 0) (hk : k ≠ 0) (hkv : v ≠ k) :
    cellsOf (setCell gb r c v) n k = cellsOf gb n k := by
  rw [cellsOf_setCell r c v k hg hrl hr hc, if_neg hkv, Finset.erase_eq_self.mpr]
  rw [mem_cellsOf]
  rintro ⟨-, -, hck⟩
  rw [hemp] at hck
  exact hk hck.symm

theorem elements_bounds {gb : List (List Nat)} {n k : Nat} {g : Group}
    (h : g.elements.toFinset = cellsOf gb n k) :
    ∀ e ∈ g.elements, e.1 < n ∧ e.2 < n := by
  intro e he
  have hm : e ∈ cellsOf gb n k := h ▸ List.mem_toFinset.mpr he
  exact ⟨(mem_cellsOf.mp hm).1, (mem_cellsOf.mp hm).2.1⟩

theorem regFind_remAt (r c : Nat) (K : Finset Nat) (reg : Registry) (k : Nat) :
    regFind (remAt r c K reg) k
      = (regFind reg k).map (fun g => if k ∈ K then g.remove_liberty r c else g) := by
  induction reg with
  | nil => rfl
  | cons e rest ih =>
    by_cases hm : e.1 ∈ K
    · by_cases he : e.1 = k
      · simp [remAt, regFind, hm, he, he ▸ hm]
      · simp only [remAt, List.map_cons, if_pos hm, regFind, if_neg he]
        exact ih
    · by_cases he : e.1 = k
      · simp [remAt, regFind, hm, he, he ▸ hm]
      · simp only [remAt, List.map_cons, if_neg hm, regFind, if_neg he]
        exact ih

/-! ### Facts about the collected merge list -/

theorem collect_mem {gb : List (List Nat)} {p : Nat} :
    ∀ (ps : List Pos) (acc : List Nat) (k : Nat),
      k ∈ collectLabels gb p ps acc →
      k ∈ acc ∨ ((∃ x ∈ ps, cell gb x.1 x.2 = k) ∧ k ≠ 0 ∧
        State.get_group_player k = p) := by
  intro ps
  induction ps with
  | nil =>
    intro acc k hk
    exact Or.inl hk
  | cons x ps ih =>
    intro acc k hk
    have hstep : collectLabels gb p (x :: ps) acc
        = collectLabels gb p ps (collectStep gb p acc x) := rfl
    rw [hstep] at hk
    rcases ih _ k hk with hacc | hnew
    · unfold collectStep at hacc
      split at hacc
      · next hcond =>
        split at hacc
        · exact Or.inl hacc
        · rcases List.mem_append.mp hacc with h1 | h1
          · exact Or.inl h1
          · have : k = cell gb x.1 x.2 := by simpa using h1
            subst this
            exact Or.inr ⟨⟨x, List.mem_cons_self _ _, rfl⟩, hcond.1, hcond.2⟩
      · exact Or.inl hacc
    · obtain ⟨⟨x', hx', hcx⟩, h0, hp⟩ := hnew
      exact Or.inr ⟨⟨x', List.mem_cons_of_mem _ hx', hcx⟩, h0, hp⟩

theorem collect_nodup {gb : List (List Nat)} {p : Nat} :
    ∀ (ps : List Pos) (acc : List Nat), acc.Nodup →
      (collectLabels gb p ps acc).Nodup := by
  intro ps
  induction ps with
  | nil =>
    intro acc h
    exact h
  | cons x ps ih =>
    intro acc h
    refine ih _ ?_
    unfold collectStep
    split
    · split
      · exact h
      · next hmem =>
        simp [List.nodup_append, h, hmem]
    · exact h

theorem collect_labels {gb : List (List Nat)} {p : Nat} {ps : List Pos} {k : Nat}
    (hk : k ∈ collectLabels gb p ps []) : k ∈ nbrLabels gb p ps := by
  rcases collect_mem ps [] k hk with h | h
  · simp at h
  · exact mem_nbrLabels.mpr h

/-- The counter and registry of a player, read through the invariant. -/
theorem stInv_regOk {s : State} (h : StInv s) {q : Nat} (hq : q = 1 ∨ q = 2) :
    RegOk s.group_board s.group_board s.size q (s.counterOf q) (s.groupsOf q) := by
  rcases hq with rfl | rfl
  · exact h.reg1
  · exact h.reg2

/-- After the neighbor pass of update_groups and the placement of the stone,
every registered group of either player whose id is not the new label is
again fully correct, measured on the updated board. -/
theorem remAt_entry_ok {s : State} (h : StInv s) {q : Nat} (hq : q = 1 ∨ q = 2)
    {r c : Nat} (hr : r < s.size) (hc : c < s.size)
    (hemp : cell s.group_board r c = 0)
    {v : Nat} (hv : v ≠ 0)
    {e' : Nat × Group}
    (he' : e' ∈ remAt r c (nbrLabels s.group_board q (nbrList s.size r c))
      (s.groupsOf q)) :
    e'.1 % 2 = q % 2 ∧ e'.1 ≠ 0 ∧ e'.1 < s.counterOf q ∧
    (e'.1 ≠ v → GroupOkOn (setCell s.group_board r c v) (setCell s.group_board r c v)
      s.size e'.1 e'.2) := by
  have hro := stInv_regOk h hq
  have hglen : s.group_board.length = s.size := h.glen
  obtain ⟨e0, he0, heq⟩ := mem_remAt he'
  obtain ⟨hpar, h0, hcnt, hok⟩ := hro.2 e0 he0
  obtain ⟨hels, hlib, hcn⟩ := hok
  by_cases hK : e0.1 ∈ nbrLabels s.group_board q (nbrList s.size r c)
  · rw [heq, if_pos hK]
    refine ⟨hpar, h0, hcnt, ?_⟩
    intro hnev
    refine ⟨?_, ?_, remove_liberty_cnt _ _ hcn⟩
    · rw [remove_liberty_elements, hels,
        cellsOf_setCell_ne0 hglen h.rlen hr hc hemp h0 (fun hcon => hnev hcon.symm)]
    · rw [remove_liberty_liberties, remove_liberty_elements, hlib,
        libSpecF_setCell _ hglen h.rlen hr hc hv]
  · rw [heq, if_neg hK]
    refine ⟨hpar, h0, hcnt, ?_⟩
    intro hnev
    have hnot : (r, c) ∉ libSpecF s.group_board s.size e0.2.elements.toFinset := by
      intro hrcmem
      obtain ⟨-, -, el, helE, hadj⟩ := mem_libSpecF.mp hrcmem
      have helb : el ∈ cellsOf s.group_board s.size e0.1 := hels ▸ helE
      obtain ⟨hel1, hel2, helc⟩ := mem_cellsOf.mp helb
      have helnbr : el ∈ nbrList s.size r c :=
        (mem_nbrList_iff_adj hr hc hel1 hel2).mpr hadj
      exact hK (mem_nbrLabels.mpr ⟨⟨el, helnbr, helc⟩, h0,
        (ggp_parity hq).mpr hpar⟩)
    refine ⟨?_, ?_, hcn⟩
    · rw [hels,
        cellsOf_setCell_ne0 hglen h.rlen hr hc hemp h0 (fun hcon => hnev hcon.symm)]
    · rw [hlib, libSpecF_setCell _ hglen h.rlen hr hc hv,
        Finset.erase_eq_self.mpr hnot]

/-! ### Record-update accessors and small registry facts -/

theorem groupsOf_gbup (s : State) (X : List (List Nat)) (q : Nat) :
    ({ s with group_board := X } : State).groupsOf q = s.groupsOf q := by
  unfold State.groupsOf
  split <;> rfl

theorem counterOf_gbup (s : State) (X : List (List Nat)) (q : Nat) :
    ({ s with group_board := X } : State).counterOf q = s.counterOf q := by
  unfold State.counterOf
  split <;> rfl

theorem regFind_append_first {l₁ : Registry} {k : Nat} {g : Group}
    (h : regFind l₁ k = some g) (l₂ : Registry) :
    regFind (l₁ ++ l₂) k = some g := by
  induction l₁ with
  | nil => simp [regFind] at h
  | cons e rest ih =>
    by_cases he : e.1 = k
    · simp only [regFind, if_pos he] at h
      simpa [regFind, if_pos he] using h
    · simp only [regFind, if_neg he] at h
      simpa [regFind, if_neg he] using ih h

theorem regSet_not_mem {reg : Registry} {k : Nat} (f : Group → Group)
    (h : k ∉ reg.map Prod.fst) : regSet reg k f = reg := by
  unfold regSet
  have hmap : reg.map (fun e => if e.1 = k then (e.1, f e.2) else e) = reg.map id := by
    refine List.map_congr_left (fun e he => ?_)
    rw [if_neg (fun hcon => h (List.mem_map.mpr ⟨e, he, hcon⟩))]
    rfl
  rw [hmap, List.map_id]

theorem regSet_append (A B : Registry) (k : Nat) (f : Group → Group) :
    regSet (A ++ B) k f = regSet A k f ++ regSet B k f := by
  unfold regSet
  rw [List.map_append]

/-! ### Relabeling the absorbed group's cells -/

theorem cell_relabel_congr0 {L : List Pos} {gb : List (List Nat)} {first : Nat}
    (hbnd : ∀ e ∈ L, e.1 < gb.length ∧ e.2 < (gb.getD e.1 []).length)
    (hfirst : first ≠ 0)
    (hLnz : ∀ x ∈ L, cell gb x.1 x.2 ≠ 0) :
    ∀ x : Pos, (cell (L.foldl (fun b e => setCell b e.1 e.2 first) gb) x.1 x.2 = 0
      ↔ cell gb x.1 x.2 = 0) := by
  intro x
  rw [cell_relabel _ _ _ _ _ hbnd]
  split
  · next hmem =>
    constructor
    · intro h0
      exact absurd h0 hfirst
    · intro h0
      exact absurd h0 (hLnz _ hmem)
  · exact Iff.rfl

theorem cellsOf_relabel {L : List Pos} {gb : List (List Nat)} {n k first : Nat}
    (hL : L.toFinset = cellsOf gb n k)
    (hbnd : ∀ e ∈ L, e.1 < gb.length ∧ e.2 < (gb.getD e.1 []).length)
    (hkf : k ≠ first) :
    ∀ j : Nat, j ≠ k →
      cellsOf (L.foldl (fun b e => setCell b e.1 e.2 first) gb) n j
        = if j = first then cellsOf gb n j ∪ cellsOf gb n k else cellsOf gb n j := by
  intro j hjk
  ext x
  rw [mem_cellsOf, cell_relabel _ _ _ _ _ hbnd]
  have hxL : x ∈ L ↔ (x.1 < n ∧ x.2 < n ∧ cell gb x.1 x.2 = k) := by
    rw [← mem_cellsOf, ← hL, List.mem_toFinset]
  by_cases hmem : x ∈ L
  · obtain ⟨hx1, hx2, hxk⟩ := hxL.mp hmem
    rw [if_pos hmem]
    split
    · next hjf =>
      subst hjf
      constructor
      · intro hconj
        exact Finset.mem_union_right _ (mem_cellsOf.mpr ⟨hx1, hx2, hxk⟩)
      · intro hmm
        exact ⟨hx1, hx2, rfl⟩
    · next hjf =>
      rw [mem_cellsOf]
      constructor
      · rintro ⟨-, -, hj⟩
        exact absurd hj.symm hjf
      · rintro ⟨-, -, hj⟩
        rw [hxk] at hj
        exact (hjk hj.symm).elim
  · rw [if_neg hmem]
    split
    · next hjf =>
      subst hjf
      rw [Finset.mem_union, mem_cellsOf, mem_cellsOf]
      constructor
      · intro hm
        exact Or.inl hm
      · rintro (hm | hm)
        · exact hm
        · exact absurd (hxL.mpr hm) hmem
    · exact mem_cellsOf.symm

/-- Assemble the state invariant from accessor-level facts. -/
theorem stInv_of_parts {s : State}
    (hpsz : s.player = 1 ∨ s.player = 2)
    (hglen : s.group_board.length = s.size)
    (hrlen : ∀ row ∈ s.group_board, row.length = s.size)
    (hc1 : s.counter1 % 2 = 1) (hc2 : s.counter2 % 2 = 0) (hc2p : s.counter2 ≠ 0)
    (hnd : ∀ q, q = 1 ∨ q = 2 → ((s.groupsOf q).map Prod.fst).Nodup)
    (hmem : ∀ q, q = 1 ∨ q = 2 → ∀ e ∈ s.groupsOf q,
      e.1 % 2 = q % 2 ∧ e.1 ≠ 0 ∧ e.1 < s.counterOf q ∧
      GroupOkOn s.group_board s.group_board s.size e.1 e.2)
    (hcover : ∀ r c : Nat, r < s.size → c < s.size → cell s.group_board r c ≠ 0 →
      ∃ g, regFind (s.groupsOf (State.get_group_player (cell s.group_board r c)))
        (cell s.group_board r c) = some g) :
    StInv s := by
  refine ⟨hpsz, hglen, hrlen, hc1, hc2, hc2p, ⟨hnd 1 (Or.inl rfl), ?_⟩,
    ⟨hnd 2 (Or.inr rfl), ?_⟩, hcover⟩
  · intro e he
    exact hmem 1 (Or.inl rfl) e he
  · intro e he
    exact hmem 2 (Or.inr rfl) e he

/-- StInv is preserved by one step of the merge loop of update_groups, and
the state's scalar fields, along with the other registered keys, survive. -/
theorem stInv_mergeOne {t : State} {p first k : Nat} (h : StInv t)
    (hp : p = 1 ∨ p = 2)
    (hfirst : first ∈ (t.groupsOf p).map Prod.fst)
    (hkf : k ≠ first) :
    StInv (State.mergeOne p first t k) ∧
    (State.mergeOne p first t k).size = t.size ∧
    (State.mergeOne p first t k).player = t.player ∧
    (State.mergeOne p first t k).draw = t.draw ∧
    (State.mergeOne p first t k).counter1 = t.counter1 ∧
    (State.mergeOne p first t k).counter2 = t.counter2 ∧
    (∀ j, j ∈ (t.groupsOf p).map Prod.fst → j ≠ k →
      j ∈ ((State.mergeOne p first t k).groupsOf p).map Prod.fst) := by
  cases hfd : regFind (t.groupsOf p) k with
  | none =>
    have hid : State.mergeOne p first t k = t := by
      unfold State.mergeOne
      rw [hfd]
    rw [hid]
    exact ⟨h, rfl, rfl, rfl, rfl, rfl, fun j hj _ => hj⟩
  | some gA =>
    have hroP := stInv_regOk h hp
    have hAmem : (k, gA) ∈ t.groupsOf p := regFind_mem hfd
    obtain ⟨hparA, hA0, hAcnt, hAels, hAlib, hAcn⟩ := hroP.2 _ hAmem
    obtain ⟨gF, hfindF⟩ := keys_mem_regFind hfirst
    have hFmem : (first, gF) ∈ t.groupsOf p := regFind_mem hfindF
    obtain ⟨hparF, hF0, hFcnt, hFels, hFlib, hFcn⟩ := hroP.2 _ hFmem
    have hglen : t.group_board.length = t.size := h.glen
    have hgrp1 : (t.setGroups p (regSet (t.groupsOf p) first
        (fun fg => fg.merge_groups gA))).groupsOf p
        = regSet (t.groupsOf p) first (fun fg => fg.merge_groups gA) := by
      rw [groupsOf_setGroups _ _ _ _ hp hp, if_pos rfl]
    have hstep : State.mergeOne p first t k
        = { (t.setGroups p (regSet (t.groupsOf p) first
              (fun fg => fg.merge_groups gA))).setGroups p
              (regPop (regSet (t.groupsOf p) first (fun fg => fg.merge_groups gA)) k) with
            group_board := gA.elements.foldl (fun gb e => setCell gb e.1 e.2 first)
              t.group_board } := by
      unfold State.mergeOne
      rw [hfd]
      simp only []
      rw [hgrp1, gb_setGroups, gb_setGroups]
    have hbnd : ∀ e ∈ gA.elements, e.1 < t.group_board.length ∧
        e.2 < (t.group_board.getD e.1 []).length := by
      intro e he
      have hb := elements_bounds hAels e he
      refine ⟨by omega, ?_⟩
      rw [rowlen_getD h.rlen (by omega)]
      exact hb.2
    have hLnz : ∀ x ∈ gA.elements, cell t.group_board x.1 x.2 ≠ 0 := by
      intro x hx
      have hm : x ∈ cellsOf t.group_board t.size k := hAels ▸ List.mem_toFinset.mpr hx
      rw [(mem_cellsOf.mp hm).2.2]
      exact hA0
    have hcongr0 := cell_relabel_congr0 hbnd hF0 hLnz
    have hlibeq : ∀ E : Finset Pos,
        libSpecF (gA.elements.foldl (fun b e => setCell b e.1 e.2 first) t.group_board)
          t.size E = libSpecF t.group_board t.size E := by
      intro E
      exact libSpecF_congr E (fun x h1 h2 => hcongr0 x)
    have hcells := cellsOf_relabel hAels hbnd hkf
    have hkeys2 : ((regPop (regSet (t.groupsOf p) first
        (fun fg => fg.merge_groups gA)) k).map Prod.fst).Nodup := by
      refine List.Nodup.sublist (keys_regPop_sublist _ _) ?_
      rw [keys_regSet]
      exact hroP.1
    have hMgb : (State.mergeOne p first t k).group_board
        = gA.elements.foldl (fun gb e => setCell gb e.1 e.2 first) t.group_board := by
      rw [hstep]
    have hMsz : (State.mergeOne p first t k).size = t.size := by
      rw [hstep]
      simp only [size_setGroups]
    have hMpl : (State.mergeOne p first t k).player = t.player := by
      rw [hstep]
      simp only [player_setGroups]
    have hMdr : (State.mergeOne p first t k).draw = t.draw := by
      rw [hstep]
      simp only [draw_setGroups]
    have hMc1 : (State.mergeOne p first t k).counter1 = t.counter1 := by
      rw [hstep]
      simp only [counter1_setGroups]
    have hMc2 : (State.mergeOne p first t k).counter2 = t.counter2 := by
      rw [hstep]
      simp only [counter2_setGroups]
    have hMcnt : ∀ q, (State.mergeOne p first t k).counterOf q = t.counterOf q := by
      intro q
      rw [hstep, counterOf_gbup, counterOf_setGroups, counterOf_setGroups]
    have hMgrp : ∀ q, q = 1 ∨ q = 2 → (State.mergeOne p first t k).groupsOf q
        = if q = p then regPop (regSet (t.groupsOf p) first
            (fun fg => fg.merge_groups gA)) k
          else t.groupsOf q := by
      intro q hq
      rw [hstep, groupsOf_gbup, groupsOf_setGroups _ _ _ _ hp hq]
      by_cases hqp : q = p
      · rw [if_pos hqp, if_pos hqp]
      · rw [if_neg hqp, if_neg hqp, groupsOf_setGroups _ _ _ _ hp hq, if_neg hqp]
    have hentry : ∀ q, q = 1 ∨ q = 2 → ∀ e ∈ (if q = p then
        regPop (regSet (t.groupsOf p) first (fun fg => fg.merge_groups gA)) k
        else t.groupsOf q),
        e.1 % 2 = q % 2 ∧ e.1 ≠ 0 ∧ e.1 < t.counterOf q ∧
        GroupOkOn (gA.elements.foldl (fun b e => setCell b e.1 e.2 first) t.group_board)
          (gA.elements.foldl (fun b e => setCell b e.1 e.2 first) t.group_board)
          t.size e.1 e.2 := by
      intro q hq e he
      by_cases hqp : q = p
      · rw [if_pos hqp] at he
        subst hqp
        obtain ⟨heR1, hek⟩ := mem_regPop.mp he
        obtain ⟨e0, he0, heq⟩ := mem_regSet heR1
        obtain ⟨hpar0, h00, hcnt0, hels0, hlib0, hcn0⟩ := hroP.2 _ he0
        by_cases hef : e0.1 = first
        · have he0v : e0 = (first, gF) := by
            obtain ⟨a, b⟩ := e0
            simp only at hef
            subst hef
            have hsome := regFind_eq_of_mem hroP.1 he0
            rw [hfindF] at hsome
            injection hsome with hval
            rw [← hval]
          rw [heq, if_pos hef, he0v]
          refine ⟨by simpa using hparF, hF0, hFcnt, ?_, ?_,
            merge_groups_cnt hFcn⟩
          · show (gF.elements ++ gA.elements).toFinset = _
            rw [List.toFinset_append, hFels, hAels, hcells first (Ne.symm hkf),
              if_pos rfl]
          · show gF.liberties ∪ gA.liberties = _
            rw [hFlib, hAlib, hlibeq]
            show _ = libSpecF _ _ (gF.elements ++ gA.elements).toFinset
            rw [List.toFinset_append, ← libSpecF_union]
        · rw [heq, if_neg hef]
          have hek0 : e0.1 ≠ k := by
            rw [heq, if_neg hef] at hek
            exact hek
          refine ⟨hpar0, h00, hcnt0, ?_, ?_, hcn0⟩
          · rw [hels0, hcells e0.1 hek0, if_neg hef]
          · rw [hlib0, hlibeq]
      · rw [if_neg hqp] at he
        obtain ⟨hpar0, h00, hcnt0, hels0, hlib0, hcn0⟩ := (stInv_regOk h hq).2 _ he
        have hepar : e.1 % 2 ≠ p % 2 := by
          rcases hp with rfl | rfl <;> rcases hq with rfl | rfl <;> omega
        have hef : e.1 ≠ first := by
          intro hcon
          rw [hcon] at hepar
          exact hepar hparF
        have hekk : e.1 ≠ k := by
          intro hcon
          rw [hcon] at hepar
          exact hepar hparA
        refine ⟨hpar0, h00, hcnt0, ?_, ?_, hcn0⟩
        · rw [hels0, hcells e.1 hekk, if_neg hef]
        · rw [hlib0, hlibeq]
    refine ⟨?_, hMsz, hMpl, hMdr, hMc1, hMc2, ?_⟩
    · refine stInv_of_parts ?_ ?_ ?_ ?_ ?_ ?_ ?_ ?_ ?_
      · rw [hMpl]
        exact h.psz
      · rw [hMgb, hMsz, length_relabel]
        exact hglen
      · rw [hMgb, hMsz]
        exact rlen_relabel _ _ _ _ h.rlen
      · rw [hMc1]
        exact h.c1odd
      · rw [hMc2]
        exact h.c2even
      · rw [hMc2]
        exact h.c2pos
      · intro q hq
        rw [hMgrp q hq]
        by_cases hqp : q = p
        · rw [if_pos hqp]
          exact hkeys2
        · rw [if_neg hqp]
          exact (stInv_regOk h hq).1
      · intro q hq e he
        rw [hMgrp q hq] at he
        rw [hMcnt q, hMgb, hMsz]
        exact hentry q hq e he
      · intro r' c' hr' hc' hne
        rw [hMsz] at hr' hc'
        rw [hMgb] at hne
        have hcell : cell (gA.elements.foldl (fun b e => setCell b e.1 e.2 first)
            t.group_board) r' c'
            = if (r', c') ∈ gA.elements then first else cell t.group_board r' c' :=
          cell_relabel _ _ _ _ _ hbnd
        by_cases hin : (r', c') ∈ gA.elements
        · have hlab : cell (gA.elements.foldl (fun b e => setCell b e.1 e.2 first)
              t.group_board) r' c' = first := by
            rw [hcell, if_pos hin]
          have hggp : State.get_group_player first = p := (ggp_parity hp).mpr hparF
          rw [hMgb, hlab, hggp, hMgrp p hp, if_pos rfl]
          refine ⟨gF.merge_groups gA, ?_⟩
          rw [regFind_regPop_ne _ _ _ (Ne.symm hkf), regFind_regSet, hfindF]
          simp
        · have hlab : cell (gA.elements.foldl (fun b e => setCell b e.1 e.2 first)
              t.group_board) r' c' = cell t.group_board r' c' := by
            rw [hcell, if_neg hin]
          rw [hlab] at hne
          have hjk2 : cell t.group_board r' c' ≠ k := by
            intro hcon
            exact hin (List.mem_toFinset.mp (hAels ▸ mem_cellsOf.mpr ⟨hr', hc', hcon⟩))
          obtain ⟨g0, hg0⟩ := h.cover r' c' hr' hc' hne
          have hgq := ggp_cases (cell t.group_board r' c')
          rw [hMgb, hlab, hMgrp _ hgq]
          by_cases hqp : State.get_group_player (cell t.group_board r' c') = p
          · rw [if_pos hqp]
            rw [hqp] at hg0
            refine ⟨if cell t.group_board r' c' = first then g0.merge_groups gA else g0, ?_⟩
            rw [regFind_regPop_ne _ _ _ hjk2, regFind_regSet, hg0]
            rfl
          · rw [if_neg hqp]
            exact ⟨g0, hg0⟩
    · intro j hj hjk3
      rw [hMgrp p hp, if_pos rfl]
      have hj1 : j ∈ (regSet (t.groupsOf p) first
          (fun fg => fg.merge_groups gA)).map Prod.fst := by
        rw [keys_regSet]
        exact hj
      exact (keys_regPop_mem hjk3).mpr hj1

theorem counter1_setCounter (s : State) (p k : Nat) :
    (s.setCounter p k).counter1 = if p = 1 then k else s.counter1 := by
  unfold State.setCounter
  by_cases hp1 : p = 1 <;> simp [hp1]

theorem counter2_setCounter (s : State) (p k : Nat) :
    (s.setCounter p k).counter2 = if p = 1 then s.counter2 else k := by
  unfold State.setCounter
  by_cases hp1 : p = 1 <;> simp [hp1]

theorem draw_setCounter (s : State) (p k : Nat) :
    (s.setCounter p k).draw = s.draw := by
  unfold State.setCounter
  split <;> rfl

/-- The whole merge loop of update_groups preserves the invariant. -/
theorem stInv_mergeFold {p first : Nat} (hp : p = 1 ∨ p = 2) :
    ∀ (W : List Nat) (t : State), StInv t →
      first ∈ (t.groupsOf p).map Prod.fst →
      (∀ j ∈ W, j ≠ first) →
      StInv (W.foldl (State.mergeOne p first) t) ∧
      (W.foldl (State.mergeOne p first) t).size = t.size ∧
      (W.foldl (State.mergeOne p first) t).player = t.player ∧
      (W.foldl (State.mergeOne p first) t).draw = t.draw := by
  intro W
  induction W with
  | nil =>
    intro t h hfst hW
    exact ⟨h, rfl, rfl, rfl⟩
  | cons k W ih =>
    intro t h hfst hW
    have hkf : k ≠ first := hW k (List.mem_cons_self _ _)
    obtain ⟨h1, h2, h3, h4, h5, h6, h7⟩ := stInv_mergeOne h hp hfst hkf
    have hfst' : first ∈ ((State.mergeOne p first t k).groupsOf p).map Prod.fst :=
      h7 first hfst (Ne.symm hkf)
    obtain ⟨g1, g2, g3, g4⟩ :=
      ih (State.mergeOne p first t k) h1 hfst' (fun j hj => hW j (List.mem_cons_of_mem _ hj))
    have hstep : (k :: W).foldl (State.mergeOne p first) t
        = W.foldl (State.mergeOne p first) (State.mergeOne p first t k) := rfl
    rw [hstep]
    exact ⟨g1, by rw [g2, h2], by rw [g3, h3], by rw [g4, h4]⟩

/-- The join-and-merge case of update_groups restores the invariant, given
the neighbor pass's characterization of the intermediate state. -/
theorem stInv_joinCase {s2 sA : State} {p r c first : Nat} {rest : List Nat}
    (h : StInv s2) (hp : p = 1 ∨ p = 2)
    (hr : r < s2.size) (hc : c < s2.size)
    (hemp : cell s2.group_board r c = 0)
    (hgb : sA.group_board = s2.group_board)
    (hsz : sA.size = s2.size)
    (hpl : sA.player = s2.player)
    (hdr : sA.draw = s2.draw)
    (hc1 : sA.counter1 = s2.counter1)
    (hc2 : sA.counter2 = s2.counter2)
    (hgrp : ∀ q, q = 1 ∨ q = 2 → sA.groupsOf q
        = remAt r c (nbrLabels s2.group_board q (nbrList s2.size r c)) (s2.groupsOf q))
    (hwl : ∀ j ∈ (first :: rest), j ∈ nbrLabels s2.group_board p (nbrList s2.size r c))
    (hnd : (first :: rest).Nodup) :
    StInv (sA.joinCase p r c first rest) ∧
    (sA.joinCase p r c first rest).size = s2.size ∧
    (sA.joinCase p r c first rest).player = s2.player ∧
    (sA.joinCase p r c first rest).draw = s2.draw := by
  have hjoin : sA.joinCase p r c first rest
      = rest.foldl (State.mergeOne p first)
          (({ sA with group_board := setCell sA.group_board r c first } : State).setGroups p
            (regSet (sA.groupsOf p) first
              (fun g => (g.add_element [(r, c)]).add_liberties r c
                (setCell sA.group_board r c first)))) := by
    unfold State.joinCase
    rfl
  have hAcnt : ∀ q, sA.counterOf q = s2.counterOf q := by
    intro q
    unfold State.counterOf
    split
    · exact hc1
    · exact hc2
  have hfK : first ∈ nbrLabels s2.group_board p (nbrList s2.size r c) :=
    hwl first (List.mem_cons_self _ _)
  obtain ⟨⟨x0, hx0nbr, hx0cell⟩, hf0, hfp⟩ := mem_nbrLabels.mp hfK
  have hx0b := nbrList_bounds hr hc hx0nbr
  have hx0ne : cell s2.group_board x0.1 x0.2 ≠ 0 := by
    rw [hx0cell]
    exact hf0
  obtain ⟨gF, hgF⟩ := h.cover x0.1 x0.2 hx0b.1 hx0b.2 hx0ne
  rw [hx0cell, hfp] at hgF
  have hFmem := regFind_mem hgF
  obtain ⟨hparF, hF0', hFcnt, hFels, hFlib, hFcn⟩ := (stInv_regOk h hp).2 _ hFmem
  have hndA : ((remAt r c (nbrLabels s2.group_board p (nbrList s2.size r c))
      (s2.groupsOf p)).map Prod.fst).Nodup := by
    rw [keys_remAt]
    exact (stInv_regOk h hp).1
  have hfindA : regFind (remAt r c (nbrLabels s2.group_board p (nbrList s2.size r c))
      (s2.groupsOf p)) first = some (gF.remove_liberty r c) := by
    rw [regFind_remAt, hgF]
    simp [hfK]
  have hCgb : (({ sA with group_board := setCell sA.group_board r c first } : State).setGroups p
      (regSet (sA.groupsOf p) first
        (fun g => (g.add_element [(r, c)]).add_liberties r c
          (setCell sA.group_board r c first)))).group_board
      = setCell s2.group_board r c first := by
    rw [gb_setGroups]
    show setCell sA.group_board r c first = setCell s2.group_board r c first
    rw [hgb]
  have hCsz : (({ sA with group_board := setCell sA.group_board r c first } : State).setGroups p
      (regSet (sA.groupsOf p) first
        (fun g => (g.add_element [(r, c)]).add_liberties r c
          (setCell sA.group_board r c first)))).size = s2.size := by
    rw [size_setGroups]
    exact hsz
  have hCpl : (({ sA with group_board := setCell sA.group_board r c first } : State).setGroups p
      (regSet (sA.groupsOf p) first
        (fun g => (g.add_element [(r, c)]).add_liberties r c
          (setCell sA.group_board r c first)))).player = s2.player := by
    rw [player_setGroups]
    exact hpl
  have hCdr : (({ sA with group_board := setCell sA.group_board r c first } : State).setGroups p
      (regSet (sA.groupsOf p) first
        (fun g => (g.add_element [(r, c)]).add_liberties r c
          (setCell sA.group_board r c first)))).draw = s2.draw := by
    rw [draw_setGroups]
    exact hdr
  have hCc1 : (({ sA with group_board := setCell sA.group_board r c first } : State).setGroups p
      (regSet (sA.groupsOf p) first
        (fun g => (g.add_element [(r, c)]).add_liberties r c
          (setCell sA.group_board r c first)))).counter1 = s2.counter1 := by
    rw [counter1_setGroups]
    exact hc1
  have hCc2 : (({ sA with group_board := setCell sA.group_board r c first } : State).setGroups p
      (regSet (sA.groupsOf p) first
        (fun g => (g.add_element [(r, c)]).add_liberties r c
          (setCell sA.group_board r c first)))).counter2 = s2.counter2 := by
    rw [counter2_setGroups]
    exact hc2
  have hCcnt : ∀ q, (({ sA with group_board := setCell sA.group_board r c first } : State).setGroups p
      (regSet (sA.groupsOf p) first
        (fun g => (g.add_element [(r, c)]).add_liberties r c
          (setCell sA.group_board r c first)))).counterOf q = s2.counterOf q := by
    intro q
    rw [counterOf_setGroups, counterOf_gbup, hAcnt]
  have hCgrp : ∀ q, q = 1 ∨ q = 2 →
      (({ sA with group_board := setCell sA.group_board r c first } : State).setGroups p
        (regSet (sA.groupsOf p) first
          (fun g => (g.add_element [(r, c)]).add_liberties r c
            (setCell sA.group_board r c first)))).groupsOf q
      = if q = p then
          regSet (remAt r c (nbrLabels s2.group_board p (nbrList s2.size r c))
            (s2.groupsOf p)) first
            (fun g => (g.add_element [(r, c)]).add_liberties r c
              (setCell s2.group_board r c first))
        else remAt r c (nbrLabels s2.group_board q (nbrList s2.size r c))
          (s2.groupsOf q) := by
    intro q hq
    rw [groupsOf_setGroups _ _ _ _ hp hq]
    by_cases hqp : q = p
    · rw [if_pos hqp, if_pos hqp, hgrp p hp, hgb]
    · rw [if_neg hqp, if_neg hqp, groupsOf_gbup, hgrp q hq]
  have hgb'len : (setCell s2.group_board r c first).length = s2.size := by
    rw [length_setCell]
    exact h.glen
  have hsC : StInv (({ sA with group_board := setCell sA.group_board r c first } : State).setGroups p
      (regSet (sA.groupsOf p) first
        (fun g => (g.add_element [(r, c)]).add_liberties r c
          (setCell sA.group_board r c first)))) := by
    refine stInv_of_parts ?_ ?_ ?_ ?_ ?_ ?_ ?_ ?_ ?_
    · rw [hCpl]
      exact h.psz
    · rw [hCgb, hCsz]
      exact hgb'len
    · rw [hCgb, hCsz]
      exact rlen_setCell _ _ _ _ _ h.rlen
    · rw [hCc1]
      exact h.c1odd
    · rw [hCc2]
      exact h.c2even
    · rw [hCc2]
      exact h.c2pos
    · intro q hq
      rw [hCgrp q hq]
      by_cases hqp : q = p
      · rw [if_pos hqp, keys_regSet, keys_remAt]
        exact hqp ▸ (stInv_regOk h hq).1
      · rw [if_neg hqp, keys_remAt]
        exact (stInv_regOk h hq).1
    · intro q hq e he
      rw [hCgrp q hq] at he
      rw [hCcnt q, hCgb, hCsz]
      by_cases hqp : q = p
      · rw [if_pos hqp] at he
        subst hqp
        obtain ⟨e1, he1, heq⟩ := mem_regSet he
        by_cases hef : e1.1 = first
        · have he1v : e1 = (first, gF.remove_liberty r c) := by
            obtain ⟨a, b⟩ := e1
            simp only at hef
            subst hef
            have hsome := regFind_eq_of_mem hndA he1
            rw [hfindA] at hsome
            injection hsome with hval
            rw [← hval]
          rw [heq, if_pos hef, he1v]
          refine ⟨hparF, hf0, hFcnt, ?_, ?_,
            add_liberties_cnt _ _ _ (add_element_cnt _ (remove_liberty_cnt _ _ hFcn))⟩
          · show (((gF.remove_liberty r c).add_element [(r, c)]).add_liberties r c
                (setCell s2.group_board r c first)).elements.toFinset = _
            rw [add_liberties_elements, add_element_elements, remove_liberty_elements,
              List.toFinset_append, hFels,
              cellsOf_setCell r c first first h.glen h.rlen hr hc, if_pos rfl]
            have hsing : ([((r : Nat), (c : Nat))] : List Pos).toFinset
                = ({(r, c)} : Finset Pos) := by
              simp
            rw [hsing, Finset.union_comm, ← Finset.insert_eq]
          · show (((gF.remove_liberty r c).add_element [(r, c)]).add_liberties r c
                (setCell s2.group_board r c first)).liberties = _
            rw [add_liberties_liberties, add_element_liberties, remove_liberty_liberties,
              hFlib, add_liberties_elements, add_element_elements, remove_liberty_elements,
              List.toFinset_append, libSpecF_union,
              libSpecF_setCell _ h.glen h.rlen hr hc hf0]
            have hsing : ([((r : Nat), (c : Nat))] : List Pos).toFinset
                = ({(r, c)} : Finset Pos) := by
              simp
            rw [hsing, libSpecF_singleton hgb'len hr hc]
        · rw [heq, if_neg hef]
          obtain ⟨hq1, hq2, hq3, hq4⟩ := remAt_entry_ok h hp hr hc hemp hf0 he1
          exact ⟨hq1, hq2, hq3, hq4 hef⟩
      · rw [if_neg hqp] at he
        obtain ⟨hq1, hq2, hq3, hq4⟩ := remAt_entry_ok h hq hr hc hemp hf0 he
        have hepar : e.1 % 2 ≠ p % 2 := by
          rcases hp with rfl | rfl <;> rcases hq with rfl | rfl <;> omega
        exact ⟨hq1, hq2, hq3, hq4 (fun hcon => hepar (by rw [hcon]; exact hparF))⟩
    · intro r' c' hr' hc' hne
      rw [hCsz] at hr' hc'
      rw [hCgb] at hne ⊢
      by_cases hrc : ((r' : Nat), (c' : Nat)) = ((r : Nat), (c : Nat))
      · injection hrc with hrc1 hrc2
        have hreq : r = r' := hrc1.symm
        have hceq : c = c' := hrc2.symm
        subst hreq
        subst hceq
        have hcellf : cell (setCell s2.group_board r c first) r c = first := by
          apply cell_setCell_self
          · rw [h.glen]
            exact hr
          · rw [rowlen_getD h.rlen (by rw [h.glen]; exact hr)]
            exact hc
        rw [hcellf, hfp, hCgrp p hp, if_pos rfl]
        refine ⟨((gF.remove_liberty r c).add_element [(r, c)]).add_liberties r c
            (setCell s2.group_board r c first), ?_⟩
        rw [regFind_regSet, hfindA]
        simp
      · have hcello : cell (setCell s2.group_board r c first) r' c'
            = cell s2.group_board r' c' :=
          cell_setCell_ne _ _ _ _ _ _ hrc
        rw [hcello] at hne ⊢
        obtain ⟨g0, hg0⟩ := h.cover r' c' hr' hc' hne
        have hgq := ggp_cases (cell s2.group_board r' c')
        rw [hCgrp _ hgq]
        by_cases hqp : State.get_group_player (cell s2.group_board r' c') = p
        · rw [if_pos hqp]
          rw [hqp] at hg0
          refine ⟨(fun g => if cell s2.group_board r' c' = first then
              (g.add_element [(r, c)]).add_liberties r c (setCell s2.group_board r c first)
            else g) ((fun g => if cell s2.group_board r' c'
                ∈ nbrLabels s2.group_board p (nbrList s2.size r c) then
              g.remove_liberty r c else g) g0), ?_⟩
          rw [regFind_regSet, regFind_remAt, hg0]
          rfl
        · rw [if_neg hqp]
          refine ⟨(fun g => if cell s2.group_board r' c' ∈ nbrLabels s2.group_board
              (State.get_group_player (cell s2.group_board r' c')) (nbrList s2.size r c) then
            g.remove_liberty r c else g) g0, ?_⟩
          rw [regFind_remAt, hg0]
          rfl
  have hCfirst : first ∈ ((({ sA with group_board := setCell sA.group_board r c first } : State).setGroups p
      (regSet (sA.groupsOf p) first
        (fun g => (g.add_element [(r, c)]).add_liberties r c
          (setCell sA.group_board r c first)))).groupsOf p).map Prod.fst := by
    rw [hCgrp p hp, if_pos rfl, keys_regSet, keys_remAt]
    exact List.mem_map.mpr ⟨(first, gF), hFmem, rfl⟩
  have hrestne : ∀ j ∈ rest, j ≠ first := by
    have hnd' := List.nodup_cons.mp hnd
    intro j hj hcon
    exact hnd'.1 (hcon ▸ hj)
  obtain ⟨g1, g2, g3, g4⟩ := stInv_mergeFold hp rest _ hsC hCfirst hrestne
  rw [hjoin]
  exact ⟨g1, by rw [g2, hCsz], by rw [g3, hCpl], by rw [g4, hCdr]⟩

/-- The lone-stone case of update_groups restores the invariant, given the
neighbor pass's characterization of the intermediate state. -/
theorem stInv_loneCase {s2 sA : State} {p r c : Nat}
    (h : StInv s2) (hp : p = 1 ∨ p = 2)
    (hr : r < s2.size) (hc : c < s2.size)
    (hemp : cell s2.group_board r c = 0)
    (hgb : sA.group_board = s2.group_board)
    (hsz : sA.size = s2.size)
    (hpl : sA.player = s2.player)
    (hdr : sA.draw = s2.draw)
    (hc1 : sA.counter1 = s2.counter1)
    (hc2 : sA.counter2 = s2.counter2)
    (hgrp : ∀ q, q = 1 ∨ q = 2 → sA.groupsOf q
        = remAt r c (nbrLabels s2.group_board q (nbrList s2.size r c)) (s2.groupsOf q)) :
    StInv (sA.loneCase p r c) ∧
    (sA.loneCase p r c).size = s2.size ∧
    (sA.loneCase p r c).player = s2.player ∧
    (sA.loneCase p r c).draw = s2.draw := by
  have hAcnt : ∀ q, sA.counterOf q = s2.counterOf q := by
    intro q
    unfold State.counterOf
    split
    · exact hc1
    · exact hc2
  have hkpar : s2.counterOf p % 2 = p % 2 := by
    rcases hp with rfl | rfl
    · show s2.counter1 % 2 = 1 % 2
      rw [h.c1odd]
    · show s2.counter2 % 2 = 2 % 2
      rw [h.c2even]
  have hk0 : s2.counterOf p ≠ 0 := by
    rcases hp with rfl | rfl
    · show s2.counter1 ≠ 0
      have := h.c1odd
      omega
    · exact h.c2pos
  have hkfresh : s2.counterOf p ∉ (s2.groupsOf p).map Prod.fst := by
    intro hmem
    rcases List.mem_map.mp hmem with ⟨e, he, hfst⟩
    have hlt := ((stInv_regOk h hp).2 e he).2.2.1
    omega
  have hkcells : cellsOf s2.group_board s2.size (s2.counterOf p) = ∅ := by
    ext x
    simp only [Finset.not_mem_empty, iff_false]
    rw [mem_cellsOf]
    rintro ⟨hx1, hx2, hxc⟩
    have hne0 : cell s2.group_board x.1 x.2 ≠ 0 := by
      rw [hxc]
      exact hk0
    obtain ⟨g0, hg0⟩ := h.cover x.1 x.2 hx1 hx2 hne0
    have hop : State.get_group_player (cell s2.group_board x.1 x.2) = p := by
      rw [hxc]
      exact (ggp_parity hp).mpr hkpar
    rw [hop, hxc] at hg0
    exact hkfresh (List.mem_map.mpr ⟨(s2.counterOf p, g0), regFind_mem hg0, rfl⟩)
  have hkfreshA : s2.counterOf p ∉ (remAt r c (nbrLabels s2.group_board p
      (nbrList s2.size r c)) (s2.groupsOf p)).map Prod.fst := by
    rw [keys_remAt]
    exact hkfresh
  have hlone : sA.loneCase p r c
      = (({ sA.setGroups p (sA.groupsOf p ++ [(sA.counterOf p, Group.init (r, c))]) with
            group_board := setCell (sA.setGroups p
              (sA.groupsOf p ++ [(sA.counterOf p, Group.init (r, c))])).group_board r c
              (sA.counterOf p) } : State).setCounter p (sA.counterOf p + 2)).setGroups p
          (regSet ((({ sA.setGroups p (sA.groupsOf p ++ [(sA.counterOf p, Group.init (r, c))]) with
            group_board := setCell (sA.setGroups p
              (sA.groupsOf p ++ [(sA.counterOf p, Group.init (r, c))])).group_board r c
              (sA.counterOf p) } : State).setCounter p (sA.counterOf p + 2)).groupsOf p)
            (cell (({ sA.setGroups p (sA.groupsOf p ++ [(sA.counterOf p, Group.init (r, c))]) with
            group_board := setCell (sA.setGroups p
              (sA.groupsOf p ++ [(sA.counterOf p, Group.init (r, c))])).group_board r c
              (sA.counterOf p) } : State).setCounter p (sA.counterOf p + 2)).group_board r c)
            (fun gr => gr.add_liberties r c
              (({ sA.setGroups p (sA.groupsOf p ++ [(sA.counterOf p, Group.init (r, c))]) with
            group_board := setCell (sA.setGroups p
              (sA.groupsOf p ++ [(sA.counterOf p, Group.init (r, c))])).group_board r c
              (sA.counterOf p) } : State).setCounter p (sA.counterOf p + 2)).group_board)) := by
    unfold State.loneCase
    rfl
  have hT3gb : (({ sA.setGroups p (sA.groupsOf p ++ [(sA.counterOf p, Group.init (r, c))]) with
      group_board := setCell (sA.setGroups p
        (sA.groupsOf p ++ [(sA.counterOf p, Group.init (r, c))])).group_board r c
        (sA.counterOf p) } : State).setCounter p (sA.counterOf p + 2)).group_board
      = setCell s2.group_board r c (s2.counterOf p) := by
    rw [gb_setCounter]
    show setCell (sA.setGroups p
      (sA.groupsOf p ++ [(sA.counterOf p, Group.init (r, c))])).group_board r c
      (sA.counterOf p) = _
    rw [gb_setGroups, hgb, hAcnt]
  have hT3cell : cell ((({ sA.setGroups p (sA.groupsOf p ++ [(sA.counterOf p, Group.init (r, c))]) with
      group_board := setCell (sA.setGroups p
        (sA.groupsOf p ++ [(sA.counterOf p, Group.init (r, c))])).group_board r c
        (sA.counterOf p) } : State).setCounter p (sA.counterOf p + 2)).group_board) r c
      = s2.counterOf p := by
    rw [hT3gb]
    apply cell_setCell_self
    · rw [h.glen]
      exact hr
    · rw [rowlen_getD h.rlen (by rw [h.glen]; exact hr)]
      exact hc
  have hT3grp : ∀ q, q = 1 ∨ q = 2 →
      (({ sA.setGroups p (sA.groupsOf p ++ [(sA.counterOf p, Group.init (r, c))]) with
        group_board := setCell (sA.setGroups p
          (sA.groupsOf p ++ [(sA.counterOf p, Group.init (r, c))])).group_board r c
          (sA.counterOf p) } : State).setCounter p (sA.counterOf p + 2)).groupsOf q
      = if q = p then remAt r c (nbrLabels s2.group_board p (nbrList s2.size r c))
            (s2.groupsOf p) ++ [(s2.counterOf p, Group.init (r, c))]
        else remAt r c (nbrLabels s2.group_board q (nbrList s2.size r c))
          (s2.groupsOf q) := by
    intro q hq
    rw [groupsOf_setCounter, groupsOf_gbup, groupsOf_setGroups _ _ _ _ hp hq]
    by_cases hqp : q = p
    · rw [if_pos hqp, if_pos hqp, hgrp p hp, hAcnt]
    · rw [if_neg hqp, if_neg hqp, hgrp q hq]
  have hT3cnt : ∀ q, q = 1 ∨ q = 2 →
      (({ sA.setGroups p (sA.groupsOf p ++ [(sA.counterOf p, Group.init (r, c))]) with
        group_board := setCell (sA.setGroups p
          (sA.groupsOf p ++ [(sA.counterOf p, Group.init (r, c))])).group_board r c
          (sA.counterOf p) } : State).setCounter p (sA.counterOf p + 2)).counterOf q
      = if q = p then s2.counterOf p + 2 else s2.counterOf q := by
    intro q hq
    rw [counterOf_setCounter _ _ _ _ hp hq]
    by_cases hqp : q = p
    · rw [if_pos hqp, if_pos hqp, hAcnt]
    · rw [if_neg hqp, if_neg hqp, counterOf_gbup, counterOf_setGroups, hAcnt]
  have hsingle : regSet [(s2.counterOf p, Group.init (r, c))] (s2.counterOf p)
      (fun gr => gr.add_liberties r c (setCell s2.group_board r c (s2.counterOf p)))
      = [(s2.counterOf p, (Group.init (r, c)).add_liberties r c
          (setCell s2.group_board r c (s2.counterOf p)))] := by
    simp [regSet]
  have hLgrp : ∀ q, q = 1 ∨ q = 2 → (sA.loneCase p r c).groupsOf q
      = if q = p then remAt r c (nbrLabels s2.group_board p (nbrList s2.size r c))
            (s2.groupsOf p)
            ++ [(s2.counterOf p, (Group.init (r, c)).add_liberties r c
              (setCell s2.group_board r c (s2.counterOf p)))]
        else remAt r c (nbrLabels s2.group_board q (nbrList s2.size r c))
          (s2.groupsOf q) := by
    intro q hq
    rw [hlone, groupsOf_setGroups _ _ _ _ hp hq]
    by_cases hqp : q = p
    · rw [if_pos hqp, if_pos hqp, hT3cell, hT3grp p hp, if_pos rfl, hT3gb,
        regSet_append, regSet_not_mem _ hkfreshA, hsingle]
    · rw [if_neg hqp, if_neg hqp, hT3grp q hq, if_neg hqp]
  have hLgb : (sA.loneCase p r c).group_board
      = setCell s2.group_board r c (s2.counterOf p) := by
    rw [hlone, gb_setGroups, hT3gb]
  have hLsz : (sA.loneCase p r c).size = s2.size := by
    rw [hlone, size_setGroups, size_setCounter]
    show (sA.setGroups p (sA.groupsOf p ++ [(sA.counterOf p, Group.init (r, c))])).size = _
    rw [size_setGroups]
    exact hsz
  have hLpl : (sA.loneCase p r c).player = s2.player := by
    rw [hlone, player_setGroups, player_setCounter]
    show (sA.setGroups p (sA.groupsOf p ++ [(sA.counterOf p, Group.init (r, c))])).player = _
    rw [player_setGroups]
    exact hpl
  have hLdr : (sA.loneCase p r c).draw = s2.draw := by
    rw [hlone, draw_setGroups, draw_setCounter]
    show (sA.setGroups p (sA.groupsOf p ++ [(sA.counterOf p, Group.init (r, c))])).draw = _
    rw [draw_setGroups]
    exact hdr
  have hLcnt : ∀ q, q = 1 ∨ q = 2 → (sA.loneCase p r c).counterOf q
      = if q = p then s2.counterOf p + 2 else s2.counterOf q := by
    intro q hq
    rw [hlone, counterOf_setGroups, hT3cnt q hq]
  have hLc1 : (sA.loneCase p r c).counter1
      = if p = 1 then s2.counter1 + 2 else s2.counter1 := by
    have h1 := hLcnt 1 (Or.inl rfl)
    by_cases hp1 : p = 1
    · subst hp1
      rw [if_pos rfl] at h1
      rw [if_pos rfl]
      exact h1
    · rw [if_neg (fun hcon => hp1 hcon.symm)] at h1
      rw [if_neg hp1]
      exact h1
  have hLc2 : (sA.loneCase p r c).counter2
      = if p = 2 then s2.counter2 + 2 else s2.counter2 := by
    have h1 := hLcnt 2 (Or.inr rfl)
    by_cases hp2 : p = 2
    · subst hp2
      rw [if_pos rfl] at h1
      rw [if_pos rfl]
      exact h1
    · rw [if_neg (fun hcon => hp2 hcon.symm)] at h1
      rw [if_neg hp2]
      exact h1
  have hgb'len : (setCell s2.group_board r c (s2.counterOf p)).length = s2.size := by
    rw [length_setCell]
    exact h.glen
  have hinitcnt : GroupCnt (Group.init (r, c)) := by
    simp [Group.init, GroupCnt]
  refine ⟨?_, hLsz, hLpl, hLdr⟩
  refine stInv_of_parts ?_ ?_ ?_ ?_ ?_ ?_ ?_ ?_ ?_
  · rw [hLpl]
    exact h.psz
  · rw [hLgb, hLsz]
    exact hgb'len
  · rw [hLgb, hLsz]
    exact rlen_setCell _ _ _ _ _ h.rlen
  · rw [hLc1]
    split
    · have := h.c1odd
      omega
    · exact h.c1odd
  · rw [hLc2]
    split
    · have := h.c2even
      omega
    · exact h.c2even
  · rw [hLc2]
    split
    · omega
    · exact h.c2pos
  · intro q hq
    rw [hLgrp q hq]
    by_cases hqp : q = p
    · rw [if_pos hqp, List.map_append, keys_remAt]
      refine List.Nodup.append ?_ ?_ ?_
      · exact hqp ▸ (stInv_regOk h hq).1
      · simp
      · intro a ha hb
        simp only [List.map_cons, List.map_nil, List.mem_singleton] at hb
        subst hb
        exact hkfresh (hqp ▸ ha)
    · rw [if_neg hqp, keys_remAt]
      exact (stInv_regOk h hq).1
  · intro q hq e he
    rw [hLgrp q hq] at he
    rw [hLcnt q hq, hLgb, hLsz]
    by_cases hqp : q = p
    · rw [if_pos hqp] at he
      rw [if_pos hqp]
      subst hqp
      rcases List.mem_append.mp he with he1 | he1
      · obtain ⟨hq1, hq2, hq3, hq4⟩ := remAt_entry_ok h hq hr hc hemp hk0 he1
        exact ⟨hq1, hq2, by omega, hq4 (by omega)⟩
      · have he2 : e = (s2.counterOf q, (Group.init (r, c)).add_liberties r c
            (setCell s2.group_board r c (s2.counterOf q))) := by
          simpa using he1
        rw [he2]
        refine ⟨hkpar, hk0, by omega, ?_, ?_, add_liberties_cnt _ _ _ hinitcnt⟩
        · show ((Group.init (r, c)).add_liberties r c
              (setCell s2.group_board r c (s2.counterOf q))).elements.toFinset = _
          rw [add_liberties_elements]
          show ([(r, c)] : List Pos).toFinset = _
          rw [cellsOf_setCell r c (s2.counterOf q) (s2.counterOf q) h.glen h.rlen hr hc,
            if_pos rfl, hkcells]
          simp
        · show ((Group.init (r, c)).add_liberties r c
              (setCell s2.group_board r c (s2.counterOf q))).liberties = _
          rw [add_liberties_liberties, add_liberties_elements]
          show (∅ : Finset Pos) ∪ _ = _
          rw [Finset.empty_union]
          show _ = libSpecF _ _ ([(r, c)] : List Pos).toFinset
          have hsing : ([((r : Nat), (c : Nat))] : List Pos).toFinset
              = ({(r, c)} : Finset Pos) := by
            simp
          rw [hsing, libSpecF_singleton hgb'len hr hc]
    · rw [if_neg hqp] at he
      rw [if_neg hqp]
      obtain ⟨hq1, hq2, hq3, hq4⟩ := remAt_entry_ok h hq hr hc hemp hk0 he
      have hepar : e.1 % 2 ≠ p % 2 := by
        rcases hp with rfl | rfl <;> rcases hq with rfl | rfl <;> omega
      exact ⟨hq1, hq2, hq3, hq4 (fun hcon => hepar (by rw [hcon]; exact hkpar))⟩
  · intro r' c' hr' hc' hne
    rw [hLsz] at hr' hc'
    rw [hLgb] at hne ⊢
    by_cases hrc : ((r' : Nat), (c' : Nat)) = ((r : Nat), (c : Nat))
    · injection hrc with hrc1 hrc2
      have hreq : r = r' := hrc1.symm
      have hceq : c = c' := hrc2.symm
      subst hreq
      subst hceq
      have hcellk : cell (setCell s2.group_board r c (s2.counterOf p)) r c
          = s2.counterOf p := by
        apply cell_setCell_self
        · rw [h.glen]
          exact hr
        · rw [rowlen_getD h.rlen (by rw [h.glen]; exact hr)]
          exact hc
      have hop : State.get_group_player (s2.counterOf p) = p := (ggp_parity hp).mpr hkpar
      rw [hcellk, hop, hLgrp p hp, if_pos rfl]
      refine ⟨(Group.init (r, c)).add_liberties r c
          (setCell s2.group_board r c (s2.counterOf p)), ?_⟩
      rw [regFind_append_of_none (regFind_eq_none.mpr hkfreshA)]
      simp [regFind]
    · have hcello : cell (setCell s2.group_board r c (s2.counterOf p)) r' c'
          = cell s2.group_board r' c' :=
        cell_setCell_ne _ _ _ _ _ _ hrc
      rw [hcello] at hne ⊢
      have hjk : cell s2.group_board r' c' ≠ s2.counterOf p := by
        intro hcon
        have : (r', c') ∈ cellsOf s2.group_board s2.size (s2.counterOf p) :=
          mem_cellsOf.mpr ⟨hr', hc', hcon⟩
        rw [hkcells] at this
        simp at this
      obtain ⟨g0, hg0⟩ := h.cover r' c' hr' hc' hne
      have hgq := ggp_cases (cell s2.group_board r' c')
      rw [hLgrp _ hgq]
      by_cases hqp : State.get_group_player (cell s2.group_board r' c') = p
      · rw [if_pos hqp]
        rw [hqp] at hg0
        have hfind1 : regFind (remAt r c (nbrLabels s2.group_board p
            (nbrList s2.size r c)) (s2.groupsOf p)) (cell s2.group_board r' c')
            = some ((fun g => if cell s2.group_board r' c'
                ∈ nbrLabels s2.group_board p (nbrList s2.size r c) then
              g.remove_liberty r c else g) g0) := by
          rw [regFind_remAt, hg0]
          rfl
        exact ⟨_, regFind_append_first hfind1 _⟩
      · rw [if_neg hqp]
        refine ⟨(fun g => if cell s2.group_board r' c' ∈ nbrLabels s2.group_board
            (State.get_group_player (cell s2.group_board r' c')) (nbrList s2.size r c) then
          g.remove_liberty r c else g) g0, ?_⟩
        rw [regFind_remAt, hg0]
        rfl

/-- Applying the current player's move on an empty in-bounds cell through
update_state preserves the invariant; the successor's player is flipped
and its draw flag is 0 (Python False), not the unknown value -1. -/
theorem stInv_update {s : State} (h : StInv s) {r c : Nat}
    (hr : r < s.size) (hc : c < s.size)
    (hemp : cell s.group_board r c = 0) :
    StInv (s.update_state (s.player, r, c)) ∧
    (s.update_state (s.player, r, c)).size = s.size ∧
    (s.update_state (s.player, r, c)).player = 3 - s.player ∧
    (s.update_state (s.player, r, c)).draw = 0 := by
  have hp : s.player = 1 ∨ s.player = 2 := h.psz
  have hs2 : StInv ({ s with player := 3 - s.player, draw := 0 } : State) := by
    obtain ⟨psz, glen, rlen, c1, c2, c2p, r1, r2, cov⟩ := h
    refine ⟨?_, glen, rlen, c1, c2, c2p, r1, r2, cov⟩
    show 3 - s.player = 1 ∨ 3 - s.player = 2
    omega
  have hupd : s.update_state (s.player, r, c)
      = (match (({ s with player := 3 - s.player, draw := 0 } : State).phaseA
            s.player r c).1 with
         | first :: rest =>
           (({ s with player := 3 - s.player, draw := 0 } : State).phaseA
             s.player r c).2.joinCase s.player r c first rest
         | [] =>
           (({ s with player := 3 - s.player, draw := 0 } : State).phaseA
             s.player r c).2.loneCase s.player r c) := by
    unfold State.update_state State.update_groups
    rfl
  have hPA := phaseA_eq ({ s with player := 3 - s.player, draw := 0 } : State) s.player r c
  obtain ⟨hgbA, hszA, hplA, hdrA, hc1A, hc2A, hgrpA, hwlA⟩ :=
    probeFold_spec (r, c) s.player
      (nbrList ({ s with player := 3 - s.player, draw := 0 } : State).size r c)
      ({ s with player := 3 - s.player, draw := 0 } : State) []
  rw [← hPA] at hgbA hszA hplA hdrA hc1A hc2A hgrpA hwlA
  rcases hwls : ((({ s with player := 3 - s.player, draw := 0 } : State)).phaseA
      s.player r c).1 with _ | ⟨first, rest⟩
  · obtain ⟨l1, l2, l3, l4⟩ := stInv_loneCase hs2 hp hr hc hemp
      hgbA hszA hplA hdrA hc1A hc2A hgrpA
    rw [hupd, hwls]
    exact ⟨l1, l2, l3, l4⟩
  · have hcoll : collectLabels ({ s with player := 3 - s.player, draw := 0 } : State).group_board
        s.player (nbrList ({ s with player := 3 - s.player, draw := 0 } : State).size r c) []
        = first :: rest := by
      rw [← hwlA, hwls]
    have hwlarg : ∀ j ∈ (first :: rest),
        j ∈ nbrLabels ({ s with player := 3 - s.player, draw := 0 } : State).group_board
          s.player (nbrList ({ s with player := 3 - s.player, draw := 0 } : State).size r c) := by
      intro j hj
      apply collect_labels
      rw [hcoll]
      exact hj
    have hnd : (first :: rest).Nodup := by
      rw [← hcoll]
      exact collect_nodup _ [] List.nodup_nil
    obtain ⟨j1, j2, j3, j4⟩ := stInv_joinCase hs2 hp hr hc hemp
      hgbA hszA hplA hdrA hc1A hc2A hgrpA hwlarg hnd
    rw [hupd, hwls]
    exact ⟨j1, j2, j3, j4⟩

/-- Every reachable state satisfies the full invariant. -/
theorem reachable_stInv {s : State} (h : Reachable s) : StInv s := by
  induction h with
  | init player size board hpl hv hsz => exact stInv_init hpl hv hsz
  | step s r c hre hr hc hemp ih => exact (stInv_update ih hr hc hemp).1

/-! ### Unconditional frame facts about the update and evaluation layer -/

theorem mergeOne_player (p first : Nat) (t : State) (k : Nat) :
    (State.mergeOne p first t k).player = t.player := by
  unfold State.mergeOne
  split
  · simp only [player_setGroups]
  · rfl

theorem mergeOne_draw (p first : Nat) (t : State) (k : Nat) :
    (State.mergeOne p first t k).draw = t.draw := by
  unfold State.mergeOne
  split
  · simp only [draw_setGroups]
  · rfl

theorem mergeFold_player (p first : Nat) :
    ∀ (W : List Nat) (t : State), (W.foldl (State.mergeOne p first) t).player = t.player := by
  intro W
  induction W with
  | nil =>
    intro t
    rfl
  | cons k W ih =>
    intro t
    show (W.foldl (State.mergeOne p first) (State.mergeOne p first t k)).player = t.player
    rw [ih, mergeOne_player]

theorem mergeFold_draw (p first : Nat) :
    ∀ (W : List Nat) (t : State), (W.foldl (State.mergeOne p first) t).draw = t.draw := by
  intro W
  induction W with
  | nil =>
    intro t
    rfl
  | cons k W ih =>
    intro t
    show (W.foldl (State.mergeOne p first) (State.mergeOne p first t k)).draw = t.draw
    rw [ih, mergeOne_draw]

/-- State.joinCase written without the source's let chain. -/
theorem joinCase_eq (s : State) (p r c first : Nat) (rest : List Nat) :
    s.joinCase p r c first rest
      = rest.foldl (State.mergeOne p first)
          (({ s with group_board := setCell s.group_board r c first } : State).setGroups p
            (regSet (s.groupsOf p) first
              (fun g => (g.add_element [(r, c)]).add_liberties r c
                (setCell s.group_board r c first)))) := by
  unfold State.joinCase
  rfl

theorem joinCase_player (s : State) (p r c first : Nat) (rest : List Nat) :
    (s.joinCase p r c first rest).player = s.player := by
  rw [joinCase_eq, mergeFold_player, player_setGroups]

theorem joinCase_draw (s : State) (p r c first : Nat) (rest : List Nat) :
    (s.joinCase p r c first rest).draw = s.draw := by
  rw [joinCase_eq, mergeFold_draw, draw_setGroups]

theorem loneCase_player (s : State) (p r c : Nat) :
    (s.loneCase p r c).player = s.player := by
  unfold State.loneCase
  simp only [player_setGroups, player_setCounter]

theorem loneCase_draw (s : State) (p r c : Nat) :
    (s.loneCase p r c).draw = s.draw := by
  unfold State.loneCase
  simp only [draw_setGroups, draw_setCounter]

theorem phaseA_player (s : State) (p r c : Nat) : ((s.phaseA p r c).2).player = s.player := by
  rw [phaseA_eq]
  exact (probeFold_spec (r, c) p (nbrList s.size r c) s []).2.2.1

theorem phaseA_draw (s : State) (p r c : Nat) : ((s.phaseA p r c).2).draw = s.draw := by
  rw [phaseA_eq]
  exact (probeFold_spec (r, c) p (nbrList s.size r c) s []).2.2.2.1

theorem update_groups_player (s : State) (move : Nat × Nat × Nat) :
    (s.update_groups move).player = s.player := by
  show (match (s.phaseA move.1 move.2.1 move.2.2).1 with
        | first :: rest =>
          (s.phaseA move.1 move.2.1 move.2.2).2.joinCase move.1 move.2.1 move.2.2 first rest
        | [] =>
          (s.phaseA move.1 move.2.1 move.2.2).2.loneCase move.1 move.2.1 move.2.2).player
      = s.player
  cases hwl : (s.phaseA move.1 move.2.1 move.2.2).1 with
  | nil =>
    show ((s.phaseA move.1 move.2.1 move.2.2).2.loneCase move.1 move.2.1 move.2.2).player
      = s.player
    rw [loneCase_player, phaseA_player]
  | cons first rest =>
    show ((s.phaseA move.1 move.2.1 move.2.2).2.joinCase move.1 move.2.1 move.2.2
      first rest).player = s.player
    rw [joinCase_player, phaseA_player]

theorem update_groups_draw (s : State) (move : Nat × Nat × Nat) :
    (s.update_groups move).draw = s.draw := by
  show (match (s.phaseA move.1 move.2.1 move.2.2).1 with
        | first :: rest =>
          (s.phaseA move.1 move.2.1 move.2.2).2.joinCase move.1 move.2.1 move.2.2 first rest
        | [] =>
          (s.phaseA move.1 move.2.1 move.2.2).2.loneCase move.1 move.2.1 move.2.2).draw
      = s.draw
  cases hwl : (s.phaseA move.1 move.2.1 move.2.2).1 with
  | nil =>
    show ((s.phaseA move.1 move.2.1 move.2.2).2.loneCase move.1 move.2.1 move.2.2).draw
      = s.draw
    rw [loneCase_draw, phaseA_draw]
  | cons first rest =>
    show ((s.phaseA move.1 move.2.1 move.2.2).2.joinCase move.1 move.2.1 move.2.2
      first rest).draw = s.draw
    rw [joinCase_draw, phaseA_draw]

theorem update_state_player (s : State) (a : Nat × Nat × Nat) :
    (s.update_state a).player = 3 - s.player := by
  show (({ s with player := 3 - s.player, draw := 0 } : State).update_groups a).player = _
  rw [update_groups_player]

theorem update_state_draw (s : State) (a : Nat × Nat × Nat) :
    (s.update_state a).draw = 0 := by
  show (({ s with player := 3 - s.player, draw := 0 } : State).update_groups a).draw = _
  rw [update_groups_draw]

theorem result_player (s : State) (a : Nat × Nat × Nat) :
    (Game.result s a).player = 3 - s.player := by
  unfold Game.result
  rw [update_state_player]
  rfl

theorem result_draw (s : State) (a : Nat × Nat × Nat) :
    (Game.result s a).draw = 0 := by
  unfold Game.result
  rw [update_state_draw]

theorem terminal_test_groupsOf (s : State) (q : Nat) :
    (Game.terminal_test s).2.groupsOf q = s.groupsOf q := by
  simp only [Game.terminal_test]
  split_ifs <;> rfl

theorem terminal_test_player (s : State) :
    (Game.terminal_test s).2.player = s.player := by
  simp only [Game.terminal_test]
  split_ifs <;> rfl

theorem utility_state_eq {s : State} (h : s.draw ≠ -1) (p : Nat) :
    (Game.utility s p).2 = s := by
  simp only [Game.utility, if_neg h]
  split_ifs <;> rfl

/-! ### The minimum-liberty fold of Game.utility -/

theorem minFold_le_init : ∀ (reg : Registry) (m : Int),
    reg.foldl (fun m e => if e.2.n_liberties < m then e.2.n_liberties else m) m ≤ m := by
  intro reg
  induction reg with
  | nil =>
    intro m
    exact le_refl m
  | cons e rest ih =>
    intro m
    rw [List.foldl_cons]
    refine le_trans (ih _) ?_
    show (if e.2.n_liberties < m then e.2.n_liberties else m) ≤ m
    split <;> omega

theorem minFold_le_mem : ∀ (reg : Registry) (m : Int) (e : Nat × Group), e ∈ reg →
    reg.foldl (fun m e => if e.2.n_liberties < m then e.2.n_liberties else m) m
      ≤ e.2.n_liberties := by
  intro reg
  induction reg with
  | nil =>
    intro m e he
    simp at he
  | cons e' rest ih =>
    intro m e he
    rw [List.foldl_cons]
    rcases List.mem_cons.mp he with rfl | hmem
    · refine le_trans (minFold_le_init _ _) ?_
      show (if e.2.n_liberties < m then e.2.n_liberties else m) ≤ e.2.n_liberties
      split <;> omega
    · exact ih _ e hmem

theorem minFold_nonneg : ∀ (reg : Registry) (m : Int), 0 ≤ m →
    (∀ e ∈ reg, 0 ≤ e.2.n_liberties) →
    0 ≤ reg.foldl (fun m e => if e.2.n_liberties < m then e.2.n_liberties else m) m := by
  intro reg
  induction reg with
  | nil =>
    intro m hm _
    exact hm
  | cons e rest ih =>
    intro m hm hall
    rw [List.foldl_cons]
    refine ih _ ?_ (fun e' he' => hall e' (List.mem_cons_of_mem _ he'))
    have := hall e (List.mem_cons_self _ _)
    show 0 ≤ (if e.2.n_liberties < m then e.2.n_liberties else m)
    split <;> omega

theorem minFold_cases : ∀ (reg : Registry) (m : Int),
    reg.foldl (fun m e => if e.2.n_liberties < m then e.2.n_liberties else m) m = m ∨
    ∃ e ∈ reg, reg.foldl (fun m e => if e.2.n_liberties < m then e.2.n_liberties else m) m
      = e.2.n_liberties := by
  intro reg
  induction reg with
  | nil =>
    intro m
    exact Or.inl rfl
  | cons e rest ih =>
    intro m
    have hstep : (e :: rest).foldl
          (fun m e => if e.2.n_liberties < m then e.2.n_liberties else m) m
        = rest.foldl (fun m e => if e.2.n_liberties < m then e.2.n_liberties else m)
            (if e.2.n_liberties < m then e.2.n_liberties else m) := rfl
    rcases ih (if e.2.n_liberties < m then e.2.n_liberties else m) with h1 | ⟨e', he', h2⟩
    · by_cases hlt : e.2.n_liberties < m
      · exact Or.inr ⟨e, List.mem_cons_self _ _, by rw [hstep, h1, if_pos hlt]⟩
      · exact Or.inl (by rw [hstep, h1, if_neg hlt])
    · exact Or.inr ⟨e', List.mem_cons_of_mem _ he', by rw [hstep, h2]⟩

theorem minLib_zero {reg : Registry} (hn : ∀ e ∈ reg, 0 ≤ e.2.n_liberties)
    (hex : ∃ e ∈ reg, e.2.n_liberties = 0) : Game.minLib reg = 0 := by
  obtain ⟨e, he, h0⟩ := hex
  have h1 : Game.minLib reg ≤ 0 := by
    have := minFold_le_mem reg infinitySentinel e he
    rw [h0] at this
    exact this
  have h2 : 0 ≤ Game.minLib reg := minFold_nonneg reg infinitySentinel (by decide) hn
  omega

theorem minLib_pos {reg : Registry} (hn : ∀ e ∈ reg, 0 ≤ e.2.n_liberties)
    (h0 : Game.minLib reg ≠ 0) : 1 ≤ Game.minLib reg := by
  rcases minFold_cases reg infinitySentinel with h1 | ⟨e, he, h2⟩
  · unfold Game.minLib at h0 ⊢
    rw [h1]
    decide
  · unfold Game.minLib at h0 ⊢
    rw [h2] at h0 ⊢
    have := hn e he
    omega

theorem stInv_groupsOf_nonneg {s : State} (h : StInv s) (p : Nat) :
    ∀ e ∈ s.groupsOf p, 0 ≤ e.2.n_liberties := by
  intro e he
  unfold State.groupsOf at he
  split at he
  · obtain ⟨-, -, -, -, -, hcn⟩ := h.reg1.2 e he
    rw [hcn]
    exact Int.natCast_nonneg _
  · obtain ⟨-, -, -, -, -, hcn⟩ := h.reg2.2 e he
    rw [hcn]
    exact Int.natCast_nonneg _

/-! ### Draw-independence of the terminal scan inputs -/

theorem hasZeroGroup_draw (s : State) (d : Int) :
    Game.hasZeroGroup { s with draw := d } = Game.hasZeroGroup s := rfl

theorem actions_draw (s : State) (d : Int) :
    Game.actions { s with draw := d } = Game.actions s := rfl

theorem groupsOf_draw (s : State) (d : Int) (q : Nat) :
    ({ s with draw := d } : State).groupsOf q = s.groupsOf q := rfl

/-- Game.utility written without its let chain, for an arbitrary name of the
state left by the cache check. -/
theorem utility_eq (s : State) (p : Nat) (s1 : State)
    (hs1 : s1 = if s.draw = -1 then (Game.terminal_test s).2 else s) :
    Game.utility s p
      = (if s1.draw = 1 then ((0 : Rat), s1)
         else if Game.minLib (s1.groupsOf (3 - p)) = 0 ∧ Game.minLib (s1.groupsOf p) = 0 then
           ((if s1.player ≠ p then 1 else -1 : Rat), s1)
         else if Game.minLib (s1.groupsOf (3 - p)) = 0 then (1, s1)
         else if Game.minLib (s1.groupsOf p) = 0 then (-1, s1)
         else (((Game.minLib (s1.groupsOf p) - Game.minLib (s1.groupsOf (3 - p)) : Int) : Rat)
               / ((Game.minLib (s1.groupsOf p) + Game.minLib (s1.groupsOf (3 - p)) : Int) : Rat),
               s1)) := by
  subst hs1
  rfl

/-! ### The claims -/

/-- C1: in every reachable state, for each player q and every entry of q's
group registry, the cached liberty count equals the cardinality of the
stored liberty set, and that set is exactly the set of empty cells
orthogonally adjacent to at least one of the group's elements; in
particular it never contains an occupied cell. -/
theorem C1_liberty_invariant {s : State} (h : Reachable s) :
    ∀ q, q = 1 ∨ q = 2 → ∀ e ∈ s.groupsOf q,
      e.2.n_liberties = (e.2.liberties.card : Int) ∧
      e.2.liberties = libSpecF s.group_board s.size e.2.elements.toFinset ∧
      ∀ x ∈ e.2.liberties, cell s.group_board x.1 x.2 = 0 := by
  intro q hq e he
  have hInv := reachable_stInv h
  obtain ⟨-, -, -, hels, hlib, hcn⟩ := (stInv_regOk hInv hq).2 e he
  refine ⟨hcn, hlib, ?_⟩
  intro x hx
  rw [hlib] at hx
  exact (mem_libSpecF.mp hx).2.1

theorem C1_liberty_invariant_witness :
    Reachable (stateFromBoard 1 2 [[1, 0], [0, 0]]) ∧
    ∀ q, q = 1 ∨ q = 2 → ∀ e ∈ (stateFromBoard 1 2 [[1, 0], [0, 0]]).groupsOf q,
      e.2.n_liberties = (e.2.liberties.card : Int) ∧
      e.2.liberties = libSpecF (stateFromBoard 1 2 [[1, 0], [0, 0]]).group_board
        (stateFromBoard 1 2 [[1, 0], [0, 0]]).size e.2.elements.toFinset ∧
      ∀ x ∈ e.2.liberties,
        cell (stateFromBoard 1 2 [[1, 0], [0, 0]]).group_board x.1 x.2 = 0 :=
  have hre : Reachable (stateFromBoard 1 2 [[1, 0], [0, 0]]) :=
    Reachable.init 1 2 [[1, 0], [0, 0]] (Or.inl rfl) (by unfold validBoard; decide) rfl
  ⟨hre, C1_liberty_invariant hre⟩

/-- C2: terminal_test reports true exactly when some group of either player
has a zero liberty count or the action list is empty, and it flags a draw
(draw = 1) exactly in the empty-actions case with no zero-liberty group; a
state with a zero-liberty group is never flagged as a draw. -/
theorem C2_terminal_test_iff (s : State) :
    ((Game.terminal_test s).1 = true ↔
      Game.hasZeroGroup s = true ∨ (Game.actions s).isEmpty = true) ∧
    ((Game.terminal_test s).2.draw = 1 ↔
      Game.hasZeroGroup s = false ∧ (Game.actions s).isEmpty = true) := by
  simp only [Game.terminal_test, hasZeroGroup_draw, actions_draw]
  by_cases hz : Game.hasZeroGroup s = true
  · simp [hz]
  · by_cases ha : (Game.actions s).isEmpty = true
    · simp [hz, ha]
    · simp [hz, ha]

/-- C4: contrary to the spec and to the docstring convention (-1 meaning
terminal_test has not run yet), result advances the player but leaves the
successor's draw cache at 0 — the value update_state assigns — so a
subsequent utility call takes the cache as authoritative and does not
re-run terminal_test: it returns the successor state unchanged. -/
theorem C4_draw_not_reset (s : State) (a : Nat × Nat × Nat) (p : Nat) :
    (Game.result s a).player = 3 - s.player ∧
    (Game.result s a).draw = 0 ∧
    (Game.result s a).draw ≠ -1 ∧
    (Game.utility (Game.result s a) p).2 = Game.result s a := by
  refine ⟨result_player s a, result_draw s a, ?_, ?_⟩
  · rw [result_draw]
    decide
  · exact utility_state_eq (by rw [result_draw]; decide) p

/-- C3 (corrected): actions does offer fully isolated empty cells.  Any
empty in-bounds cell of a board of size at least 2 all of whose in-bounds
orthogonal neighbors are empty is emitted as a move for the current player,
because not_suicide answers true on an empty neighbor. -/
theorem C3_isolated_cells_offered {s : State} {r c : Nat}
    (hr : r < s.size) (hc : c < s.size) (hsz2 : 2 ≤ s.size)
    (hemp : cell s.group_board r c = 0)
    (hnbr : ∀ x ∈ nbrList s.size r c, cell s.group_board x.1 x.2 = 0) :
    (s.player, r + 1, c + 1) ∈ Game.actions s := by
  have hns : ∀ r' c', cell s.group_board r' c' = 0 → Game.not_suicide s r' c' = true := by
    intro r' c' h0
    unfold Game.not_suicide
    simp [h0]
  unfold Game.actions
  rw [List.mem_filterMap]
  refine ⟨(r, c), ?_, ?_⟩
  · rw [List.mem_flatMap]
    exact ⟨r, List.mem_range.mpr hr, List.mem_map.mpr ⟨c, List.mem_range.mpr hc, rfl⟩⟩
  · show (if cell s.group_board r c = 0 then
          if 1 ≤ r ∧ Game.not_suicide s (r - 1) c = true then some (s.player, r + 1, c + 1)
          else if r + 1 < s.size ∧ Game.not_suicide s (r + 1) c = true then
            some (s.player, r + 1, c + 1)
          else if 1 ≤ c ∧ Game.not_suicide s r (c - 1) = true then
            some (s.player, r + 1, c + 1)
          else if c + 1 < s.size ∧ Game.not_suicide s r (c + 1) = true then
            some (s.player, r + 1, c + 1)
          else none
        else none)
        = some (s.player, r + 1, c + 1)
    rw [if_pos hemp]
    by_cases hr1 : 1 ≤ r
    · have hup : cell s.group_board (r - 1) c = 0 :=
        hnbr _ (mem_nbrList.mpr (Or.inl ⟨hr1, rfl⟩))
      rw [if_pos ⟨hr1, hns _ _ hup⟩]
    · have hdn : cell s.group_board (r + 1) c = 0 :=
        hnbr _ (mem_nbrList.mpr (Or.inr (Or.inl ⟨by omega, rfl⟩)))
      rw [if_neg (fun hcon => hr1 hcon.1), if_pos ⟨by omega, hns _ _ hdn⟩]

theorem C3_isolated_cells_offered_witness :
    ((stateFromBoard 1 2 [[0, 0], [0, 0]]).player, 0 + 1, 0 + 1)
      ∈ Game.actions (stateFromBoard 1 2 [[0, 0], [0, 0]]) :=
  @C3_isolated_cells_offered (stateFromBoard 1 2 [[0, 0], [0, 0]]) 0 0
    (by decide) (by decide) (by decide) (by decide) (by decide)

/-- On the fully empty 2-by-2 board, every in-bounds neighbor of cell (0,0)
is empty — the cell is fully isolated — and yet the 1-indexed move (1,1) on
it is offered to player 1, contradicting the claim. -/
theorem C3_counterexample :
    (∀ x ∈ nbrList (stateFromBoard 1 2 [[0, 0], [0, 0]]).size 0 0,
        cell (stateFromBoard 1 2 [[0, 0], [0, 0]]).group_board x.1 x.2 = 0) ∧
    cell (stateFromBoard 1 2 [[0, 0], [0, 0]]).group_board 0 0 = 0 ∧
    (1, 1, 1) ∈ Game.actions (stateFromBoard 1 2 [[0, 0], [0, 0]]) := by
  decide

/-- C8 (corrected): on the actions that stay on the board, result raises no
InvalidMove and performs no validation: any 1-indexed in-bounds action —
even one naming an occupied cell or carrying a player component other than
the current mover — is applied to the clone unconditionally, the player
advanced and the draw cache set to 0.  (Out-of-bounds coordinates are
outside this embedding's scope: there the source raises an uncaught
IndexError above the board, or wraps coordinate 0 to the far edge through
Python negative indexing — still no InvalidMove condition.) -/
theorem C8_no_validation (s : State) (a : Nat × Nat × Nat)
    (h1 : 1 ≤ a.2.1) (h2 : a.2.1 ≤ s.size) (h3 : 1 ≤ a.2.2) (h4 : a.2.2 ≤ s.size) :
    (Game.result s a).player = 3 - s.player ∧ (Game.result s a).draw = 0 :=
  ⟨result_player s a, result_draw s a⟩

theorem C8_no_validation_witness :
    (Game.result (stateFromBoard 1 2 [[1, 0], [0, 0]]) (1, 1, 1)).player
        = 3 - (stateFromBoard 1 2 [[1, 0], [0, 0]]).player ∧
    (Game.result (stateFromBoard 1 2 [[1, 0], [0, 0]]) (1, 1, 1)).draw = 0 :=
  C8_no_validation (stateFromBoard 1 2 [[1, 0], [0, 0]]) (1, 1, 1)
    (by decide) (by decide) (by decide) (by decide)

/-- Playing on the already occupied cell (1,1) of a 2-by-2 board raises
nothing: the move is applied, and afterwards the cell (0,0) belongs to the
element lists of two distinct live groups of player 1 — the registry is
silently corrupted instead of the call failing. -/
theorem C8_counterexample :
    cell (stateFromBoard 1 2 [[1, 0], [0, 0]]).group_board 0 0 ≠ 0 ∧
    (Game.result (stateFromBoard 1 2 [[1, 0], [0, 0]]) (1, 1, 1)).player = 2 ∧
    (0, 0) ∈ (regFindD
      (Game.result (stateFromBoard 1 2 [[1, 0], [0, 0]]) (1, 1, 1)).groups1 1).elements ∧
    (0, 0) ∈ (regFindD
      (Game.result (stateFromBoard 1 2 [[1, 0], [0, 0]]) (1, 1, 1)).groups1 3).elements ∧
    (1 : Nat) ≠ 3 := by
  decide

/-- C10: terminal_test leaves its state with the draw flag evaluated — 0 or
1, never -1 — and changes nothing else: the group board, both registries,
both counters, the player and the size are returned exactly as given. -/
theorem C10_terminal_test_frame (s : State) :
    ((Game.terminal_test s).2.draw = 0 ∨ (Game.terminal_test s).2.draw = 1) ∧
    (Game.terminal_test s).2.group_board = s.group_board ∧
    (Game.terminal_test s).2.groups1 = s.groups1 ∧
    (Game.terminal_test s).2.groups2 = s.groups2 ∧
    (Game.terminal_test s).2.counter1 = s.counter1 ∧
    (Game.terminal_test s).2.counter2 = s.counter2 ∧
    (Game.terminal_test s).2.player = s.player ∧
    (Game.terminal_test s).2.size = s.size := by
  simp only [Game.terminal_test]
  split_ifs <;> refine ⟨?_, rfl, rfl, rfl, rfl, rfl, rfl, rfl⟩ <;> simp

/-- C6: in a state where both players hold a zero-liberty group (mutual
zero) and which is not flagged as a draw, utility awards 1 to the player
not to move and -1 to the mover. -/
theorem C6_mutual_zero {s : State} (h : Reachable s) (p : Nat)
    (h1 : ∃ e ∈ s.groups1, e.2.n_liberties = 0)
    (h2 : ∃ e ∈ s.groups2, e.2.n_liberties = 0)
    (hnd : s.draw ≠ 1) :
    (Game.utility s p).1 = if s.player ≠ p then 1 else -1 := by
  have hInv := reachable_stInv h
  have hmin : ∀ q, Game.minLib (s.groupsOf q) = 0 := by
    intro q
    refine minLib_zero (stInv_groupsOf_nonneg hInv q) ?_
    unfold State.groupsOf
    split
    · exact h1
    · exact h2
  have hz : Game.hasZeroGroup s = true := by
    obtain ⟨e, he, h0⟩ := h1
    simp only [Game.hasZeroGroup, Bool.or_eq_true, List.any_eq_true]
    exact Or.inl ⟨e, he, by simp [h0]⟩
  have htt : (Game.terminal_test s).2 = { s with draw := 0 } := by
    simp only [Game.terminal_test, hasZeroGroup_draw, hz, if_true]
  by_cases hd : s.draw = -1
  · have key := utility_eq s p ({ s with draw := 0 }) (by rw [if_pos hd, htt])
    rw [key]
    rw [if_neg (by simp : ¬ (({ s with draw := 0 } : State).draw = 1))]
    simp only [groupsOf_draw]
    rw [if_pos ⟨hmin (3 - p), hmin p⟩]
  · have key := utility_eq s p s (by rw [if_neg hd])
    rw [key, if_neg hnd, if_pos ⟨hmin (3 - p), hmin p⟩]

theorem C6_mutual_zero_witness :
    (Game.utility (stateFromBoard 1 2 [[1, 2], [2, 1]]) 2).1
      = if (stateFromBoard 1 2 [[1, 2], [2, 1]]).player ≠ 2 then 1 else -1 :=
  C6_mutual_zero (Reachable.init 1 2 [[1, 2], [2, 1]] (Or.inl rfl) (by unfold validBoard; decide) rfl) 2
    (by decide) (by decide) (by decide)

/-- C9: for a reachable state, utility always lies in [-1, 1]; in the
evaluated non-terminal case (draw cache 0, both minimum liberty counts
nonzero) it is the normalized differential (own_min - other_min) /
(own_min + other_min) with a nonzero divisor, lying strictly inside
(-1, 1). -/
theorem C9_utility_range {s : State} (h : Reachable s) (p : Nat) :
    (-1 ≤ (Game.utility s p).1 ∧ (Game.utility s p).1 ≤ 1) ∧
    (s.draw = 0 →
      Game.minLib (s.groupsOf p) ≠ 0 →
      Game.minLib (s.groupsOf (3 - p)) ≠ 0 →
      (Game.utility s p).1
          = ((Game.minLib (s.groupsOf p) - Game.minLib (s.groupsOf (3 - p)) : Int) : Rat)
            / ((Game.minLib (s.groupsOf p) + Game.minLib (s.groupsOf (3 - p)) : Int) : Rat) ∧
      (Game.minLib (s.groupsOf p) + Game.minLib (s.groupsOf (3 - p))) ≠ 0 ∧
      -1 < (Game.utility s p).1 ∧ (Game.utility s p).1 < 1) := by
  have hInv := reachable_stInv h
  obtain ⟨s1, hs1⟩ : ∃ s1, s1 = if s.draw = -1 then (Game.terminal_test s).2 else s := ⟨_, rfl⟩
  have key := utility_eq s p s1 hs1
  have hgq : ∀ q, s1.groupsOf q = s.groupsOf q := by
    intro q
    rw [hs1]
    by_cases hd : s.draw = -1
    · rw [if_pos hd]
      exact terminal_test_groupsOf s q
    · rw [if_neg hd]
  have hs1draw0 : s.draw = 0 → s1 = s := by
    intro h0
    rw [hs1, if_neg (by rw [h0]; decide)]
  simp only [hgq] at key
  by_cases hd1 : s1.draw = 1
  · rw [if_pos hd1] at key
    rw [key]
    refine ⟨⟨by norm_num, by norm_num⟩, ?_⟩
    intro h0 _ _
    rw [hs1draw0 h0, h0] at hd1
    exact absurd hd1 (by decide)
  · rw [if_neg hd1] at key
    by_cases hmz : Game.minLib (s.groupsOf (3 - p)) = 0 ∧ Game.minLib (s.groupsOf p) = 0
    · rw [if_pos hmz] at key
      rw [key]
      refine ⟨⟨?_, ?_⟩, fun _ hown _ => absurd hmz.2 hown⟩
      · show -1 ≤ (if s1.player ≠ p then (1 : Rat) else -1)
        split <;> norm_num
      · show (if s1.player ≠ p then (1 : Rat) else -1) ≤ 1
        split <;> norm_num
    · rw [if_neg hmz] at key
      by_cases ho : Game.minLib (s.groupsOf (3 - p)) = 0
      · rw [if_pos ho] at key
        rw [key]
        exact ⟨⟨by norm_num, by norm_num⟩, fun _ _ hother => absurd ho hother⟩
      · rw [if_neg ho] at key
        by_cases hw : Game.minLib (s.groupsOf p) = 0
        · rw [if_pos hw] at key
          rw [key]
          exact ⟨⟨by norm_num, by norm_num⟩, fun _ hown _ => absurd hw hown⟩
        · rw [if_neg hw] at key
          have ha : 1 ≤ Game.minLib (s.groupsOf p) :=
            minLib_pos (stInv_groupsOf_nonneg hInv p) hw
          have hb : 1 ≤ Game.minLib (s.groupsOf (3 - p)) :=
            minLib_pos (stInv_groupsOf_nonneg hInv (3 - p)) ho
          have hpos : (0 : Rat)
              < ((Game.minLib (s.groupsOf p)
                  + Game.minLib (s.groupsOf (3 - p)) : Int) : Rat) := by
            have h0 : (0 : Int)
                < Game.minLib (s.groupsOf p) + Game.minLib (s.groupsOf (3 - p)) := by
              omega
            exact_mod_cast h0
          have hlt1 : ((Game.minLib (s.groupsOf p)
                - Game.minLib (s.groupsOf (3 - p)) : Int) : Rat)
              / ((Game.minLib (s.groupsOf p)
                  + Game.minLib (s.groupsOf (3 - p)) : Int) : Rat) < 1 := by
            rw [div_lt_one hpos]
            exact_mod_cast (by omega :
              (Game.minLib (s.groupsOf p) - Game.minLib (s.groupsOf (3 - p)) : Int)
                < Game.minLib (s.groupsOf p) + Game.minLib (s.groupsOf (3 - p)))
          have hgt1 : (-1 : Rat)
              < ((Game.minLib (s.groupsOf p)
                  - Game.minLib (s.groupsOf (3 - p)) : Int) : Rat)
                / ((Game.minLib (s.groupsOf p)
                    + Game.minLib (s.groupsOf (3 - p)) : Int) : Rat) := by
            rw [lt_div_iff₀ hpos]
            have hcast : (-1 : Rat) * ((Game.minLib (s.groupsOf p)
                + Game.minLib (s.groupsOf (3 - p)) : Int) : Rat)
                = ((-(Game.minLib (s.groupsOf p)
                    + Game.minLib (s.groupsOf (3 - p))) : Int) : Rat) := by
              push_cast
              ring
            rw [hcast]
            exact_mod_cast (by omega :
              (-(Game.minLib (s.groupsOf p) + Game.minLib (s.groupsOf (3 - p))) : Int)
                < Game.minLib (s.groupsOf p) - Game.minLib (s.groupsOf (3 - p)))
          rw [key]
          exact ⟨⟨le_of_lt hgt1, le_of_lt hlt1⟩, fun _ _ _ => ⟨rfl, by omega, hgt1, hlt1⟩⟩

theorem C9_utility_range_witness :
    -1 ≤ (Game.utility (stateFromBoard 1 2 [[1, 0], [0, 0]]) 1).1 ∧
    (Game.utility (stateFromBoard 1 2 [[1, 0], [0, 0]]) 1).1 ≤ 1 :=
  (C9_utility_range (Reachable.init 1 2 [[1, 0], [0, 0]] (Or.inl rfl) (by unfold validBoard; decide) rfl) 1).1

/-- The first two assignments of State.update_state (advance the player,
clear the draw flag), before update_groups runs. -/
def preMove (s : State) : State := { s with player := 3 - s.player, draw := 0 }

theorem preMove_gb (s : State) : (preMove s).group_board = s.group_board := rfl

theorem preMove_size (s : State) : (preMove s).size = s.size := rfl

theorem preMove_groupsOf (s : State) (q : Nat) : (preMove s).groupsOf q = s.groupsOf q := rfl

set_option maxHeartbeats 1600000 in
/-- C5: when the stone played at (r, c) collects exactly the two distinct
mover groups a and b, the successor registry holds a single merged group
under the surviving id a (b is popped), whose elements are the union of the
two originals plus the new stone and whose liberty count is the cardinality
of the union of the two original liberty sets, minus the newly occupied
cell, plus the empty neighbors the stone contributes — shared liberties
counted once. -/
theorem C5_two_group_merge {s : State} {r c a b : Nat} {gA gB : Group}
    (h : Reachable s)
    (hwl : (((preMove s).phaseA s.player r c)).1 = [a, b])
    (hgA : regFind (s.groupsOf s.player) a = some gA)
    (hgB : regFind (s.groupsOf s.player) b = some gB) :
    ∃ g', regFind ((s.update_state (s.player, r, c)).groupsOf s.player) a = some g' ∧
      regFind ((s.update_state (s.player, r, c)).groupsOf s.player) b = none ∧
      g' = (((gA.remove_liberty r c).add_element [(r, c)]).add_liberties r c
            (setCell s.group_board r c a)).merge_groups (gB.remove_liberty r c) ∧
      g'.elements.toFinset = gA.elements.toFinset ∪ gB.elements.toFinset ∪ {(r, c)} ∧
      g'.n_liberties = ((((gA.liberties ∪ gB.liberties).erase (r, c))
          ∪ nbEmpty (setCell s.group_board r c a) r c).card : Int) := by
  have hInv := reachable_stInv h
  have hp := hInv.psz
  obtain ⟨-, -, -, -, -, hcnA⟩ := (stInv_regOk hInv hp).2 _ (regFind_mem hgA)
  have hpa := phaseA_eq (preMove s) s.player r c
  have hPF := probeFold_spec (r, c) s.player (nbrList (preMove s).size r c) (preMove s) []
  have hcoll : collectLabels (preMove s).group_board s.player
      (nbrList (preMove s).size r c) [] = [a, b] := by
    rw [← hPF.2.2.2.2.2.2.2, ← hpa]
    exact hwl
  have hmemA : a ∈ nbrLabels (preMove s).group_board s.player
      (nbrList (preMove s).size r c) := by
    refine collect_labels ?_
    rw [hcoll]
    exact List.mem_cons_self _ _
  have hmemB : b ∈ nbrLabels (preMove s).group_board s.player
      (nbrList (preMove s).size r c) := by
    refine collect_labels ?_
    rw [hcoll]
    exact List.mem_cons_of_mem _ (List.mem_cons_self _ _)
  have hnd : ([a, b]).Nodup := by
    rw [← hcoll]
    exact collect_nodup _ _ List.nodup_nil
  have hab : a ≠ b := by
    intro hEq
    exact (List.nodup_cons.mp hnd).1 (by rw [hEq]; exact List.mem_cons_self _ _)
  have hupd : s.update_state (s.player, r, c)
      = ((preMove s).phaseA s.player r c).2.joinCase s.player r c a [b] := by
    show (match ((preMove s).phaseA s.player r c).1 with
          | first :: rest =>
            ((preMove s).phaseA s.player r c).2.joinCase s.player r c first rest
          | [] => ((preMove s).phaseA s.player r c).2.loneCase s.player r c)
        = _
    rw [hwl]
  have hAgb : ((preMove s).phaseA s.player r c).2.group_board = s.group_board := by
    rw [hpa, hPF.1, preMove_gb]
  have hAgrp : ((preMove s).phaseA s.player r c).2.groupsOf s.player
      = remAt r c (nbrLabels (preMove s).group_board s.player
          (nbrList (preMove s).size r c)) (s.groupsOf s.player) := by
    rw [hpa, hPF.2.2.2.2.2.2.1 s.player hp, preMove_groupsOf]
  have hjoin := joinCase_eq ((preMove s).phaseA s.player r c).2 s.player r c a [b]
  rw [hAgb, hAgrp] at hjoin
  obtain ⟨T, hT⟩ : ∃ T, T = (({ ((preMove s).phaseA s.player r c).2 with
      group_board := setCell s.group_board r c a } : State).setGroups s.player
      (regSet (remAt r c (nbrLabels (preMove s).group_board s.player
          (nbrList (preMove s).size r c)) (s.groupsOf s.player)) a
        (fun g => (g.add_element [(r, c)]).add_liberties r c
          (setCell s.group_board r c a)))) := ⟨_, rfl⟩
  rw [← hT] at hjoin
  have hjoin2 := hjoin.trans
    (show ([b]).foldl (State.mergeOne s.player a) T = State.mergeOne s.player a T b from rfl)
  have hTgrp : T.groupsOf s.player
      = regSet (remAt r c (nbrLabels (preMove s).group_board s.player
          (nbrList (preMove s).size r c)) (s.groupsOf s.player)) a
          (fun g => (g.add_element [(r, c)]).add_liberties r c
            (setCell s.group_board r c a)) := by
    rw [hT, groupsOf_setGroups _ _ _ _ hp hp, if_pos rfl]
  have hfindB : regFind (T.groupsOf s.player) b = some (gB.remove_liberty r c) := by
    rw [hTgrp, regFind_regSet, regFind_remAt, hgB]
    simp only [Option.map_some']
    rw [if_pos hmemB, if_neg (show ¬ b = a from fun hc => hab hc.symm)]
  have hfindA : regFind (T.groupsOf s.player) a
      = some (((gA.remove_liberty r c).add_element [(r, c)]).add_liberties r c
          (setCell s.group_board r c a)) := by
    rw [hTgrp, regFind_regSet, regFind_remAt, hgA]
    simp only [Option.map_some']
    rw [if_pos hmemA]
    simp only [if_true]
  have hgrp1 : (T.setGroups s.player (regSet (T.groupsOf s.player) a
      (fun fg => fg.merge_groups (gB.remove_liberty r c)))).groupsOf s.player
      = regSet (T.groupsOf s.player) a
          (fun fg => fg.merge_groups (gB.remove_liberty r c)) := by
    rw [groupsOf_setGroups _ _ _ _ hp hp, if_pos rfl]
  have hmstep : State.mergeOne s.player a T b
      = { (T.setGroups s.player (regSet (T.groupsOf s.player) a
            (fun fg => fg.merge_groups (gB.remove_liberty r c)))).setGroups s.player
            (regPop (regSet (T.groupsOf s.player) a
              (fun fg => fg.merge_groups (gB.remove_liberty r c))) b) with
          group_board := (gB.remove_liberty r c).elements.foldl
            (fun gb e => setCell gb e.1 e.2 a) T.group_board } := by
    unfold State.mergeOne
    rw [hfindB]
    simp only []
    rw [hgrp1, gb_setGroups, gb_setGroups]
  have hfin : (State.mergeOne s.player a T b).groupsOf s.player
      = regPop (regSet (T.groupsOf s.player) a
          (fun fg => fg.merge_groups (gB.remove_liberty r c))) b := by
    rw [hmstep, groupsOf_gbup, groupsOf_setGroups _ _ _ _ hp hp, if_pos rfl]
  have hfinB : regFind ((s.update_state (s.player, r, c)).groupsOf s.player) b = none := by
    rw [hupd, hjoin2, hfin]
    exact regFind_regPop_self _ _
  have hfinA : regFind ((s.update_state (s.player, r, c)).groupsOf s.player) a
      = some ((((gA.remove_liberty r c).add_element [(r, c)]).add_liberties r c
          (setCell s.group_board r c a)).merge_groups (gB.remove_liberty r c)) := by
    rw [hupd, hjoin2, hfin, regFind_regPop_ne _ _ _ hab, regFind_regSet, hfindA]
    simp only [Option.map_some', if_true]
  have hels : ((((gA.remove_liberty r c).add_element [(r, c)]).add_liberties r c
      (setCell s.group_board r c a)).merge_groups (gB.remove_liberty r c)).elements
      = (gA.elements ++ [(r, c)]) ++ gB.elements := by
    show (((gA.remove_liberty r c).add_element [(r, c)]).add_liberties r c
        (setCell s.group_board r c a)).elements ++ (gB.remove_liberty r c).elements = _
    rw [add_liberties_elements, add_element_elements, remove_liberty_elements,
      remove_liberty_elements]
  have hlib : ((((gA.remove_liberty r c).add_element [(r, c)]).add_liberties r c
      (setCell s.group_board r c a)).merge_groups (gB.remove_liberty r c)).liberties
      = (((gA.liberties ∪ gB.liberties).erase (r, c))
          ∪ nbEmpty (setCell s.group_board r c a) r c) := by
    show (((gA.remove_liberty r c).add_element [(r, c)]).add_liberties r c
        (setCell s.group_board r c a)).liberties ∪ (gB.remove_liberty r c).liberties = _
    rw [add_liberties_liberties, add_element_liberties, remove_liberty_liberties,
      remove_liberty_liberties]
    ext x
    simp only [Finset.mem_union, Finset.mem_erase]
    tauto
  have hcnt : GroupCnt ((((gA.remove_liberty r c).add_element [(r, c)]).add_liberties r c
      (setCell s.group_board r c a)).merge_groups (gB.remove_liberty r c)) :=
    merge_groups_cnt (add_liberties_cnt _ _ _ (add_element_cnt _ (remove_liberty_cnt _ _ hcnA)))
  have hcnt' : ((((gA.remove_liberty r c).add_element [(r, c)]).add_liberties r c
      (setCell s.group_board r c a)).merge_groups (gB.remove_liberty r c)).n_liberties
      = (((((gA.remove_liberty r c).add_element [(r, c)]).add_liberties r c
          (setCell s.group_board r c a)).merge_groups
            (gB.remove_liberty r c)).liberties.card : Int) := hcnt
  refine ⟨_, hfinA, hfinB, rfl, ?_, ?_⟩
  · rw [hels, List.toFinset_append, List.toFinset_append]
    ext x
    simp only [Finset.mem_union, List.mem_toFinset, List.toFinset_cons, List.toFinset_nil,
      insert_emptyc_eq, Finset.mem_insert, Finset.mem_singleton, List.mem_singleton]
    tauto
  · rw [hcnt', hlib]

/-- A 3-by-3 demonstration state: two separate player-1 stones, both
orthogonally adjacent to the empty top-row center. -/
def demoBridge : State := stateFromBoard 1 3 [[1, 0, 1], [0, 0, 0], [0, 0, 0]]

theorem C5_two_group_merge_witness :
    ∃ g', regFind (((demoBridge.update_state (demoBridge.player, 0, 1))).groupsOf
        demoBridge.player) 3 = some g' ∧
      regFind (((demoBridge.update_state (demoBridge.player, 0, 1))).groupsOf
        demoBridge.player) 1 = none ∧
      g' = ((((regFindD (demoBridge.groupsOf demoBridge.player) 3).remove_liberty 0 1).add_element
            [(0, 1)]).add_liberties 0 1
            (setCell demoBridge.group_board 0 1 3)).merge_groups
          ((regFindD (demoBridge.groupsOf demoBridge.player) 1).remove_liberty 0 1) ∧
      g'.elements.toFinset
          = (regFindD (demoBridge.groupsOf demoBridge.player) 3).elements.toFinset
            ∪ (regFindD (demoBridge.groupsOf demoBridge.player) 1).elements.toFinset
            ∪ {(0, 1)} ∧
      g'.n_liberties = (((((regFindD (demoBridge.groupsOf demoBridge.player) 3).liberties
            ∪ (regFindD (demoBridge.groupsOf demoBridge.player) 1).liberties).erase (0, 1))
          ∪ nbEmpty (setCell demoBridge.group_board 0 1 3) 0 1).card : Int) :=
  @C5_two_group_merge demoBridge 0 1 3 1
    (regFindD (demoBridge.groupsOf demoBridge.player) 3)
    (regFindD (demoBridge.groupsOf demoBridge.player) 1)
    (Reachable.init 1 3 [[1, 0, 1], [0, 0, 0], [0, 0, 0]] (Or.inl rfl)
      (by unfold validBoard; decide) rfl)
    (by decide) (by decide) (by decide)

end AtariGo
